import Mathlib

/-!
# Verification of the Arduino timer library (`util::Timer`, `util::SoftwareTimer`)

Shallow embedding of `src/util_Timer.cpp`, `src/util_SoftwareTimer.cpp` and the
declarations of `src/util/Timer.h`, `src/util/SoftwareTimer.h`.

* A `TimerTicket` object lives at an address (`TicketId`); the client-owned ticket
  memory is the `heap` component of the state, the intrusive list is formed by the
  `m_next_ticket` links exactly as in the source.
* `unsigned long` is 32 bits wide on the target: every arithmetic operation on it is
  reduced modulo `2^32` explicitly.
* Pointer-chasing loops take a `fuel` bound and return `none` when it is exhausted.
* Calling a delegate is recorded in the ghost field `invoked`; calls of the virtual
  `setNextTickTimer` are recorded in the ghost field `armed`.
-/

namespace util

/-! ## Machine arithmetic -/

/-- Number of values of an `unsigned long` on the 32-bit target. -/
def ULONG_MOD : Nat := 4294967296

/-- Unsigned 32-bit addition. -/
def add32 (a b : Nat) : Nat := (a + b) % ULONG_MOD

/-- Unsigned 32-bit subtraction (wraps around below zero). -/
def sub32 (a b : Nat) : Nat := (a + (ULONG_MOD - b % ULONG_MOD)) % ULONG_MOD

/-- Unsigned 32-bit multiplication. -/
def mul32 (a b : Nat) : Nat := (a * b) % ULONG_MOD

/-- Modelled from the spec: `elapsedTime` of `util/time.h` (UtilLib), which is included by
`util_Timer.cpp` but is not part of the sources. The clock adapter provides
"`elapsed(since, now)` with correct wraparound arithmetic" on the 32-bit millisecond
counter. -/
def elapsedTime (since now : Nat) : Nat := sub32 now since

/-! ## `TimerTicket` -/

/-- Address of a `TimerTicket` object owned by the client. -/
abbrev TicketId := Nat

/-- The enum `TimerTicket::units_t`. -/
inductive units_t where
  | MILLIS
  | SECONDS
  | MINUTES
  | HOURS
  | DAYS
  deriving DecidableEq, Repr

/-- Numeric value of an enumerator of `units_t`. -/
def units_t.toNat : units_t → Nat
  | .MILLIS => 0
  | .SECONDS => 1
  | .MINUTES => 2
  | .HOURS => 3
  | .DAYS => 4

/-- The conversion `static_cast<units_t>(n)`. -/
def units_t.fromNat : Nat → units_t
  | 0 => .MILLIS
  | 1 => .SECONDS
  | 2 => .MINUTES
  | 3 => .HOURS
  | _ => .DAYS

/-- Enumerator `flags_t::OFFSET_UNITS`. -/
def OFFSET_UNITS : Nat := 0

/-- Enumerator `flags_t::MASK_UNITS = 0x3 << OFFSET_UNITS`. -/
def MASK_UNITS : Nat := 0x3 <<< OFFSET_UNITS

/-- Enumerator `flags_t::OFFSET_FIRST_FLAG`. -/
def OFFSET_FIRST_FLAG : Nat := 2

/-- Enumerator `flags_t::FLAG_TICKET_SCHEDULED = 1 << OFFSET_FIRST_FLAG`. -/
def FLAG_TICKET_SCHEDULED : Nat := 1 <<< OFFSET_FIRST_FLAG

/-- The data members of `class TimerTicket`. `m_delegate` records whether the
delegate is non-empty (its boolean conversion); the invocation itself is recorded
in the state. -/
structure TimerTicket where
  m_delayOffset : Nat
  m_next_ticket : Option TicketId
  m_delegate : Bool
  m_period : Nat
  m_flags : Nat

namespace TimerTicket

/-- Method `TimerTicket::isFlagEnabled`: `(m_flags & flag) != 0`. -/
def isFlagEnabled (t : TimerTicket) (flag : Nat) : Bool :=
  (t.m_flags &&& flag) != 0

/-- Method `TimerTicket::setFlag`: `m_flags = m_flags | flag`. -/
def setFlag (t : TimerTicket) (flag : Nat) : TimerTicket :=
  { t with m_flags := t.m_flags ||| flag }

/-- Method `TimerTicket::clearFlag`: `m_flags = m_flags & ~flag`. The bits of `m_flags` that
are set in `flag` are removed (`x & ~f = x ^ (x & f)` at every integer width). -/
def clearFlag (t : TimerTicket) (flag : Nat) : TimerTicket :=
  { t with m_flags := t.m_flags ^^^ (t.m_flags &&& flag) }

/-- Method `TimerTicket::isScheduled`. -/
def isScheduled (t : TimerTicket) : Bool :=
  t.isFlagEnabled FLAG_TICKET_SCHEDULED

/-- Method `TimerTicket::getPeriodUnits`: `(m_flags & MASK_UNITS) >> OFFSET_UNITS`. -/
def getPeriodUnits (t : TimerTicket) : units_t :=
  units_t.fromNat ((t.m_flags &&& MASK_UNITS) >>> OFFSET_UNITS)

/-- Method `TimerTicket::setScheduled`. -/
def setScheduled (t : TimerTicket) (value : Bool) : TimerTicket :=
  if value then t.setFlag FLAG_TICKET_SCHEDULED else t.clearFlag FLAG_TICKET_SCHEDULED

/-- Method `TimerTicket::setDelayOffset(uint16_t delay, units_t units)` with the macros
`SECONDS_TO_MILLIS`, `MINUTES_TO_MILLIS`, `HOURS_TO_MILLIS`, `DAYS_TO_MILLIS`
expanded: left-associated products in `unsigned long`. -/
def setDelayOffset (t : TimerTicket) (delay : Nat) (units : units_t) : TimerTicket :=
  match units with
  | .MILLIS => { t with m_delayOffset := delay }
  | .SECONDS => { t with m_delayOffset := mul32 delay 1000 }
  | .MINUTES => { t with m_delayOffset := mul32 (mul32 delay 1000) 60 }
  | .HOURS => { t with m_delayOffset := mul32 (mul32 (mul32 delay 1000) 60) 60 }
  | .DAYS => { t with m_delayOffset := mul32 (mul32 (mul32 (mul32 delay 1000) 60) 60) 24 }

/-- Method `TimerTicket::setPeriodUnits`: `clearFlag(MASK_UNITS); setFlag(units << OFFSET_UNITS)`. -/
def setPeriodUnits (t : TimerTicket) (units : units_t) : TimerTicket :=
  (t.clearFlag MASK_UNITS).setFlag (units.toNat <<< OFFSET_UNITS)

end TimerTicket

/-! ## `Timer` and `SoftwareTimer` -/

/-- Program state: the data members of `Timer` (`m_lastTick`, `m_firstTicket`,
`m_running`) and of its subclass `SoftwareTimer` (`m_delayOffset`, `m_waitingTick`),
the ticket memory `heap`, and two ghost logs: `invoked` lists the tickets whose
delegate was called, oldest first, and `armed` lists the arguments of the calls of
`setNextTickTimer`, oldest first. -/
structure TimerState where
  m_lastTick : Nat
  m_firstTicket : Option TicketId
  m_running : Bool
  m_delayOffset : Nat
  m_waitingTick : Bool
  heap : TicketId → TimerTicket
  invoked : List TicketId
  armed : List Nat

/-- Ticket memory after the object at address `a` has been replaced by `f` of it. -/
def heapModify (h : TicketId → TimerTicket) (a : TicketId) (f : TimerTicket → TimerTicket) :
    TicketId → TimerTicket :=
  fun b => if b = a then f (h b) else h b

namespace TimerState

/-- State after an assignment to the ticket at address `a`. -/
def modify (s : TimerState) (a : TicketId) (f : TimerTicket → TimerTicket) : TimerState :=
  { s with heap := heapModify s.heap a f }

/-- The assignment `a->m_delayOffset = v`. -/
def setDelay (s : TimerState) (a : TicketId) (v : Nat) : TimerState :=
  s.modify a (fun t => { t with m_delayOffset := v })

/-- The assignment `a->m_next_ticket = v`. -/
def setNext (s : TimerState) (a : TicketId) (v : Option TicketId) : TimerState :=
  s.modify a (fun t => { t with m_next_ticket := v })

/-- The field `a->m_delayOffset`. -/
def delay (s : TimerState) (a : TicketId) : Nat := (s.heap a).m_delayOffset

/-- The field `a->m_next_ticket`. -/
def next (s : TimerState) (a : TicketId) : Option TicketId := (s.heap a).m_next_ticket

end TimerState

/-- Constructors `Timer::Timer()` and `SoftwareTimer::SoftwareTimer()` over a given ticket memory. -/
def newTimer (heap : TicketId → TimerTicket) : TimerState :=
  { m_lastTick := 0, m_firstTicket := none, m_running := false,
    m_delayOffset := 0, m_waitingTick := false,
    heap := heap, invoked := [], armed := [] }

/-- Method `SoftwareTimer::setNextTickTimer` (the serial output is not modelled). -/
def setNextTickTimer (s : TimerState) (delay : Nat) : TimerState :=
  { s with m_delayOffset := delay, m_waitingTick := true, armed := s.armed ++ [delay] }

/-- The loop of `Timer::findPreviousTicket`, entered with `current` and `previous`.
The result `some p` is the returned pointer `p`. -/
def findPreviousLoop (heap : TicketId → TimerTicket) (ticket : TicketId) :
    Nat → Option TicketId → Option TicketId → Option (Option TicketId)
  | 0, _, _ => none
  | _ + 1, none, _ => some none
  | fuel + 1, some current, previous =>
    if current = ticket then some previous
    else findPreviousLoop heap ticket fuel (heap current).m_next_ticket (some current)

/-- Method `Timer::findPreviousTicket`. -/
def findPreviousTicket (fuel : Nat) (s : TimerState) (ticket : TicketId) :
    Option (Option TicketId) :=
  findPreviousLoop s.heap ticket fuel s.m_firstTicket none

/-- Method `Timer::removeNextTicket`. -/
def removeNextTicket (s : TimerState) (ticket : TicketId) : TimerState :=
  match s.next ticket with
  | none => s
  | some next =>
    let s1 := s.setNext ticket (s.next next)
    let s2 := s1.setNext next none
    s2.modify next (fun t => t.clearFlag FLAG_TICKET_SCHEDULED)

/-- Method `Timer::removeTicket`. -/
def removeTicket (fuel : Nat) (s : TimerState) (ticket : TicketId) : Option TimerState :=
  if some ticket = s.m_firstTicket then
    let s1 := { s with m_firstTicket := s.next ticket }
    some (s1.modify ticket (fun t => t.setScheduled false))
  else
    match findPreviousTicket fuel s ticket with
    | none => none
    | some none => some (s.modify ticket (fun t => t.setScheduled false))
    | some (some previous) =>
      some ((removeNextTicket s previous).modify ticket (fun t => t.setScheduled false))

/-- The `for` loop of `Timer::addTicket`, entered with `current` and `next`, followed
by the two statements after it. -/
def addTicketLoop (ticket : TicketId) :
    Nat → TimerState → TicketId → Option TicketId → Option TimerState
  | 0, _, _, _ => none
  | _ + 1, s, current, none =>
    let s1 := s.setNext ticket none
    some (s1.setNext current (some ticket))
  | fuel + 1, s, current, some next =>
    let s1 := s.setDelay ticket (sub32 (s.delay ticket) (s.delay current))
    if s1.delay ticket < s1.delay next then
      let s2 := s1.setDelay next (sub32 (s1.delay next) (s1.delay ticket))
      let s3 := s2.setNext ticket (some next)
      some (s3.setNext current (some ticket))
    else
      addTicketLoop ticket fuel s1 next (s1.next next)

/-- Method `Timer::addTicket` after the optional `removeTicket`: from
`ticket.setScheduled(true)` on. -/
def addTicketInsert (fuel : Nat) (s : TimerState) (ticket : TicketId) : Option TimerState :=
  let s1 := s.modify ticket (fun t => t.setScheduled true)
  match s1.m_firstTicket with
  | none =>
    let s2 := { s1 with m_firstTicket := some ticket }
    some (s2.setNext ticket none)
  | some first =>
    if s1.delay ticket ≤ s1.delay first then
      let s2 := s1.setDelay first (sub32 (s1.delay first) (s1.delay ticket))
      let s3 := s2.setNext ticket (some first)
      some { s3 with m_firstTicket := some ticket }
    else
      addTicketLoop ticket fuel s1 first (s1.next first)

/-- Method `Timer::addTicket`. -/
def addTicket (fuel : Nat) (s : TimerState) (ticket : TicketId) : Option TimerState :=
  if (s.heap ticket).isScheduled then
    match removeTicket fuel s ticket with
    | none => none
    | some s1 => addTicketInsert fuel s1 ticket
  else
    addTicketInsert fuel s ticket

/-- The five-argument `Timer::schedRepeat`; `now` is the value returned by `millis()`.
The result is the new state and the returned `bool`. -/
def schedRepeat (fuel : Nat) (s : TimerState) (now : Nat) (ticket : TicketId)
    (delayOffset : Nat) (delayUnits : units_t) (period : Nat) (periodUnits : units_t) :
    Option (TimerState × Bool) :=
  let s1 := s.modify ticket (fun t => t.setDelayOffset delayOffset delayUnits)
  let s2 := s1.modify ticket (fun t => { t with m_period := period })
  let s3 := s2.modify ticket (fun t => t.setPeriodUnits periodUnits)
  let s4 := s3.setDelay ticket (add32 (s3.delay ticket) (elapsedTime s3.m_lastTick now))
  match addTicket fuel s4 ticket with
  | none => none
  | some s5 => some (s5, true)

/-- Method `Timer::schedOneTime`. -/
def schedOneTime (fuel : Nat) (s : TimerState) (now : Nat) (ticket : TicketId)
    (delay : Nat) (units : units_t) : Option (TimerState × Bool) :=
  schedRepeat fuel s now ticket delay units 0 units_t.MILLIS

/-- The three-argument `Timer::schedRepeat`. -/
def schedRepeat3 (fuel : Nat) (s : TimerState) (now : Nat) (ticket : TicketId)
    (period : Nat) (periodUnits : units_t) : Option (TimerState × Bool) :=
  schedRepeat fuel s now ticket 0 units_t.MILLIS period periodUnits

/-- The `for` loop of `Timer::updateSchedule`, entered with `ticket` and `elapsed`. -/
def updateScheduleLoop : Nat → TimerState → Option TicketId → Nat → Option TimerState
  | 0, _, _, _ => none
  | _ + 1, s, none, _ => some s
  | fuel + 1, s, some ticket, elapsed =>
    if s.delay ticket ≥ elapsed then
      some (s.setDelay ticket (sub32 (s.delay ticket) elapsed))
    else
      let s1 := s.setDelay ticket 0
      let elapsed1 := sub32 elapsed (s1.delay ticket)
      updateScheduleLoop fuel s1 (s1.next ticket) elapsed1

/-- Method `Timer::updateSchedule`. -/
def updateSchedule (fuel : Nat) (s : TimerState) (newTick : Nat) : Option TimerState :=
  let elapsed := elapsedTime s.m_lastTick newTick
  match updateScheduleLoop fuel s s.m_firstTicket elapsed with
  | none => none
  | some s1 => some { s1 with m_lastTick := newTick }

/-- The `while` loop of `Timer::doTick`; the first argument bounds the number of
iterations, `fuel` bounds the loops of the calls of `addTicket`. -/
def doTickLoop (fuel : Nat) : Nat → TimerState → Option TimerState
  | 0, _ => none
  | n + 1, s =>
    match s.m_firstTicket with
    | none => some s
    | some first =>
      if s.delay first = 0 then
        let ticket := first
        let s1 := { s with m_firstTicket := s.next first }
        let s2 := if (s1.heap ticket).m_delegate then
            { s1 with invoked := s1.invoked ++ [ticket] } else s1
        let s3 := s2.setNext ticket none
        let s4 := s3.modify ticket (fun t => t.setScheduled false)
        if (s4.heap ticket).m_period ≠ 0 then
          let s5 := s4.modify ticket
            (fun t => t.setDelayOffset t.m_period t.getPeriodUnits)
          match addTicket fuel s5 ticket with
          | none => none
          | some s6 => doTickLoop fuel n s6
        else
          doTickLoop fuel n s4
      else
        some s

/-- Method `Timer::doTick`. -/
def doTick (fuel : Nat) (s : TimerState) (currentMs : Nat) : Option TimerState :=
  match updateSchedule fuel s currentMs with
  | none => none
  | some s1 =>
    match doTickLoop fuel fuel s1 with
    | none => none
    | some s2 =>
      match s2.m_firstTicket with
      | none => some s2
      | some first =>
        if s2.m_running then some (setNextTickTimer s2 (s2.delay first)) else some s2

/-- Method `Timer::start`. -/
def start (s : TimerState) : TimerState :=
  if !s.m_running then
    let s1 := { s with m_running := true }
    match s1.m_firstTicket with
    | none => s1
    | some first => setNextTickTimer s1 (s1.delay first)
  else s

/-- Method `Timer::stop`. -/
def stop (s : TimerState) : TimerState :=
  if s.m_running then { s with m_running := false } else s

/-- Method `SoftwareTimer::process`; `now` is the value returned by `millis()`. -/
def process (fuel : Nat) (s : TimerState) (now : Nat) : Option TimerState :=
  if s.m_waitingTick then
    let current := now
    if elapsedTime s.m_lastTick current ≥ s.m_delayOffset then
      let s1 := { s with m_waitingTick := false }
      doTick fuel s1 current
    else some s
  else some s

/-! ## Observations used in the statements -/

/-- The addresses reached from `p` by following `m_next_ticket`, at most `fuel` of them
(`none` when the walk does not reach the null pointer). -/
def walk (heap : TicketId → TimerTicket) : Nat → Option TicketId → Option (List TicketId)
  | 0, _ => none
  | _ + 1, none => some []
  | fuel + 1, some a =>
    match walk heap fuel (heap a).m_next_ticket with
    | none => none
    | some l => some (a :: l)

/-- The list `l` is the queue that starts at pointer `p`: the `m_next_ticket` links lead
from `p` through the addresses of `l`, in order, to the null pointer. -/
def IsQueue (heap : TicketId → TimerTicket) : Option TicketId → List TicketId → Prop
  | p, [] => p = none
  | p, a :: l => p = some a ∧ IsQueue heap (heap a).m_next_ticket l

/-- Whether `l` is the queue that starts at `p` can be computed. -/
instance IsQueue.decidable (heap : TicketId → TimerTicket) :
    ∀ (l : List TicketId) (p : Option TicketId), Decidable (IsQueue heap p l)
  | [], p => inferInstanceAs (Decidable (p = none))
  | a :: l, p =>
    @instDecidableAnd (p = some a) (IsQueue heap (heap a).m_next_ticket l) inferInstance
      (IsQueue.decidable heap l (heap a).m_next_ticket)

/-- Sum of the `m_delayOffset` fields of the tickets of `l`. -/
def sumDelay (heap : TicketId → TimerTicket) (l : List TicketId) : Nat :=
  (l.map (fun a => (heap a).m_delayOffset)).sum

/-- Absolute remaining delay of ticket `a` in the queue `l`: the sum of the
`m_delayOffset` fields from the head of `l` up to and including `a`. -/
def absDelay (heap : TicketId → TimerTicket) (l : List TicketId) (a : TicketId) : Nat :=
  sumDelay heap (l.take (l.indexOf a + 1))

/-- A call of the public interface of `SoftwareTimer`, or of the protected `doTick`
that the low-level driver performs. Clock readings (`now`) are the values of `millis()`
at the call. -/
inductive Call where
  | schedOneTime (now : Nat) (ticket : TicketId) (delay : Nat) (units : units_t)
  | schedRepeat (now : Nat) (ticket : TicketId) (delay : Nat) (delayUnits : units_t)
      (period : Nat) (periodUnits : units_t)
  | schedRepeat3 (now : Nat) (ticket : TicketId) (period : Nat) (periodUnits : units_t)
  | doTick (currentMs : Nat)
  | start
  | stop
  | process (now : Nat)

/-- Effect of one call on the state. -/
def step (fuel : Nat) (s : TimerState) : Call → Option TimerState
  | .schedOneTime now ticket delay units =>
    (schedOneTime fuel s now ticket delay units).map Prod.fst
  | .schedRepeat now ticket delay delayUnits period periodUnits =>
    (schedRepeat fuel s now ticket delay delayUnits period periodUnits).map Prod.fst
  | .schedRepeat3 now ticket period periodUnits =>
    (schedRepeat3 fuel s now ticket period periodUnits).map Prod.fst
  | .doTick currentMs => doTick fuel s currentMs
  | .start => some (start s)
  | .stop => some (stop s)
  | .process now => process fuel s now

/-- Effect of a sequence of calls, first call first. -/
def run (fuel : Nat) (s : TimerState) : List Call → Option TimerState
  | [] => some s
  | c :: cs =>
    match step fuel s c with
    | none => none
    | some s1 => run fuel s1 cs

/-- The queue as the list of its tickets with their `m_delayOffset`, head first. -/
def queueView (fuel : Nat) (s : TimerState) : Option (List (TicketId × Nat)) :=
  (walk s.heap fuel s.m_firstTicket).map (fun l => l.map (fun a => (a, s.delay a)))

/-- A ticket that is not scheduled: null link, clear flags, no period, with a
non-empty delegate. -/
def idleTicket : TimerTicket :=
  { m_delayOffset := 0, m_next_ticket := none, m_delegate := true, m_period := 0,
    m_flags := 0 }

/-- Ticket memory in which every ticket is idle. -/
def idleHeap : TicketId → TimerTicket := fun _ => idleTicket

/-- Well-formed queue `l` of state `s`: the links lead from `m_firstTicket` through
the tickets of `l` to the null pointer, and every ticket of the queue is marked
scheduled. -/
def WellFormed (s : TimerState) (l : List TicketId) : Prop :=
  IsQueue s.heap s.m_firstTicket l ∧ ∀ a ∈ l, (s.heap a).isScheduled = true

/-- Well-formedness of a given list can be computed. -/
instance WellFormed.decidable (s : TimerState) (l : List TicketId) :
    Decidable (WellFormed s l) :=
  inferInstanceAs (Decidable (IsQueue s.heap s.m_firstTicket l ∧
    ∀ a ∈ l, (s.heap a).isScheduled = true))

/-- Ticket memory holding the queue `1 → 2` with offsets `5` and `10`. -/
def pairHeap : TicketId → TimerTicket := fun a =>
  if a = 1 then
    { m_delayOffset := 5, m_next_ticket := some 2, m_delegate := true, m_period := 0,
      m_flags := 4 }
  else if a = 2 then
    { m_delayOffset := 10, m_next_ticket := none, m_delegate := true, m_period := 0,
      m_flags := 4 }
  else idleTicket

/-- A stopped timer at time `0` whose queue is `1 → 2`. -/
def pairState : TimerState :=
  { newTimer pairHeap with m_firstTicket := some 1 }

/-- Ticket `T` is alone in the queue of `s`, with offset `D`, and repeats every `p`
milliseconds. -/
def Periodic (s : TimerState) (T : TicketId) (D p : Nat) : Prop :=
  s.m_firstTicket = some T ∧ (s.heap T).m_next_ticket = none ∧
  (s.heap T).m_delayOffset = D ∧ (s.heap T).m_period = p ∧
  (s.heap T).getPeriodUnits = units_t.MILLIS ∧ (s.heap T).isScheduled = true ∧
  (s.heap T).m_delegate = true

/-- The clock readings `now + p`, `now + 2 p`, ..., `now + k p` of the 32-bit
millisecond counter. -/
def tickTimes (now p k : Nat) : List Nat :=
  (List.range k).map (fun i => (now + (i + 1) * p) % ULONG_MOD)

/-- Absolute remaining delay of ticket `a` in the queue of `s` (`none` when the walk
along the links does not end within `fuel` steps). -/
def absDelayOf (fuel : Nat) (s : TimerState) (a : TicketId) : Option Nat :=
  (walk s.heap fuel s.m_firstTicket).map (fun l => absDelay s.heap l a)

/-- Factor of the unit conversion table of the specification: milliseconds per unit. -/
def millisPerUnit : units_t → Nat
  | .MILLIS => 1
  | .SECONDS => 1000
  | .MINUTES => 60000
  | .HOURS => 3600000
  | .DAYS => 86400000

/-- State in which the five-argument `schedRepeat` calls `addTicket`: the ticket carries
the converted delay plus the elapsed time, the period and the period unit. -/
def schedRepeatEntry (s : TimerState) (now : Nat) (ticket : TicketId)
    (delayOffset : Nat) (delayUnits : units_t) (period : Nat) (periodUnits : units_t) :
    TimerState :=
  (((s.modify ticket (fun t => t.setDelayOffset delayOffset delayUnits)).modify ticket
    (fun t => { t with m_period := period })).modify ticket
    (fun t => t.setPeriodUnits periodUnits)).setDelay ticket
      (add32 ((s.heap ticket).setDelayOffset delayOffset delayUnits).m_delayOffset
        (elapsedTime s.m_lastTick now))

/-- Modelled on the words of the specification: `scheduleOnce(ticket, delay, unit)` is
`scheduleRepeating(ticket, delay, unit, 0, unit)`. -/
def scheduleOnce_spec (fuel : Nat) (s : TimerState) (now : Nat) (ticket : TicketId)
    (delay : Nat) (units : units_t) : Option (TimerState × Bool) :=
  schedRepeat fuel s now ticket delay units 0 units

/-- Two tickets agree in everything but the stored period unit: same offset, link,
delegate, period and scheduled flag. -/
def TimerTicket.SameButUnits (t t1 : TimerTicket) : Prop :=
  t.m_delayOffset = t1.m_delayOffset ∧ t.m_next_ticket = t1.m_next_ticket ∧
  t.m_delegate = t1.m_delegate ∧ t.m_period = t1.m_period ∧
  t.isScheduled = t1.isScheduled

/-- Two states agree in everything but the stored period units of the tickets. -/
def TimerState.SameButUnits (s s1 : TimerState) : Prop :=
  s.m_lastTick = s1.m_lastTick ∧ s.m_firstTicket = s1.m_firstTicket ∧
  s.m_running = s1.m_running ∧ s.m_delayOffset = s1.m_delayOffset ∧
  s.m_waitingTick = s1.m_waitingTick ∧ s.invoked = s1.invoked ∧ s.armed = s1.armed ∧
  ∀ a, (s.heap a).SameButUnits (s1.heap a)

/-- Invariant of the timer at the boundaries of its operations: the links form the
queue `l`, a ticket is marked scheduled exactly when it is in the queue, and the
tickets of the queue hold 32-bit offsets and 16-bit periods. -/
def QueueInv (s : TimerState) (l : List TicketId) : Prop :=
  IsQueue s.heap s.m_firstTicket l ∧
  (∀ a, (s.heap a).isScheduled = true ↔ a ∈ l) ∧
  (∀ a ∈ l, s.delay a < ULONG_MOD) ∧
  (∀ a ∈ l, (s.heap a).m_period < 65536)

/-- Number of tickets at the front of `l` whose offset is zero. -/
def zeroPrefix (s : TimerState) (l : List TicketId) : Nat :=
  (l.takeWhile (fun a => decide (s.delay a = 0))).length

/-- The period argument of a call fits its parameter type `time_t` (`uint16_t`). -/
def Call.WellTyped : Call → Prop
  | .schedRepeat _ _ _ _ period _ => period < 65536
  | .schedRepeat3 _ _ period _ => period < 65536
  | _ => True

/-- Whether a call is well typed can be computed. -/
instance Call.WellTyped.decidable : ∀ c : Call, Decidable c.WellTyped
  | .schedOneTime _ _ _ _ => inferInstanceAs (Decidable True)
  | .schedRepeat _ _ _ _ period _ => inferInstanceAs (Decidable (period < 65536))
  | .schedRepeat3 _ _ period _ => inferInstanceAs (Decidable (period < 65536))
  | .doTick _ => inferInstanceAs (Decidable True)
  | .start => inferInstanceAs (Decidable True)
  | .stop => inferInstanceAs (Decidable True)
  | .process _ => inferInstanceAs (Decidable True)

/-- Ticket memory holding the queue `1 → 2 → 3` with offsets `0`, `0` and `7`:
ticket `1` repeats every `3` seconds, ticket `2` is one-shot and ticket `3` repeats
every `2` milliseconds. -/
def dueHeap : TicketId → TimerTicket := fun a =>
  if a = 1 then
    { m_delayOffset := 0, m_next_ticket := some 2, m_delegate := true, m_period := 3,
      m_flags := 5 }
  else if a = 2 then
    { m_delayOffset := 0, m_next_ticket := some 3, m_delegate := true, m_period := 0,
      m_flags := 4 }
  else if a = 3 then
    { m_delayOffset := 7, m_next_ticket := none, m_delegate := true, m_period := 2,
      m_flags := 4 }
  else idleTicket

/-- A stopped timer at time `0` whose queue is `1 → 2 → 3`, the first two tickets due. -/
def dueState : TimerState :=
  { newTimer dueHeap with m_firstTicket := some 1 }

/-- The loop of `Timer::addTicket` (as `addTicketLoop`) together with the list of the
unsigned subtractions `a -= b` it performs, in program order, each recorded as the
pair `(a, b)` of the values of minuend and subtrahend at the statement. -/
def addTicketLoopLog (ticket : TicketId) :
    Nat → TimerState → TicketId → Option TicketId → Option (TimerState × List (Nat × Nat))
  | 0, _, _, _ => none
  | _ + 1, s, current, none =>
    let s1 := s.setNext ticket none
    some (s1.setNext current (some ticket), [])
  | fuel + 1, s, current, some next =>
    let s1 := s.setDelay ticket (sub32 (s.delay ticket) (s.delay current))
    if s1.delay ticket < s1.delay next then
      let s2 := s1.setDelay next (sub32 (s1.delay next) (s1.delay ticket))
      let s3 := s2.setNext ticket (some next)
      some (s3.setNext current (some ticket),
        [(s.delay ticket, s.delay current), (s1.delay next, s1.delay ticket)])
    else
      (addTicketLoopLog ticket fuel s1 next (s1.next next)).map
        (fun r => (r.1, (s.delay ticket, s.delay current) :: r.2))

/-- Method `Timer::addTicket` from `ticket.setScheduled(true)` on (as
`addTicketInsert`) together with the list of its subtractions. -/
def addTicketInsertLog (fuel : Nat) (s : TimerState) (ticket : TicketId) :
    Option (TimerState × List (Nat × Nat)) :=
  let s1 := s.modify ticket (fun t => t.setScheduled true)
  match s1.m_firstTicket with
  | none =>
    let s2 := { s1 with m_firstTicket := some ticket }
    some (s2.setNext ticket none, [])
  | some first =>
    if s1.delay ticket ≤ s1.delay first then
      let s2 := s1.setDelay first (sub32 (s1.delay first) (s1.delay ticket))
      let s3 := s2.setNext ticket (some first)
      some ({ s3 with m_firstTicket := some ticket }, [(s1.delay first, s1.delay ticket)])
    else
      addTicketLoopLog ticket fuel s1 first (s1.next first)

/-- Method `Timer::addTicket` together with the list of its subtractions. -/
def addTicketLog (fuel : Nat) (s : TimerState) (ticket : TicketId) :
    Option (TimerState × List (Nat × Nat)) :=
  if (s.heap ticket).isScheduled then
    match removeTicket fuel s ticket with
    | none => none
    | some s1 => addTicketInsertLog fuel s1 ticket
  else
    addTicketInsertLog fuel s ticket

/-- The `for` loop of `Timer::updateSchedule` (as `updateScheduleLoop`) together with
the list of its subtractions: `ticket->m_delayOffset -= elapsed` and
`elapsed -= ticket->m_delayOffset`. -/
def updateScheduleLoopLog :
    Nat → TimerState → Option TicketId → Nat → Option (TimerState × List (Nat × Nat))
  | 0, _, _, _ => none
  | _ + 1, s, none, _ => some (s, [])
  | fuel + 1, s, some ticket, elapsed =>
    if s.delay ticket ≥ elapsed then
      some (s.setDelay ticket (sub32 (s.delay ticket) elapsed), [(s.delay ticket, elapsed)])
    else
      let s1 := s.setDelay ticket 0
      let elapsed1 := sub32 elapsed (s1.delay ticket)
      (updateScheduleLoopLog fuel s1 (s1.next ticket) elapsed1).map
        (fun r => (r.1, (elapsed, s1.delay ticket) :: r.2))

/-- Method `Timer::updateSchedule` together with the list of its subtractions. -/
def updateScheduleLog (fuel : Nat) (s : TimerState) (newTick : Nat) :
    Option (TimerState × List (Nat × Nat)) :=
  let elapsed := elapsedTime s.m_lastTick newTick
  match updateScheduleLoopLog fuel s s.m_firstTicket elapsed with
  | none => none
  | some r => some ({ r.1 with m_lastTick := newTick }, r.2)

/-! ## Flag words -/

theorem four_eq_two_pow : (4 : Nat) = 2 ^ 2 := rfl

theorem three_eq_two_pow_sub : (3 : Nat) = 2 ^ 2 - 1 := rfl

/-- The scheduled flag is bit 2 of the flag word. -/
theorem TimerTicket.isScheduled_eq_testBit (t : TimerTicket) :
    t.isScheduled = t.m_flags.testBit 2 := by
  have h := Nat.and_two_pow t.m_flags 2
  simp only [TimerTicket.isScheduled, TimerTicket.isFlagEnabled, FLAG_TICKET_SCHEDULED,
    OFFSET_FIRST_FLAG]
  change (t.m_flags &&& 2 ^ 2 != 0) = t.m_flags.testBit 2
  rw [h]
  cases t.m_flags.testBit 2 <;> simp

/-- The stored period unit is read from the two low bits of the flag word. -/
theorem TimerTicket.getPeriodUnits_eq_mod (t : TimerTicket) :
    t.getPeriodUnits = units_t.fromNat (t.m_flags % 4) := by
  have h := Nat.and_pow_two_sub_one_eq_mod t.m_flags 2
  simp only [TimerTicket.getPeriodUnits, MASK_UNITS, OFFSET_UNITS, Nat.shiftLeft_zero,
    Nat.shiftRight_zero]
  change units_t.fromNat (t.m_flags &&& 2 ^ 2 - 1) = _
  rw [h]

theorem mod_four_eq_of_testBit {x y : Nat}
    (h : ∀ i, i < 2 → x.testBit i = y.testBit i) : x % 4 = y % 4 := by
  rw [four_eq_two_pow]
  apply Nat.eq_of_testBit_eq
  intro i
  rw [Nat.testBit_mod_two_pow, Nat.testBit_mod_two_pow]
  by_cases hi : i < 2
  · simp [hi, h i hi]
  · simp [hi]

theorem testBit_four (i : Nat) : Nat.testBit 4 i = decide (2 = i) := by
  rw [four_eq_two_pow]; exact Nat.testBit_two_pow

theorem testBit_three (i : Nat) : Nat.testBit 3 i = decide (i < 2) := by
  rw [three_eq_two_pow_sub]; exact Nat.testBit_two_pow_sub_one 2 i

theorem setScheduled_true_isScheduled (t : TimerTicket) :
    (t.setScheduled true).isScheduled = true := by
  rw [TimerTicket.isScheduled_eq_testBit]
  simp [TimerTicket.setScheduled, TimerTicket.setFlag, FLAG_TICKET_SCHEDULED,
    OFFSET_FIRST_FLAG, Nat.testBit_or, testBit_four]

theorem setScheduled_false_isScheduled (t : TimerTicket) :
    (t.setScheduled false).isScheduled = false := by
  rw [TimerTicket.isScheduled_eq_testBit]
  simp [TimerTicket.setScheduled, TimerTicket.clearFlag, FLAG_TICKET_SCHEDULED,
    OFFSET_FIRST_FLAG, Nat.testBit_xor, Nat.testBit_and, testBit_four]

theorem setScheduled_getPeriodUnits (t : TimerTicket) (b : Bool) :
    (t.setScheduled b).getPeriodUnits = t.getPeriodUnits := by
  rw [TimerTicket.getPeriodUnits_eq_mod, TimerTicket.getPeriodUnits_eq_mod]
  congr 1
  apply mod_four_eq_of_testBit
  intro i hi
  have h2 : ¬ (2 = i) := by omega
  cases b <;>
    simp [TimerTicket.setScheduled, TimerTicket.clearFlag, TimerTicket.setFlag,
      FLAG_TICKET_SCHEDULED, OFFSET_FIRST_FLAG, Nat.testBit_xor, Nat.testBit_and,
      Nat.testBit_or, testBit_four, h2]

/-- Storing a unit keeps a scheduled flag that is already set. -/
theorem setPeriodUnits_isScheduled_of (t : TimerTicket) (u : units_t)
    (h : t.isScheduled = true) : (t.setPeriodUnits u).isScheduled = true := by
  rw [TimerTicket.isScheduled_eq_testBit] at h ⊢
  simp [TimerTicket.setPeriodUnits, TimerTicket.clearFlag, TimerTicket.setFlag,
    MASK_UNITS, OFFSET_UNITS, Nat.testBit_xor, Nat.testBit_and, Nat.testBit_or,
    testBit_three, h]

/-- Storing `MILLIS` leaves the scheduled flag as it is. -/
theorem setPeriodUnits_MILLIS_isScheduled (t : TimerTicket) :
    (t.setPeriodUnits units_t.MILLIS).isScheduled = t.isScheduled := by
  rw [TimerTicket.isScheduled_eq_testBit, TimerTicket.isScheduled_eq_testBit]
  simp [TimerTicket.setPeriodUnits, TimerTicket.clearFlag, TimerTicket.setFlag,
    MASK_UNITS, OFFSET_UNITS, Nat.testBit_xor, Nat.testBit_and, Nat.testBit_or,
    testBit_three, units_t.toNat]

/-- Storing `MILLIS` and reading the unit back gives `MILLIS`. -/
theorem setPeriodUnits_MILLIS_getPeriodUnits (t : TimerTicket) :
    (t.setPeriodUnits units_t.MILLIS).getPeriodUnits = units_t.MILLIS := by
  rw [TimerTicket.getPeriodUnits_eq_mod]
  have h : (t.setPeriodUnits units_t.MILLIS).m_flags % 4 = 0 % 4 := by
    apply mod_four_eq_of_testBit
    intro i hi
    simp [TimerTicket.setPeriodUnits, TimerTicket.clearFlag, TimerTicket.setFlag,
      MASK_UNITS, OFFSET_UNITS, Nat.testBit_xor, Nat.testBit_and, Nat.testBit_or,
      testBit_three, units_t.toNat, hi]
  rw [h]; rfl

/-! ## Ticket memory and queues -/

@[simp]
theorem heapModify_same (h : TicketId → TimerTicket) (a : TicketId)
    (f : TimerTicket → TimerTicket) : heapModify h a f a = f (h a) := by
  simp [heapModify]

theorem heapModify_other (h : TicketId → TimerTicket) (a b : TicketId)
    (f : TimerTicket → TimerTicket) (hb : b ≠ a) : heapModify h a f b = h b := by
  simp [heapModify, hb]

/-- A queue only depends on the links of its own tickets. -/
theorem IsQueue.congr {h h1 : TicketId → TimerTicket} :
    ∀ {l : List TicketId} {p : Option TicketId},
      (∀ a ∈ l, (h1 a).m_next_ticket = (h a).m_next_ticket) →
      IsQueue h p l → IsQueue h1 p l
  | [], _, _, hq => hq
  | a :: l, _, hn, hq => by
    refine ⟨hq.1, ?_⟩
    rw [hn a (List.mem_cons_self a l)]
    exact IsQueue.congr (fun b hb => hn b (List.mem_cons_of_mem a hb)) hq.2

/-- The queue that starts at a pointer is unique. -/
theorem IsQueue.unique {h : TicketId → TimerTicket} :
    ∀ {l l1 : List TicketId} {p : Option TicketId},
      IsQueue h p l → IsQueue h p l1 → l = l1
  | [], [], _, _, _ => rfl
  | [], b :: l1, _, hq, hq1 => by
    have h1 : _ = none := hq
    have h2 := hq1.1
    rw [h1] at h2
    cases h2
  | a :: l, [], _, hq, hq1 => by
    have h1 : _ = none := hq1
    have h2 := hq.1
    rw [h1] at h2
    cases h2
  | a :: l, b :: l1, _, hq, hq1 => by
    have h2 := hq.1
    rw [hq1.1] at h2
    cases h2
    rw [IsQueue.unique hq.2 hq1.2]

/-- The tickets behind a member of a queue form the queue of its link. -/
theorem IsQueue.suffix {h : TicketId → TimerTicket} {a : TicketId} {v : List TicketId} :
    ∀ {u : List TicketId} {p : Option TicketId},
      IsQueue h p (u ++ a :: v) → IsQueue h (h a).m_next_ticket v
  | [], _, hq => hq.2
  | _ :: u, _, hq => IsQueue.suffix (u := u) hq.2

/-- A queue is acyclic: no ticket occurs in it twice. -/
theorem IsQueue.nodup {h : TicketId → TimerTicket} :
    ∀ {l : List TicketId} {p : Option TicketId}, IsQueue h p l → l.Nodup
  | [], _, _ => List.nodup_nil
  | a :: l, _, hq => by
    refine List.nodup_cons.mpr ⟨?_, IsQueue.nodup hq.2⟩
    intro hmem
    obtain ⟨u, v, huv⟩ := List.append_of_mem hmem
    have h1 : IsQueue h (h a).m_next_ticket (u ++ a :: v) := huv ▸ hq.2
    have h2 : IsQueue h (h a).m_next_ticket v := IsQueue.suffix h1
    have h3 := congrArg List.length (IsQueue.unique h1 h2)
    simp at h3
    omega

/-- Walking a queue with enough fuel lists it. -/
theorem walk_of_isQueue {h : TicketId → TimerTicket} :
    ∀ {l : List TicketId} {p : Option TicketId} {fuel : Nat},
      IsQueue h p l → l.length < fuel → walk h fuel p = some l
  | [], _, fuel, hq, hf => by
    have h1 : _ = none := hq
    subst h1
    cases fuel with
    | zero => simp at hf
    | succ n => rfl
  | a :: l, _, fuel, hq, hf => by
    have h1 := hq.1
    subst h1
    cases fuel with
    | zero => simp at hf
    | succ n =>
      have h2 : walk h n (h a).m_next_ticket = some l :=
        walk_of_isQueue hq.2 (by simpa using hf)
      simp [walk, h2]

/-- Unlinking ticket `T` behind `p`: when the link of `p` is redirected to the link of
`T`, the queue loses exactly `T`. -/
theorem IsQueue.unlink {h h1 : TicketId → TimerTicket} {p T : TicketId}
    {l2 : List TicketId} :
    ∀ {l1 : List TicketId} {q : Option TicketId},
      IsQueue h q (l1 ++ p :: T :: l2) → (l1 ++ p :: T :: l2).Nodup →
      (∀ a, a ≠ p → a ≠ T → (h1 a).m_next_ticket = (h a).m_next_ticket) →
      (h1 p).m_next_ticket = (h T).m_next_ticket →
      IsQueue h1 q (l1 ++ p :: l2)
  | [], _, hq, hnd, hfr, hp => by
    refine ⟨hq.1, ?_⟩
    rw [hp]
    refine IsQueue.congr (fun a ha => hfr a ?_ ?_) hq.2.2
    · rintro rfl
      simp at hnd
      exact hnd.1.2 ha
    · rintro rfl
      simp at hnd
      exact hnd.2.1 ha
  | b :: l1, _, hq, hnd, hfr, hp => by
    have hnd1 := List.nodup_cons.mp hnd
    refine ⟨hq.1, ?_⟩
    have hb : (h1 b).m_next_ticket = (h b).m_next_ticket := by
      apply hfr
      · rintro rfl
        exact hnd1.1 (by simp)
      · rintro rfl
        exact hnd1.1 (by simp)
    rw [hb]
    exact @IsQueue.unlink h h1 p T l2 l1 _ hq.2 hnd1.2 hfr hp

/-! ## Removal -/

/-- The search loop returns the predecessor of a ticket that is behind the head. -/
theorem findPreviousLoop_pred {h : TicketId → TimerTicket} {T p : TicketId}
    {l2 : List TicketId} :
    ∀ {l1 : List TicketId} {cur prev : Option TicketId} {fuel : Nat},
      IsQueue h cur (l1 ++ p :: T :: l2) → T ∉ l1 → T ≠ p → l1.length + 1 < fuel →
      findPreviousLoop h T fuel cur prev = some (some p)
  | [], _, _, fuel, hq, _, hp, hf => by
    have h1 := hq.1
    subst h1
    have h2 : (h p).m_next_ticket = some T := hq.2.1
    obtain ⟨g, rfl⟩ : ∃ g, fuel = g + 2 := ⟨fuel - 2, by simp at hf; omega⟩
    simp [findPreviousLoop, h2, Ne.symm hp]
  | b :: l1, _, _, fuel, hq, hT, hp, hf => by
    have h1 := hq.1
    subst h1
    obtain ⟨g, rfl⟩ : ∃ g, fuel = g + 1 := ⟨fuel - 1, by simp at hf; omega⟩
    have hb : b ≠ T := by
      rintro rfl
      exact hT (by simp)
    have hT1 : T ∉ l1 := fun hm => hT (List.mem_cons_of_mem b hm)
    have ih : findPreviousLoop h T g (h b).m_next_ticket (some b) = some (some p) :=
      findPreviousLoop_pred hq.2 hT1 hp (by simp at hf; omega)
    simp [findPreviousLoop, hb, ih]

/-- The search loop returns the null pointer for a ticket that is not in the queue. -/
theorem findPreviousLoop_not_mem {h : TicketId → TimerTicket} {T : TicketId} :
    ∀ {l : List TicketId} {cur prev : Option TicketId} {fuel : Nat},
      IsQueue h cur l → T ∉ l → l.length < fuel →
      findPreviousLoop h T fuel cur prev = some none
  | [], _, _, fuel, hq, _, hf => by
    have h1 : _ = none := hq
    subst h1
    obtain ⟨g, rfl⟩ : ∃ g, fuel = g + 1 := ⟨fuel - 1, by simp at hf; omega⟩
    rfl
  | b :: l, _, _, fuel, hq, hT, hf => by
    have h1 := hq.1
    subst h1
    obtain ⟨g, rfl⟩ : ∃ g, fuel = g + 1 := ⟨fuel - 1, by simp at hf; omega⟩
    have hb : b ≠ T := by
      rintro rfl
      exact hT (by simp)
    have hT1 : T ∉ l := fun hm => hT (List.mem_cons_of_mem b hm)
    have ih : findPreviousLoop h T g (h b).m_next_ticket (some b) = some none :=
      findPreviousLoop_not_mem hq.2 hT1 (by simp at hf; omega)
    simp [findPreviousLoop, hb, ih]

theorem setScheduled_next (t : TimerTicket) (b : Bool) :
    (t.setScheduled b).m_next_ticket = t.m_next_ticket := by
  cases b <;> rfl

theorem clearFlag_next (t : TimerTicket) (f : Nat) :
    (t.clearFlag f).m_next_ticket = t.m_next_ticket := rfl

/-- Removing a ticket of the queue: the function returns, the queue is the old one
without the ticket, the ticket is marked unscheduled, and the flags of the other
tickets and the delays of all tickets are untouched. -/
theorem removeTicket_mem {fuel : Nat} {s : TimerState} {T : TicketId} {l : List TicketId}
    (hq : IsQueue s.heap s.m_firstTicket l) (hT : T ∈ l) (hf : l.length < fuel) :
    ∃ s1, removeTicket fuel s T = some s1 ∧
      IsQueue s1.heap s1.m_firstTicket (l.erase T) ∧
      (s1.heap T).isScheduled = false ∧
      (∀ a, a ≠ T → (s1.heap a).m_flags = (s.heap a).m_flags) ∧
      (∀ a, (s1.heap a).m_delayOffset = (s.heap a).m_delayOffset) := by
  have hnd := IsQueue.nodup hq
  obtain ⟨u, v, rfl⟩ := List.append_of_mem hT
  have hTu : T ∉ u := by
    intro hm
    have := List.nodup_append.mp hnd
    exact this.2.2 hm (by simp)
  rcases List.eq_nil_or_concat u with rfl | ⟨l1, p, rfl⟩
  · -- the ticket is the head
    have h1 : s.m_firstTicket = some T := hq.1
    refine ⟨({ s with m_firstTicket := s.next T } : TimerState).modify T
      (fun t => t.setScheduled false), by simp [removeTicket, h1], ?_, ?_, ?_, ?_⟩
    · simp only [List.nil_append, List.erase_cons_head]
      refine IsQueue.congr (h := s.heap) (fun a _ => ?_) hq.2
      simp only [TimerState.modify, heapModify]
      split
      · rw [setScheduled_next]
      · rfl
    · simp [TimerState.modify, setScheduled_false_isScheduled]
    · intro a ha
      simp [TimerState.modify, heapModify, ha]
    · intro a
      simp only [TimerState.modify, heapModify]
      split <;> simp [TimerTicket.setScheduled, TimerTicket.clearFlag]
  · -- the ticket is behind `p`
    have hq1 : IsQueue s.heap s.m_firstTicket (l1 ++ p :: T :: v) := by
      simpa using hq
    have hnd1 : (l1 ++ p :: T :: v).Nodup := by simpa using hnd
    have hTl1 : T ∉ l1 := fun hm => hTu (by simp [hm])
    have hTp : T ≠ p := fun he => hTu (by simp [he])
    have hne : ¬ (some T = s.m_firstTicket) := by
      intro he
      cases l1 with
      | nil =>
        have := hq1.1
        rw [← he] at this
        exact hTp (Option.some.inj this)
      | cons b l1 =>
        have := hq1.1
        rw [← he] at this
        exact hTl1 (by simp [Option.some.inj this])
    have hfind : findPreviousTicket fuel s T = some (some p) :=
      findPreviousLoop_pred hq1 hTl1 hTp (by simp at hf; omega)
    have hpn : s.next p = some T := (IsQueue.suffix hq1).1
    have hrn : removeNextTicket s p =
        ((s.setNext p (s.next T)).setNext T none).modify T
          (fun t => t.clearFlag FLAG_TICKET_SCHEDULED) := by
      unfold removeNextTicket
      rw [hpn]
    refine ⟨(removeNextTicket s p).modify T (fun t => t.setScheduled false),
      by simp [removeTicket, hne, hfind], ?_, ?_, ?_, ?_⟩
    · have he : (l1.concat p ++ T :: v).erase T = l1 ++ p :: v := by
        rw [List.erase_append_right _ hTu]
        simp
      rw [he, hrn]
      refine IsQueue.unlink (h := s.heap) (T := T) hq1 hnd1 ?_ ?_
      · intro a hap haT
        simp [TimerState.modify, TimerState.setNext, heapModify, hap, haT]
      · simp [TimerState.modify, TimerState.setNext, heapModify, Ne.symm hTp,
          TimerState.next]
    · simp [TimerState.modify, setScheduled_false_isScheduled]
    · intro a ha
      rw [hrn]
      simp only [TimerState.modify, TimerState.setNext, heapModify, if_neg ha]
      split <;> rfl
    · intro a
      rw [hrn]
      simp only [TimerState.modify, TimerState.setNext, heapModify]
      split <;> split <;>
        simp_all [TimerTicket.setScheduled, TimerTicket.clearFlag]

/-! ## Insertion -/

theorem setDelay_heap_next (s : TimerState) (a b : TicketId) (v : Nat) :
    ((s.setDelay a v).heap b).m_next_ticket = (s.heap b).m_next_ticket := by
  simp only [TimerState.setDelay, TimerState.modify, heapModify]
  split <;> rfl

theorem setDelay_heap_flags (s : TimerState) (a b : TicketId) (v : Nat) :
    ((s.setDelay a v).heap b).m_flags = (s.heap b).m_flags := by
  simp only [TimerState.setDelay, TimerState.modify, heapModify]
  split <;> rfl

theorem setNext_heap_flags (s : TimerState) (a b : TicketId) (v : Option TicketId) :
    ((s.setNext a v).heap b).m_flags = (s.heap b).m_flags := by
  simp only [TimerState.setNext, TimerState.modify, heapModify]
  split <;> rfl

theorem setDelay_heap_other (s : TimerState) (a b : TicketId) (v : Nat) (h : b ≠ a) :
    (s.setDelay a v).heap b = s.heap b := by
  simp [TimerState.setDelay, TimerState.modify, heapModify, h]

theorem setNext_heap_other (s : TimerState) (a b : TicketId) (v : Option TicketId)
    (h : b ≠ a) : (s.setNext a v).heap b = s.heap b := by
  simp [TimerState.setNext, TimerState.modify, heapModify, h]

theorem setNext_heap_same (s : TimerState) (a : TicketId) (v : Option TicketId) :
    ((s.setNext a v).heap a).m_next_ticket = v := by
  simp [TimerState.setNext, TimerState.modify]

/-- The insertion loop, entered at a ticket `cur` of a queue that does not contain `T`:
it returns, and `T` is spliced somewhere behind `cur`; the tickets before `cur`, the
head pointer and all flag words are untouched. -/
theorem addTicketLoop_spec {T : TicketId} :
    ∀ {rest : List TicketId} {fuel : Nat} {s : TimerState} {cur : TicketId}
      {nxt : Option TicketId},
      s.next cur = nxt → IsQueue s.heap nxt rest → T ≠ cur → T ∉ rest → cur ∉ rest →
      rest.length < fuel →
      ∃ s1 l1 l2, addTicketLoop T fuel s cur nxt = some s1 ∧ rest = l1 ++ l2 ∧
        IsQueue s1.heap (some cur) (cur :: l1 ++ T :: l2) ∧
        s1.m_firstTicket = s.m_firstTicket ∧
        (∀ a, a ≠ T → a ≠ cur → a ∉ rest → s1.heap a = s.heap a) ∧
        (∀ a, (s1.heap a).m_flags = (s.heap a).m_flags)
  | [], fuel, s, cur, nxt, _, hq, hTc, _, _, hf => by
    have h1 : nxt = none := hq
    subst h1
    obtain ⟨g, rfl⟩ : ∃ g, fuel = g + 1 := ⟨fuel - 1, by simp at hf; omega⟩
    refine ⟨(s.setNext T none).setNext cur (some T), [], [], rfl, rfl, ?_, rfl, ?_, ?_⟩
    · refine ⟨rfl, ?_, ?_⟩
      · rw [setNext_heap_same]
      · rw [setNext_heap_other _ _ _ _ hTc, setNext_heap_same]
        rfl
    · intro a haT hac _
      rw [setNext_heap_other _ _ _ _ hac, setNext_heap_other _ _ _ _ haT]
    · intro a
      rw [setNext_heap_flags, setNext_heap_flags]
  | n :: rest, fuel, s, cur, nxt, hn, hq, hTc, hTr, hcr, hf => by
    have h1 : nxt = some n := hq.1
    subst h1
    obtain ⟨g, rfl⟩ : ∃ g, fuel = g + 1 := ⟨fuel - 1, by simp at hf; omega⟩
    have hTn : T ≠ n := fun he => hTr (by simp [he])
    have hTr1 : T ∉ rest := fun hm => hTr (List.mem_cons_of_mem n hm)
    have hcn : cur ≠ n := fun he => hcr (by simp [he])
    have hcr1 : cur ∉ rest := fun hm => hcr (List.mem_cons_of_mem n hm)
    have hnr : n ∉ rest := (List.nodup_cons.mp (IsQueue.nodup hq)).1
    by_cases hc : (s.setDelay T (sub32 (s.delay T) (s.delay cur))).delay T <
        (s.setDelay T (sub32 (s.delay T) (s.delay cur))).delay n
    · -- the ticket is spliced between `cur` and `n`
      refine ⟨(((s.setDelay T (sub32 (s.delay T) (s.delay cur))).setDelay n
          (sub32 ((s.setDelay T (sub32 (s.delay T) (s.delay cur))).delay n)
            ((s.setDelay T (sub32 (s.delay T) (s.delay cur))).delay T))).setNext
              T (some n)).setNext cur (some T),
        [], n :: rest, by simp only [addTicketLoop, if_pos hc], rfl, ?_, rfl, ?_, ?_⟩
      · refine ⟨rfl, ?_, ?_, ?_⟩
        · rw [setNext_heap_same]
        · rw [setNext_heap_other _ _ _ _ hTc, setNext_heap_same]
        · rw [setNext_heap_other _ _ _ _ (Ne.symm hcn),
            setNext_heap_other _ _ _ _ (Ne.symm hTn), setDelay_heap_next,
            setDelay_heap_next]
          refine IsQueue.congr (h := s.heap) (fun a ha => ?_) hq.2
          have haT : a ≠ T := fun he => hTr1 (he ▸ ha)
          have hac : a ≠ cur := fun he => hcr1 (he ▸ ha)
          rw [setNext_heap_other _ _ _ _ hac, setNext_heap_other _ _ _ _ haT,
            setDelay_heap_next, setDelay_heap_next]
      · intro a haT hac har
        have han : a ≠ n := fun he => har (by simp [he])
        rw [setNext_heap_other _ _ _ _ hac, setNext_heap_other _ _ _ _ haT,
          setDelay_heap_other _ _ _ _ han, setDelay_heap_other _ _ _ _ haT]
      · intro a
        rw [setNext_heap_flags, setNext_heap_flags, setDelay_heap_flags,
          setDelay_heap_flags]
    · -- the loop moves on to `n`
      have hq1 : IsQueue (s.setDelay T (sub32 (s.delay T) (s.delay cur))).heap
          ((s.setDelay T (sub32 (s.delay T) (s.delay cur))).next n) rest := by
        unfold TimerState.next
        rw [setDelay_heap_next]
        exact IsQueue.congr (h := s.heap) (fun a _ => setDelay_heap_next _ _ _ _) hq.2
      obtain ⟨s1, l1, l2, hrun, hsplit, hq2, hfirst, hframe, hflags⟩ :=
        addTicketLoop_spec (T := T) rfl hq1 hTn hTr1 hnr
          (show rest.length < g by simp at hf; omega)
      refine ⟨s1, n :: l1, l2, ?_, by simp [hsplit], ?_, hfirst, ?_, ?_⟩
      · simp only [addTicketLoop, if_neg hc]
        exact hrun
      · refine ⟨rfl, ?_⟩
        rw [hframe cur (Ne.symm hTc) hcn hcr1, setDelay_heap_next]
        have : (s.heap cur).m_next_ticket = some n := hn
        rw [this]
        exact hq2
      · intro a haT hac har
        have han : a ≠ n := fun he => har (by simp [he])
        have har1 : a ∉ rest := fun hm => har (List.mem_cons_of_mem n hm)
        rw [hframe a haT han har1, setDelay_heap_other _ _ _ _ haT]
      · intro a
        rw [hflags a, setDelay_heap_flags]

theorem isScheduled_congr {t t1 : TimerTicket} (h : t1.m_flags = t.m_flags) :
    t1.isScheduled = t.isScheduled := by
  simp [TimerTicket.isScheduled, TimerTicket.isFlagEnabled, h]

theorem modify_heap_next_of (s : TimerState) (a b : TicketId)
    (f : TimerTicket → TimerTicket) (hf : ∀ t, (f t).m_next_ticket = t.m_next_ticket) :
    ((s.modify a f).heap b).m_next_ticket = (s.heap b).m_next_ticket := by
  simp only [TimerState.modify, heapModify]
  split
  · rw [hf]
  · rfl

theorem modify_heap_other (s : TimerState) (a b : TicketId)
    (f : TimerTicket → TimerTicket) (h : b ≠ a) : (s.modify a f).heap b = s.heap b := by
  simp [TimerState.modify, heapModify, h]

theorem modify_heap_same (s : TimerState) (a : TicketId)
    (f : TimerTicket → TimerTicket) : (s.modify a f).heap a = f (s.heap a) := by
  simp [TimerState.modify]

/-- Inserting a ticket that is not in the queue: the function returns, the ticket is
spliced into the queue at one place, it is marked scheduled, and the flags of the
other tickets are untouched. -/
theorem addTicketInsert_spec {fuel : Nat} {s : TimerState} {T : TicketId}
    {l : List TicketId}
    (hq : IsQueue s.heap s.m_firstTicket l) (hT : T ∉ l) (hf : l.length < fuel) :
    ∃ s1 l1 l2, addTicketInsert fuel s T = some s1 ∧ l = l1 ++ l2 ∧
      IsQueue s1.heap s1.m_firstTicket (l1 ++ T :: l2) ∧
      (s1.heap T).isScheduled = true ∧
      (∀ a, a ≠ T → (s1.heap a).m_flags = (s.heap a).m_flags) := by
  cases l with
  | nil =>
    have h1 : s.m_firstTicket = none := hq
    refine ⟨({ s.modify T (fun t => t.setScheduled true) with
        m_firstTicket := some T } : TimerState).setNext T none, [], [], ?_, rfl, ?_, ?_, ?_⟩
    · simp [addTicketInsert, TimerState.modify, h1]
    · exact ⟨rfl, by simp [TimerState.setNext, TimerState.modify]; rfl⟩
    · rw [isScheduled_congr (setNext_heap_flags _ _ _ _)]
      simp [TimerState.modify, setScheduled_true_isScheduled]
    · intro a ha
      rw [setNext_heap_other _ _ _ _ ha]
      simp [TimerState.modify, heapModify, ha]
  | cons f rest =>
    have h1 : s.m_firstTicket = some f := hq.1
    have hTf : T ≠ f := fun he => hT (by simp [he])
    have hTr : T ∉ rest := fun hm => hT (List.mem_cons_of_mem f hm)
    have hfr : f ∉ rest := (List.nodup_cons.mp (IsQueue.nodup hq)).1
    have hsched : ∀ t : TimerTicket, (t.setScheduled true).m_next_ticket = t.m_next_ticket :=
      fun t => setScheduled_next t true
    by_cases hc : (s.modify T (fun t => t.setScheduled true)).delay T ≤
        (s.modify T (fun t => t.setScheduled true)).delay f
    · -- the ticket becomes the head
      refine ⟨{ (((s.modify T (fun t => t.setScheduled true)).setDelay f
          (sub32 ((s.modify T (fun t => t.setScheduled true)).delay f)
            ((s.modify T (fun t => t.setScheduled true)).delay T))).setNext T (some f)) with
          m_firstTicket := some T }, [], f :: rest, ?_, rfl, ?_, ?_, ?_⟩
      · simp only [addTicketInsert]
        have : (s.modify T (fun t => t.setScheduled true)).m_firstTicket = some f := h1
        simp only [this, if_pos hc]
      · refine ⟨rfl, ?_, ?_⟩
        · exact setNext_heap_same _ _ _
        · change IsQueue _ ((TimerState.heap _ f).m_next_ticket) rest
          rw [setNext_heap_other _ _ _ _ (Ne.symm hTf), setDelay_heap_next,
            modify_heap_next_of _ _ _ _ hsched]
          refine IsQueue.congr (h := s.heap) (fun a _ => ?_) hq.2
          change (TimerState.heap _ a).m_next_ticket = _
          have haT : a ≠ T := fun he => hTr (he ▸ ‹a ∈ rest›)
          rw [setNext_heap_other _ _ _ _ haT, setDelay_heap_next,
            modify_heap_next_of _ _ _ _ hsched]
      · change (TimerState.heap _ T).isScheduled = true
        rw [isScheduled_congr (setNext_heap_flags _ _ _ _),
          isScheduled_congr (setDelay_heap_flags _ _ _ _), modify_heap_same]
        exact setScheduled_true_isScheduled _
      · intro a ha
        change (TimerState.heap _ a).m_flags = _
        rw [setNext_heap_flags, setDelay_heap_flags, modify_heap_other _ _ _ _ ha]
    · -- the loop looks for the place behind the head
      have hq1 : IsQueue (s.modify T (fun t => t.setScheduled true)).heap
          ((s.modify T (fun t => t.setScheduled true)).next f) rest := by
        unfold TimerState.next
        rw [modify_heap_next_of _ _ _ _ hsched]
        exact IsQueue.congr (h := s.heap)
          (fun a _ => modify_heap_next_of _ _ _ _ hsched) hq.2
      obtain ⟨s1, l1, l2, hrun, hsplit, hq2, hfirst, _, hflags⟩ :=
        addTicketLoop_spec (T := T) rfl hq1 hTf hTr hfr
          (show rest.length < fuel by simp at hf; omega)
      refine ⟨s1, f :: l1, l2, ?_, by simp [hsplit], ?_, ?_, ?_⟩
      · simp only [addTicketInsert]
        have : (s.modify T (fun t => t.setScheduled true)).m_firstTicket = some f := h1
        simp only [this, if_neg hc]
        exact hrun
      · rw [hfirst]
        have : (s.modify T (fun t => t.setScheduled true)).m_firstTicket = some f := h1
        rw [this]
        exact hq2
      · rw [isScheduled_congr (hflags T), modify_heap_same]
        exact setScheduled_true_isScheduled _
      · intro a ha
        rw [hflags a, modify_heap_other _ _ _ _ ha]

/-- Adding a ticket that is in the queue and marked scheduled: the function returns
and the new queue is a rearrangement of the old one. -/
theorem addTicket_mem_spec {fuel : Nat} {s : TimerState} {T : TicketId}
    {l : List TicketId}
    (hq : IsQueue s.heap s.m_firstTicket l) (hT : T ∈ l)
    (hs : (s.heap T).isScheduled = true) (hf : l.length < fuel) :
    ∃ s1 l1, addTicket fuel s T = some s1 ∧ IsQueue s1.heap s1.m_firstTicket l1 ∧
      l1.Perm l ∧ (s1.heap T).isScheduled = true ∧
      (∀ a, a ≠ T → (s1.heap a).m_flags = (s.heap a).m_flags) := by
  obtain ⟨s1, hrem, hq1, _, hfl1, _⟩ := removeTicket_mem hq hT hf
  have hnd := IsQueue.nodup hq
  have hT1 : T ∉ l.erase T := fun hm => (List.Nodup.mem_erase_iff hnd).mp hm |>.1 rfl
  have hlen : (l.erase T).length < fuel := by
    rw [List.length_erase_of_mem hT]
    omega
  obtain ⟨s2, l1, l2, hins, hsplit, hq2, hs2, hfl2⟩ := addTicketInsert_spec hq1 hT1 hlen
  refine ⟨s2, l1 ++ T :: l2, ?_, hq2, ?_, hs2, ?_⟩
  · simp only [addTicket, hs, if_true, hrem]
    exact hins
  · have h1 : (l1 ++ T :: l2).Perm (T :: (l1 ++ l2)) := List.perm_middle
    rw [← hsplit] at h1
    exact h1.trans (List.perm_cons_erase hT).symm
  · intro a ha
    rw [hfl2 a ha, hfl1 a ha]

/-! ## Rescheduling -/

theorem setDelayOffset_next (t : TimerTicket) (d : Nat) (u : units_t) :
    (t.setDelayOffset d u).m_next_ticket = t.m_next_ticket := by
  cases u <;> rfl

theorem setDelayOffset_flags (t : TimerTicket) (d : Nat) (u : units_t) :
    (t.setDelayOffset d u).m_flags = t.m_flags := by
  cases u <;> rfl

theorem setPeriodUnits_next (t : TimerTicket) (u : units_t) :
    (t.setPeriodUnits u).m_next_ticket = t.m_next_ticket := rfl

/-- Scheduling a ticket that is in a well-formed queue: the call returns `true` and
the new queue is a well-formed rearrangement of the old one. -/
theorem schedRepeat_mem_spec {fuel : Nat} {s : TimerState} {l : List TicketId}
    {T : TicketId} (now delay : Nat) (delayUnits : units_t) (period : Nat)
    (periodUnits : units_t)
    (hw : WellFormed s l) (hT : T ∈ l) (hf : l.length < fuel) :
    ∃ s1 l1, schedRepeat fuel s now T delay delayUnits period periodUnits = some (s1, true) ∧
      WellFormed s1 l1 ∧ l1.Perm l := by
  obtain ⟨hq, hs⟩ := hw
  have hnext : ∀ a, ((((s.modify T (fun t => t.setDelayOffset delay delayUnits)).modify T
      (fun t => { t with m_period := period })).modify T
      (fun t => t.setPeriodUnits periodUnits)).heap a).m_next_ticket =
      (s.heap a).m_next_ticket := by
    intro a
    rw [modify_heap_next_of _ _ _ _ (fun t => setPeriodUnits_next t periodUnits),
      modify_heap_next_of _ _ _ (fun t => { t with m_period := period }) (fun _ => rfl),
      modify_heap_next_of _ _ _ _ (fun t => setDelayOffset_next t delay delayUnits)]
  have hother : ∀ a v, a ≠ T → (((((s.modify T
      (fun t => t.setDelayOffset delay delayUnits)).modify T
      (fun t => { t with m_period := period })).modify T
      (fun t => t.setPeriodUnits periodUnits)).setDelay T v).heap a).m_flags =
      (s.heap a).m_flags := by
    intro a v ha
    rw [setDelay_heap_flags, modify_heap_other _ _ _ _ ha, modify_heap_other _ _ _ _ ha,
      modify_heap_other _ _ _ _ ha]
  have hq4 : ∀ v, IsQueue ((((s.modify T (fun t => t.setDelayOffset delay delayUnits)).modify T
      (fun t => { t with m_period := period })).modify T
      (fun t => t.setPeriodUnits periodUnits)).setDelay T v).heap s.m_firstTicket l := by
    intro v
    refine IsQueue.congr (h := s.heap) (fun a _ => ?_) hq
    rw [setDelay_heap_next, hnext]
  have hs4 : ∀ v, (((((s.modify T (fun t => t.setDelayOffset delay delayUnits)).modify T
      (fun t => { t with m_period := period })).modify T
      (fun t => t.setPeriodUnits periodUnits)).setDelay T v).heap T).isScheduled = true := by
    intro v
    rw [isScheduled_congr (setDelay_heap_flags _ _ _ _), modify_heap_same]
    apply setPeriodUnits_isScheduled_of
    rw [modify_heap_same, modify_heap_same]
    have := hs T hT
    rw [TimerTicket.isScheduled_eq_testBit] at this ⊢
    rw [← this]
    simp [setDelayOffset_flags]
  obtain ⟨s1, l1, hadd, hq1, hperm, hsT, hfl⟩ :=
    addTicket_mem_spec (hq4 _) hT (hs4 _) hf
  refine ⟨s1, l1, ?_, ⟨hq1, ?_⟩, hperm⟩
  · simp only [schedRepeat]
    rw [hadd]
  · intro a ha
    by_cases haT : a = T
    · rw [haT]; exact hsT
    · rw [isScheduled_congr (hfl a haT), isScheduled_congr (hother a _ haT)]
      exact hs a (hperm.mem_iff.mp ha)

/-- C5. Rescheduling moves, it does not duplicate: for every well-formed queue `l` and
every ticket `T` in it, `schedRepeat` (five arguments, any delay, period and units)
and `schedOneTime` on `T` return, and in the resulting well-formed queue `T` occurs
exactly once, every other ticket of `l` occurs exactly once, and the length is that
of `l`. -/
theorem reschedule_moves_not_duplicates (fuel : Nat) (s : TimerState)
    (l : List TicketId) (T : TicketId) (now delay : Nat) (delayUnits : units_t)
    (period : Nat) (periodUnits : units_t)
    (hw : WellFormed s l) (hT : T ∈ l) (hf : l.length < fuel) :
    (∃ s1 l1, schedRepeat fuel s now T delay delayUnits period periodUnits = some (s1, true) ∧
      WellFormed s1 l1 ∧ l1.count T = 1 ∧ (∀ a ∈ l, a ≠ T → l1.count a = 1) ∧
      l1.length = l.length) ∧
    (∃ s1 l1, schedOneTime fuel s now T delay delayUnits = some (s1, true) ∧
      WellFormed s1 l1 ∧ l1.count T = 1 ∧ (∀ a ∈ l, a ≠ T → l1.count a = 1) ∧
      l1.length = l.length) := by
  have hnd := IsQueue.nodup hw.1
  have key : ∀ l1 : List TicketId, l1.Perm l →
      l1.count T = 1 ∧ (∀ a ∈ l, a ≠ T → l1.count a = 1) ∧ l1.length = l.length := by
    intro l1 hp
    refine ⟨?_, ?_, hp.length_eq⟩
    · rw [hp.count_eq]
      exact List.count_eq_one_of_mem hnd hT
    · intro a ha _
      rw [hp.count_eq]
      exact List.count_eq_one_of_mem hnd ha
  constructor
  · obtain ⟨s1, l1, h1, h2, h3⟩ :=
      schedRepeat_mem_spec now delay delayUnits period periodUnits hw hT hf
    exact ⟨s1, l1, h1, h2, key l1 h3⟩
  · obtain ⟨s1, l1, h1, h2, h3⟩ :=
      schedRepeat_mem_spec now delay delayUnits 0 units_t.MILLIS hw hT hf
    exact ⟨s1, l1, h1, h2, key l1 h3⟩

theorem pairState_wellFormed : WellFormed pairState [1, 2] := by
  decide

/-- Instance of C5: ticket `1`, head of the queue `1 → 2`, is rescheduled with a delay
of 20 ms. -/
theorem reschedule_moves_not_duplicates_witness :
    WellFormed pairState [1, 2] ∧ 1 ∈ [1, 2] ∧ [1, 2].length < 3 ∧
    (∃ s1 l1, schedRepeat 3 pairState 0 1 20 units_t.MILLIS 7 units_t.SECONDS =
        some (s1, true) ∧
      WellFormed s1 l1 ∧ l1.count 1 = 1 ∧ (∀ a ∈ [1, 2], a ≠ 1 → l1.count a = 1) ∧
      l1.length = [1, 2].length) ∧
    (∃ s1 l1, schedOneTime 3 pairState 0 1 20 units_t.MILLIS = some (s1, true) ∧
      WellFormed s1 l1 ∧ l1.count 1 = 1 ∧ (∀ a ∈ [1, 2], a ≠ 1 → l1.count a = 1) ∧
      l1.length = [1, 2].length) :=
  ⟨pairState_wellFormed, by decide, by decide,
    reschedule_moves_not_duplicates 3 pairState [1, 2] 1 0 20 units_t.MILLIS 7
      units_t.SECONDS pairState_wellFormed (by decide) (by decide)⟩

/-! ## Scheduling on an empty queue and ticks on a queue of one ticket -/

theorem sub32_self (a : Nat) : sub32 a a = 0 := by
  unfold sub32 ULONG_MOD at *
  omega

theorem sub32_lt (a b : Nat) : sub32 a b < ULONG_MOD := by
  unfold sub32 ULONG_MOD
  omega

theorem add32_lt (a b : Nat) : add32 a b < ULONG_MOD := by
  unfold add32 ULONG_MOD
  omega

/-- The clock reading `d` milliseconds after `now`. -/
theorem elapsed_after (L now d : Nat) :
    elapsedTime L ((now + d) % ULONG_MOD) = add32 d (elapsedTime L now) := by
  unfold elapsedTime sub32 add32 ULONG_MOD
  omega

theorem setScheduled_delay (t : TimerTicket) (b : Bool) :
    (t.setScheduled b).m_delayOffset = t.m_delayOffset := by
  cases b <;> rfl

theorem setScheduled_period (t : TimerTicket) (b : Bool) :
    (t.setScheduled b).m_period = t.m_period := by
  cases b <;> rfl

theorem setScheduled_delegate (t : TimerTicket) (b : Bool) :
    (t.setScheduled b).m_delegate = t.m_delegate := by
  cases b <;> rfl

theorem getPeriodUnits_congr {t t1 : TimerTicket} (h : t1.m_flags = t.m_flags) :
    t1.getPeriodUnits = t.getPeriodUnits := by
  simp [TimerTicket.getPeriodUnits, h]

/-- Adding a ticket to an empty queue makes it the only ticket of the queue. -/
theorem addTicket_empty {fuel : Nat} {s : TimerState} (T : TicketId)
    (hempty : s.m_firstTicket = none) (hf : 0 < fuel) :
    ∃ s1, addTicket fuel s T = some s1 ∧
      s1.m_firstTicket = some T ∧ s1.m_lastTick = s.m_lastTick ∧
      s1.m_running = s.m_running ∧ s1.invoked = s.invoked ∧ s1.armed = s.armed ∧
      s1.m_waitingTick = s.m_waitingTick ∧ s1.m_delayOffset = s.m_delayOffset ∧
      (s1.heap T).m_next_ticket = none ∧
      (s1.heap T).m_delayOffset = (s.heap T).m_delayOffset ∧
      (s1.heap T).m_period = (s.heap T).m_period ∧
      (s1.heap T).m_delegate = (s.heap T).m_delegate ∧
      (s1.heap T).isScheduled = true ∧
      (s1.heap T).getPeriodUnits = (s.heap T).getPeriodUnits ∧
      (∀ a, a ≠ T → s1.heap a = s.heap a) := by
  obtain ⟨g, rfl⟩ : ∃ g, fuel = g + 1 := ⟨fuel - 1, by omega⟩
  by_cases hs : (s.heap T).isScheduled = true
  · refine ⟨({ (s.modify T (fun t => t.setScheduled false)).modify T
        (fun t => t.setScheduled true) with m_firstTicket := some T } : TimerState).setNext
        T none, ?_, rfl, rfl, rfl, rfl, rfl, rfl, rfl, ?_, ?_, ?_, ?_, ?_, ?_, ?_⟩
    · simp [addTicket, hs, removeTicket, hempty, findPreviousTicket, findPreviousLoop,
        addTicketInsert, TimerState.modify]
    · simp [TimerState.setNext, TimerState.modify]
    · simp [TimerState.setNext, TimerState.modify, setScheduled_delay]
    · simp [TimerState.setNext, TimerState.modify, setScheduled_period]
    · simp [TimerState.setNext, TimerState.modify, setScheduled_delegate]
    · rw [isScheduled_congr (setNext_heap_flags _ _ _ _)]
      simp [TimerState.modify, setScheduled_true_isScheduled]
    · rw [getPeriodUnits_congr (setNext_heap_flags _ _ _ _)]
      simp [TimerState.modify, setScheduled_getPeriodUnits]
    · intro a ha
      simp [TimerState.setNext, TimerState.modify, heapModify, ha]
  · refine ⟨({ s.modify T (fun t => t.setScheduled true) with
        m_firstTicket := some T } : TimerState).setNext T none,
        ?_, rfl, rfl, rfl, rfl, rfl, rfl, rfl, ?_, ?_, ?_, ?_, ?_, ?_, ?_⟩
    · simp [addTicket, hs, hempty, addTicketInsert, TimerState.modify]
    · simp [TimerState.setNext, TimerState.modify]
    · simp [TimerState.setNext, TimerState.modify, setScheduled_delay]
    · simp [TimerState.setNext, TimerState.modify, setScheduled_period]
    · simp [TimerState.setNext, TimerState.modify, setScheduled_delegate]
    · rw [isScheduled_congr (setNext_heap_flags _ _ _ _)]
      simp [TimerState.modify, setScheduled_true_isScheduled]
    · rw [getPeriodUnits_congr (setNext_heap_flags _ _ _ _)]
      simp [TimerState.modify, setScheduled_getPeriodUnits]
    · intro a ha
      simp [TimerState.setNext, TimerState.modify, heapModify, ha]

/-- Advancing a queue of one ticket that is due: its offset becomes zero, the time is
recorded and nothing else changes. -/
theorem updateSchedule_single_due {fuel : Nat} {s : TimerState} {T : TicketId} (t : Nat)
    (hfirst : s.m_firstTicket = some T) (hnext : (s.heap T).m_next_ticket = none)
    (hdue : (s.heap T).m_delayOffset ≤ elapsedTime s.m_lastTick t) (hf : 2 ≤ fuel) :
    ∃ su, updateSchedule fuel s t = some su ∧
      su.m_firstTicket = some T ∧ su.m_lastTick = t ∧ su.m_running = s.m_running ∧
      su.invoked = s.invoked ∧ su.armed = s.armed ∧
      su.m_waitingTick = s.m_waitingTick ∧ su.m_delayOffset = s.m_delayOffset ∧
      (su.heap T).m_delayOffset = 0 ∧ (su.heap T).m_next_ticket = none ∧
      (su.heap T).m_period = (s.heap T).m_period ∧
      (su.heap T).m_delegate = (s.heap T).m_delegate ∧
      (su.heap T).m_flags = (s.heap T).m_flags ∧
      (∀ a, a ≠ T → su.heap a = s.heap a) := by
  obtain ⟨g, rfl⟩ : ∃ g, fuel = g + 2 := ⟨fuel - 2, by omega⟩
  have hrun : updateSchedule (g + 2) s t = some { s.setDelay T 0 with m_lastTick := t } := by
    rcases Nat.lt_or_eq_of_le hdue with hlt | heq
    · have h1 : ¬ (s.delay T ≥ elapsedTime s.m_lastTick t) := by
        simp only [TimerState.delay]; omega
      have h2 : (s.setDelay T 0).next T = none := by
        simp [TimerState.next, TimerState.setDelay, TimerState.modify, hnext]
      simp only [updateSchedule, hfirst, updateScheduleLoop, if_neg h1, h2]
    · have h1 : s.delay T ≥ elapsedTime s.m_lastTick t := by
        simp only [TimerState.delay]; omega
      have h2 : sub32 (s.delay T) (elapsedTime s.m_lastTick t) = 0 := by
        simp only [TimerState.delay]
        rw [heq, sub32_self]
      simp only [updateSchedule, hfirst, updateScheduleLoop, if_pos h1, h2]
  refine ⟨_, hrun, hfirst, rfl, rfl, rfl, rfl, rfl, rfl, ?_, ?_, ?_, ?_, ?_, ?_⟩
  · simp [TimerState.setDelay, TimerState.modify]
  · simp [TimerState.setDelay, TimerState.modify, hnext]
  · simp [TimerState.setDelay, TimerState.modify]
  · simp [TimerState.setDelay, TimerState.modify]
  · simp [TimerState.setDelay, TimerState.modify]
  · intro a ha
    simp [TimerState.setDelay, TimerState.modify, heapModify, ha]

/-- A tick on an empty queue only records the time. -/
theorem doTick_empty {fuel : Nat} {s : TimerState} (t : Nat)
    (hempty : s.m_firstTicket = none) (hf : 0 < fuel) :
    doTick fuel s t = some { s with m_lastTick := t } := by
  obtain ⟨g, rfl⟩ : ∃ g, fuel = g + 1 := ⟨fuel - 1, by omega⟩
  simp [doTick, updateSchedule, updateScheduleLoop, doTickLoop, hempty]

/-- Ticks on an empty queue invoke nothing and leave the queue empty. -/
theorem run_doTick_empty {fuel : Nat} (hf : 0 < fuel) :
    ∀ (later : List Nat) (s : TimerState), s.m_firstTicket = none →
      ∃ s1, run fuel s (later.map Call.doTick) = some s1 ∧ s1.invoked = s.invoked ∧
        s1.m_firstTicket = none ∧ s1.heap = s.heap
  | [], s, h => ⟨s, rfl, rfl, h, rfl⟩
  | t :: later, s, h => by
    obtain ⟨s1, h1, h2, h3, h4⟩ :=
      run_doTick_empty hf later { s with m_lastTick := t } h
    exact ⟨s1, by simp [run, step, doTick_empty t h hf, h1], h2, h3, h4⟩

/-- One iteration of the firing loop on a due one-shot head whose delegate is set:
the head is popped, its delegate is invoked and it is marked unscheduled. -/
theorem doTickLoop_fire_oneshot {fuel n : Nat} {s : TimerState} {T : TicketId}
    (hfirst : s.m_firstTicket = some T) (h0 : (s.heap T).m_delayOffset = 0)
    (hper : (s.heap T).m_period = 0) (hdel : (s.heap T).m_delegate = true) :
    ∃ s4, doTickLoop fuel (n + 1) s = doTickLoop fuel n s4 ∧
      s4.m_firstTicket = (s.heap T).m_next_ticket ∧ s4.m_lastTick = s.m_lastTick ∧
      s4.m_running = s.m_running ∧ s4.invoked = s.invoked ++ [T] ∧
      s4.armed = s.armed ∧ s4.m_waitingTick = s.m_waitingTick ∧
      s4.m_delayOffset = s.m_delayOffset ∧
      (s4.heap T).isScheduled = false ∧
      (∀ a, a ≠ T → s4.heap a = s.heap a) := by
  have hp4 : ¬ ((((({ s with m_firstTicket := s.next T, invoked := s.invoked ++ [T] } :
      TimerState).setNext T none).modify T (fun t => t.setScheduled false)).heap T).m_period
      ≠ 0) := by
    simpa [TimerState.setNext, TimerState.modify, setScheduled_period] using hper
  refine ⟨(({ s with m_firstTicket := s.next T, invoked := s.invoked ++ [T] } :
      TimerState).setNext T none).modify T (fun t => t.setScheduled false),
    ?_, rfl, rfl, rfl, rfl, rfl, rfl, rfl, ?_, ?_⟩
  · simp only [doTickLoop, hfirst, TimerState.delay, h0, if_true, hdel]
    rw [if_neg hp4]
  · simp only [modify_heap_same, setScheduled_false_isScheduled]
  · intro a ha
    simp only [TimerState.setNext, modify_heap_other _ _ _ _ ha]

/-- The firing loop returns at once on an empty queue. -/
theorem doTickLoop_empty {fuel n : Nat} {s : TimerState}
    (hempty : s.m_firstTicket = none) : doTickLoop fuel (n + 1) s = some s := by
  simp [doTickLoop, hempty]

/-- A tick that finds a single due one-shot ticket invokes it once and empties the
queue. -/
theorem doTick_single_oneshot {fuel : Nat} {s : TimerState} {T : TicketId} (t : Nat)
    (hfirst : s.m_firstTicket = some T) (hnext : (s.heap T).m_next_ticket = none)
    (hdue : (s.heap T).m_delayOffset ≤ elapsedTime s.m_lastTick t)
    (hperiod : (s.heap T).m_period = 0) (hdel : (s.heap T).m_delegate = true)
    (hf : 2 ≤ fuel) :
    ∃ s1, doTick fuel s t = some s1 ∧ s1.m_firstTicket = none ∧
      s1.invoked = s.invoked ++ [T] ∧ (s1.heap T).isScheduled = false ∧
      s1.m_lastTick = t := by
  obtain ⟨g, rfl⟩ : ∃ g, fuel = g + 2 := ⟨fuel - 2, by omega⟩
  obtain ⟨su, hu, hfirstU, hlastU, _, hinvU, _, _, _, h0U, hnextU, hperU, hdelU, _, _⟩ :=
    updateSchedule_single_due t hfirst hnext hdue (show 2 ≤ g + 2 by omega)
  obtain ⟨s4, hloop, hfirst4, hlast4, _, hinv4, _, _, _, hs4, _⟩ :=
    @doTickLoop_fire_oneshot (g + 2) (g + 1) su T hfirstU h0U
      (hperU.trans hperiod) (hdelU.trans hdel)
  have hempty4 : s4.m_firstTicket = none := hfirst4.trans hnextU
  refine ⟨s4, ?_, hempty4, by rw [hinv4, hinvU], hs4, by rw [hlast4, hlastU]⟩
  simp only [doTick, hu, hloop, doTickLoop_empty hempty4, hempty4]

theorem run_append (fuel : Nat) :
    ∀ (l1 l2 : List Call) (s : TimerState),
      run fuel s (l1 ++ l2) = (run fuel s l1).bind (fun s1 => run fuel s1 l2)
  | [], _, _ => rfl
  | c :: l1, l2, s => by
    simp only [List.cons_append, run]
    cases step fuel s c with
    | none => rfl
    | some s1 => exact run_append fuel l1 l2 s1

theorem setDelayOffset_period (t : TimerTicket) (d : Nat) (u : units_t) :
    (t.setDelayOffset d u).m_period = t.m_period := by
  cases u <;> rfl

theorem setDelayOffset_delegate (t : TimerTicket) (d : Nat) (u : units_t) :
    (t.setDelayOffset d u).m_delegate = t.m_delegate := by
  cases u <;> rfl

theorem setDelayOffset_delay_congr (x y : TimerTicket) (d : Nat) (u : units_t) :
    (x.setDelayOffset d u).m_delayOffset = (y.setDelayOffset d u).m_delayOffset := by
  cases u <;> rfl

theorem setDelayOffset_MILLIS_delay (t : TimerTicket) (d : Nat) :
    (t.setDelayOffset d units_t.MILLIS).m_delayOffset = d := rfl

/-- One iteration of the firing loop on a due periodic head whose delegate is set:
the head is popped, its delegate is invoked, its offset is recomputed from the period,
and `addTicket` is called in the state `s5` described here. -/
theorem doTickLoop_fire_periodic {fuel n : Nat} {s : TimerState} {T : TicketId}
    (hfirst : s.m_firstTicket = some T) (h0 : (s.heap T).m_delayOffset = 0)
    (hper : (s.heap T).m_period ≠ 0) (hdel : (s.heap T).m_delegate = true) :
    ∃ s5, doTickLoop fuel (n + 1) s = (addTicket fuel s5 T).bind (doTickLoop fuel n) ∧
      s5.m_firstTicket = (s.heap T).m_next_ticket ∧ s5.m_lastTick = s.m_lastTick ∧
      s5.m_running = s.m_running ∧ s5.invoked = s.invoked ++ [T] ∧
      s5.armed = s.armed ∧ s5.m_waitingTick = s.m_waitingTick ∧
      s5.m_delayOffset = s.m_delayOffset ∧
      (s5.heap T).m_delayOffset =
        ((s.heap T).setDelayOffset (s.heap T).m_period
          (s.heap T).getPeriodUnits).m_delayOffset ∧
      (s5.heap T).m_period = (s.heap T).m_period ∧
      (s5.heap T).m_delegate = (s.heap T).m_delegate ∧
      (s5.heap T).m_flags = ((s.heap T).setScheduled false).m_flags ∧
      (∀ a, a ≠ T → s5.heap a = s.heap a) := by
  have hp4 : ((((({ s with m_firstTicket := s.next T, invoked := s.invoked ++ [T] } :
      TimerState).setNext T none).modify T (fun t => t.setScheduled false)).heap T).m_period
      ≠ 0) := by
    simpa [TimerState.setNext, TimerState.modify, setScheduled_period] using hper
  refine ⟨((({ s with m_firstTicket := s.next T, invoked := s.invoked ++ [T] } :
      TimerState).setNext T none).modify T (fun t => t.setScheduled false)).modify T
      (fun t => t.setDelayOffset t.m_period t.getPeriodUnits),
    ?_, rfl, rfl, rfl, rfl, rfl, rfl, rfl, ?_, ?_, ?_, ?_, ?_⟩
  · simp only [doTickLoop, hfirst, TimerState.delay, h0, if_true, hdel]
    rw [if_pos hp4]
    cases addTicket fuel _ T <;> rfl
  · simp only [TimerState.setNext, modify_heap_same, setScheduled_period,
      setScheduled_getPeriodUnits]
    exact setDelayOffset_delay_congr _ _ _ _
  · simp only [TimerState.setNext, modify_heap_same, setDelayOffset_period,
      setScheduled_period]
  · simp only [TimerState.setNext, modify_heap_same, setDelayOffset_delegate,
      setScheduled_delegate]
  · simp only [TimerState.setNext, modify_heap_same, setDelayOffset_flags]
    rfl
  · intro a ha
    simp only [TimerState.setNext, modify_heap_other _ _ _ _ ha]

/-- The firing loop stops at a head whose offset is not zero. -/
theorem doTickLoop_stop {fuel n : Nat} {s : TimerState} {T : TicketId}
    (hfirst : s.m_firstTicket = some T) (h0 : (s.heap T).m_delayOffset ≠ 0) :
    doTickLoop fuel (n + 1) s = some s := by
  simp [doTickLoop, hfirst, TimerState.delay, h0]

/-- A tick that finds a single due periodic ticket invokes it once and re-arms it
with its period. -/
theorem doTick_single_periodic {fuel : Nat} {s : TimerState} {T : TicketId} {D p : Nat}
    (t : Nat) (hP : Periodic s T D p)
    (hdue : D ≤ elapsedTime s.m_lastTick t) (hp : 0 < p) (hf : 2 ≤ fuel) :
    ∃ s1, doTick fuel s t = some s1 ∧ Periodic s1 T p p ∧
      s1.invoked = s.invoked ++ [T] ∧ s1.m_lastTick = t ∧
      s1.m_running = s.m_running := by
  obtain ⟨hfirst, hnext, hD, hper, hunits, _, hdel⟩ := hP
  obtain ⟨g, rfl⟩ : ∃ g, fuel = g + 2 := ⟨fuel - 2, by omega⟩
  obtain ⟨su, hu, hfirstU, hlastU, hrunU, hinvU, _, _, _, h0U, hnextU, hperU, hdelU, hflU,
      _⟩ :=
    updateSchedule_single_due t hfirst hnext (hD ▸ hdue) (show 2 ≤ g + 2 by omega)
  have hunitsU : (su.heap T).getPeriodUnits = units_t.MILLIS := by
    rw [getPeriodUnits_congr hflU, hunits]
  obtain ⟨s5, hloop, hfirst5, hlast5, hrun5, hinv5, _, _, _, hdelay5, hper5, hdel5, hfl5, _⟩ :=
    @doTickLoop_fire_periodic (g + 2) (g + 1) su T hfirstU h0U
      (by rw [hperU, hper]; omega) (hdelU.trans hdel)
  obtain ⟨s6, hadd, hfirst6, hlast6, hrun6, hinv6, _, _, _, hnext6, hdelay6, hper6, hdg6,
      hs6, hu6, _⟩ :=
    addTicket_empty (s := s5) T (hfirst5.trans hnextU) (show 0 < g + 2 by omega)
  have hunits5 : (s5.heap T).getPeriodUnits = units_t.MILLIS := by
    rw [getPeriodUnits_congr hfl5, setScheduled_getPeriodUnits, hunitsU]
  have hdelay : (s6.heap T).m_delayOffset = p := by
    rw [hdelay6, hdelay5, hunitsU, hperU, hper]
    rfl
  have hP6 : Periodic s6 T p p :=
    ⟨hfirst6, hnext6, hdelay, by rw [hper6, hper5, hperU]; exact hper,
      by rw [hu6, hunits5], hs6, by rw [hdg6, hdel5, hdelU]; exact hdel⟩
  have hstop : doTickLoop (g + 2) (g + 1) s6 = some s6 :=
    doTickLoop_stop hfirst6 (by rw [hdelay]; omega)
  have hloop6 : doTickLoop (g + 2) (g + 2) su = some s6 := by
    rw [hloop, hadd]
    exact hstop
  have hinv : s6.invoked = s.invoked ++ [T] := by rw [hinv6, hinv5, hinvU]
  have hlast : s6.m_lastTick = t := by rw [hlast6, hlast5, hlastU]
  have hrun : s6.m_running = s.m_running := by rw [hrun6, hrun5, hrunU]
  cases hr : s6.m_running with
  | false =>
    refine ⟨s6, ?_, hP6, hinv, hlast, hrun⟩
    simp [doTick, hu, hloop6, hfirst6, hr]
  | true =>
    refine ⟨setNextTickTimer s6 (s6.delay T), ?_, hP6, hinv, hlast, hrun⟩
    simp [doTick, hu, hloop6, hfirst6, hr]

/-- Scheduling on an empty queue: the call returns `true` and the ticket is the only
ticket of the queue, with the converted delay plus the time elapsed since the last
recorded tick as its offset. -/
theorem schedRepeat_empty {fuel : Nat} {s : TimerState} (T : TicketId) (now delay : Nat)
    (delayUnits : units_t) (period : Nat) (periodUnits : units_t)
    (hempty : s.m_firstTicket = none) (hf : 0 < fuel) :
    ∃ s1, schedRepeat fuel s now T delay delayUnits period periodUnits = some (s1, true) ∧
      s1.m_firstTicket = some T ∧ s1.m_lastTick = s.m_lastTick ∧
      s1.m_running = s.m_running ∧ s1.invoked = s.invoked ∧ s1.armed = s.armed ∧
      s1.m_waitingTick = s.m_waitingTick ∧ s1.m_delayOffset = s.m_delayOffset ∧
      (s1.heap T).m_next_ticket = none ∧
      (s1.heap T).m_delayOffset =
        add32 ((s.heap T).setDelayOffset delay delayUnits).m_delayOffset
          (elapsedTime s.m_lastTick now) ∧
      (s1.heap T).m_period = period ∧
      (s1.heap T).m_delegate = (s.heap T).m_delegate ∧
      (s1.heap T).isScheduled = true ∧
      (s1.heap T).getPeriodUnits =
        ((s.heap T).setPeriodUnits periodUnits).getPeriodUnits ∧
      (∀ a, a ≠ T → s1.heap a = s.heap a) := by
  obtain ⟨s1, hadd, hfirst, hlast, hrun, hinv, harm, hw, hdo, hnext, hdelay, hper, hdg, hs,
      hu, hfr⟩ :=
    addTicket_empty
      (s := (((s.modify T (fun t => t.setDelayOffset delay delayUnits)).modify T
        (fun t => { t with m_period := period })).modify T
        (fun t => t.setPeriodUnits periodUnits)).setDelay T
          (add32 ((((s.modify T (fun t => t.setDelayOffset delay delayUnits)).modify T
            (fun t => { t with m_period := period })).modify T
            (fun t => t.setPeriodUnits periodUnits)).delay T)
            (elapsedTime s.m_lastTick now))) T hempty hf
  refine ⟨s1, ?_, hfirst, hlast, hrun, hinv, harm, hw, hdo, hnext, ?_, ?_, ?_, hs, ?_, ?_⟩
  · simp only [schedRepeat]
    rw [show (((s.modify T (fun t => t.setDelayOffset delay delayUnits)).modify T
        (fun t => { t with m_period := period })).modify T
        (fun t => t.setPeriodUnits periodUnits)).m_lastTick = s.m_lastTick from rfl, hadd]
  · rw [hdelay]
    simp only [TimerState.setDelay, TimerState.delay, modify_heap_same]
    rfl
  · rw [hper]
    simp only [TimerState.setDelay, modify_heap_same]
    rfl
  · rw [hdg]
    simp only [TimerState.setDelay, modify_heap_same]
    exact setDelayOffset_delegate _ _ _
  · rw [hu]
    simp only [TimerState.setDelay, modify_heap_same]
    exact getPeriodUnits_congr (by
      simp only [TimerTicket.setPeriodUnits, TimerTicket.setFlag, TimerTicket.clearFlag,
        setDelayOffset_flags])
  · intro a ha
    rw [hfr a ha]
    simp only [TimerState.setDelay, modify_heap_other _ _ _ _ ha]

/-- C6. Single-shot fires once: on a timer with an empty queue, for every delay `d` in
milliseconds and every clock reading `now`, `schedOneTime(T, d)` at time `now`
returns `true`; the following `doTick` at the clock reading `d` milliseconds later
invokes the delegate of `T` exactly once (and nothing else), leaves `T` unscheduled
and the queue empty; and no sequence of later `doTick` calls invokes anything. -/
theorem single_shot_fires_once (fuel : Nat) (s : TimerState) (T : TicketId) (d now : Nat)
    (hempty : s.m_firstTicket = none) (hdel : (s.heap T).m_delegate = true)
    (hf : 2 ≤ fuel) :
    ∃ s1 s2, schedOneTime fuel s now T d units_t.MILLIS = some (s1, true) ∧
      s1.invoked = s.invoked ∧
      doTick fuel s1 ((now + d) % ULONG_MOD) = some s2 ∧
      s2.invoked = s.invoked ++ [T] ∧
      (s2.heap T).isScheduled = false ∧ s2.m_firstTicket = none ∧
      ∀ later : List Nat, ∃ s3, run fuel s2 (later.map Call.doTick) = some s3 ∧
        s3.invoked = s.invoked ++ [T] ∧ s3.m_firstTicket = none ∧
        (s3.heap T).isScheduled = false := by
  obtain ⟨s1, hsched, hfirst, hlast, _, hinv, _, _, _, hnext, hdelay, hper, hdg, _, _, _⟩ :=
    schedRepeat_empty (s := s) T now d units_t.MILLIS 0 units_t.MILLIS
      hempty (show 0 < fuel by omega)
  have hdue : (s1.heap T).m_delayOffset ≤
      elapsedTime s1.m_lastTick ((now + d) % ULONG_MOD) := by
    rw [hdelay, hlast, elapsed_after]
    exact Nat.le_refl _
  obtain ⟨s2, htick, hfirst2, hinv2, hs2, _⟩ :=
    doTick_single_oneshot ((now + d) % ULONG_MOD) hfirst hnext hdue hper (hdg.trans hdel) hf
  refine ⟨s1, s2, hsched, hinv, htick, by rw [hinv2, hinv], hs2, hfirst2, ?_⟩
  intro later
  obtain ⟨s3, h1, h2, h3, h4⟩ := run_doTick_empty (show 0 < fuel by omega) later s2 hfirst2
  exact ⟨s3, h1, by rw [h2, hinv2, hinv], h3, by rw [h4]; exact hs2⟩

theorem tickTimes_succ (now p k : Nat) :
    tickTimes now p (k + 1) = tickTimes now p k ++ [(now + (k + 1) * p) % ULONG_MOD] := by
  simp [tickTimes, List.range_succ]

theorem elapsed_one_period (now p k : Nat) (hp : p < ULONG_MOD) :
    elapsedTime ((now + k * p) % ULONG_MOD) ((now + (k + 1) * p) % ULONG_MOD) = p := by
  have h : (k + 1) * p = k * p + p := by ring
  rw [h]
  generalize k * p = x
  unfold elapsedTime sub32 ULONG_MOD at *
  omega

/-- C7, as amended. Periodic re-arms: on a timer with an empty queue, for every 16-bit
period `p > 0` in milliseconds and every clock reading `now` such that the time
elapsed between the last recorded tick and `now`, plus `p`, fits 32 bits (as it does
when `now` is the last recorded tick), `schedRepeat(T, p, MILLIS)` at `now` returns
`true`, and for every `k ≥ 1` the `k` calls of `doTick` at the clock readings
`now + p`, ..., `now + k p` invoke the delegate of `T` exactly `k` times (and nothing
else); after the `k`-th of them `T` is scheduled, is the head of the queue and has
offset `p`. The tick times are readings of the 32-bit millisecond counter, which may
wrap around during the `k` ticks. -/
theorem periodic_rearms (fuel : Nat) (s : TimerState) (T : TicketId) (p now : Nat)
    (hempty : s.m_firstTicket = none) (hdel : (s.heap T).m_delegate = true)
    (hp : 0 < p) (hp16 : p < 65536)
    (hclock : elapsedTime s.m_lastTick now + p < ULONG_MOD) (hf : 2 ≤ fuel) :
    ∃ s0, schedRepeat3 fuel s now T p units_t.MILLIS = some (s0, true) ∧
      s0.invoked = s.invoked ∧
      ∀ k, 1 ≤ k →
        ∃ sk, run fuel s0 ((tickTimes now p k).map Call.doTick) = some sk ∧
          sk.invoked = s.invoked ++ List.replicate k T ∧
          (sk.heap T).isScheduled = true ∧ sk.m_firstTicket = some T ∧
          (sk.heap T).m_delayOffset = p := by
  have hpM : p < ULONG_MOD := by unfold ULONG_MOD; omega
  obtain ⟨s0, hsched, hfirst, hlast, _, hinv, _, _, _, hnext, hdelay, hper, hdg, hs, hu, _⟩ :=
    schedRepeat_empty (s := s) T now 0 units_t.MILLIS p units_t.MILLIS
      hempty (show 0 < fuel by omega)
  have hP0 : Periodic s0 T (elapsedTime s.m_lastTick now) p := by
    refine ⟨hfirst, hnext, ?_, hper, ?_, hs, hdg.trans hdel⟩
    · rw [hdelay]
      have := sub32_lt now s.m_lastTick
      simp only [setDelayOffset_MILLIS_delay, add32, elapsedTime] at *
      unfold ULONG_MOD at *
      omega
    · rw [hu, setPeriodUnits_MILLIS_getPeriodUnits]
  refine ⟨s0, hsched, hinv, ?_⟩
  -- the state after `k` ticks
  have key : ∀ k, 1 ≤ k →
      ∃ sk, run fuel s0 ((tickTimes now p k).map Call.doTick) = some sk ∧
        sk.invoked = s.invoked ++ List.replicate k T ∧ Periodic sk T p p ∧
        sk.m_lastTick = (now + k * p) % ULONG_MOD := by
    intro k hk
    induction k, hk using Nat.le_induction with
    | base =>
      have hdue : elapsedTime s.m_lastTick now ≤
          elapsedTime s0.m_lastTick ((now + p) % ULONG_MOD) := by
        rw [hlast, elapsed_after]
        unfold add32
        unfold ULONG_MOD at *
        omega
      obtain ⟨s1, htick, hP1, hinv1, hlast1, _⟩ :=
        doTick_single_periodic ((now + p) % ULONG_MOD) hP0 hdue hp hf
      refine ⟨s1, ?_, by rw [hinv1, hinv]; rfl, hP1, by rw [hlast1]; simp⟩
      simp [tickTimes, run, step, htick]
    | succ k hk ih =>
      obtain ⟨sk, hrun, hinvk, hPk, hlastk⟩ := ih
      have hdue : p ≤ elapsedTime sk.m_lastTick ((now + (k + 1) * p) % ULONG_MOD) := by
        rw [hlastk, elapsed_one_period now p k hpM]
      obtain ⟨s1, htick, hP1, hinv1, hlast1, _⟩ :=
        doTick_single_periodic ((now + (k + 1) * p) % ULONG_MOD) hPk hdue hp hf
      refine ⟨s1, ?_, ?_, hP1, hlast1⟩
      · rw [tickTimes_succ, List.map_append, run_append, hrun]
        simp [run, step, htick]
      · rw [hinv1, hinvk, List.append_assoc, ← List.replicate_succ']
  intro k hk
  obtain ⟨sk, hrun, hinvk, hPk, _⟩ := key k hk
  exact ⟨sk, hrun, hinvk, hPk.2.2.2.2.2.1, hPk.1, hPk.2.2.1⟩

/-- Instance of C6 with `d = 100` on a newly constructed timer at time `0`. -/
theorem single_shot_fires_once_witness :
    (newTimer idleHeap).m_firstTicket = none ∧ (idleHeap 1).m_delegate = true ∧ 2 ≤ 2 ∧
    ∃ s1 s2, schedOneTime 2 (newTimer idleHeap) 0 1 100 units_t.MILLIS = some (s1, true) ∧
      s1.invoked = [] ∧
      doTick 2 s1 ((0 + 100) % ULONG_MOD) = some s2 ∧
      s2.invoked = [] ++ [1] ∧
      (s2.heap 1).isScheduled = false ∧ s2.m_firstTicket = none ∧
      ∀ later : List Nat, ∃ s3, run 2 s2 (later.map Call.doTick) = some s3 ∧
        s3.invoked = [] ++ [1] ∧ s3.m_firstTicket = none ∧
        (s3.heap 1).isScheduled = false :=
  ⟨rfl, rfl, Nat.le_refl 2,
    single_shot_fires_once 2 (newTimer idleHeap) 1 100 0 rfl rfl (Nat.le_refl 2)⟩

/-- Instance of C7 with `p = 50` and `k = 3` on a newly constructed timer at time `0`. -/
theorem periodic_rearms_witness :
    (newTimer idleHeap).m_firstTicket = none ∧ (idleHeap 1).m_delegate = true ∧
    0 < 50 ∧ 50 < 65536 ∧ elapsedTime (newTimer idleHeap).m_lastTick 0 + 50 < ULONG_MOD ∧
    ∃ s0, schedRepeat3 2 (newTimer idleHeap) 0 1 50 units_t.MILLIS = some (s0, true) ∧
      ∃ s3, run 2 s0 ((tickTimes 0 50 3).map Call.doTick) = some s3 ∧
        s3.invoked = [1, 1, 1] ∧ (s3.heap 1).isScheduled = true ∧
        s3.m_firstTicket = some 1 ∧ (s3.heap 1).m_delayOffset = 50 := by
  refine ⟨rfl, rfl, by decide, by decide, by decide, ?_⟩
  obtain ⟨s0, h0, _, hk⟩ :=
    periodic_rearms 2 (newTimer idleHeap) 1 50 0 rfl rfl (by decide) (by decide)
      (by decide) (Nat.le_refl 2)
  obtain ⟨s3, h3⟩ := hk 3 (by decide)
  exact ⟨s0, h0, s3, h3⟩

/-- C7 as stated fails when the millisecond counter wraps between the call of
`schedRepeat` and the first tick. On a newly constructed timer (last recorded tick
`0`), `schedRepeat(T, 50, MILLIS)` at the clock reading `4294967286` stores the
offset `0 + 4294967286`; the three ticks spaced `50` apart fall at the readings
`40`, `90` and `140`, each advances the schedule by at most `50`, and the delegate is
never invoked: the offset is `4294967146` after the third tick. The same happens
when the time elapsed since the last recorded tick plus the period is exactly
`2^32` (clock reading `4294967246`, first tick at reading `0`). -/
theorem periodic_rearms_fails_across_clock_wrap :
    tickTimes 4294967286 50 3 = [40, 90, 140] ∧
    (run 2 (newTimer idleHeap)
        (Call.schedRepeat3 4294967286 1 50 units_t.MILLIS ::
          (tickTimes 4294967286 50 3).map Call.doTick)).bind
      (fun s => (queueView 2 s).map (fun q => (s.invoked, q))) =
      some ([], [(1, 4294967146)]) ∧
    tickTimes 4294967246 50 3 = [0, 50, 100] ∧
    (run 2 (newTimer idleHeap)
        (Call.schedRepeat3 4294967246 1 50 units_t.MILLIS ::
          (tickTimes 4294967246 50 3).map Call.doTick)).bind
      (fun s => (queueView 2 s).map (fun q => (s.invoked, q))) =
      some ([], [(1, 4294967146)]) := by
  refine ⟨by decide, by decide, by decide, by decide⟩

/-! ## Behaviour of the code at concrete inputs -/

/-- C1, evaluated on the code: ticket `2` is scheduled at time `0` with a delay of
15 ms, then ticket `1` at time `0` with a delay of 5 ms. The queue is `1 → 2` with
offsets `5` and `10`, nothing has been invoked. `doTick(10)` invokes ticket `1` and
ticket `2`, although `10 < 0 + 15`: `updateSchedule` clears the offset of ticket `1`
and then subtracts the whole elapsed time again from ticket `2`. -/
theorem doTick_fires_before_deadline :
    (run 3 (newTimer idleHeap)
        [Call.schedOneTime 0 2 15 units_t.MILLIS,
          Call.schedOneTime 0 1 5 units_t.MILLIS]).bind
      (fun s => (queueView 3 s).map (fun q => (q, s.invoked))) =
      some ([(1, 5), (2, 10)], []) ∧
    (run 3 (newTimer idleHeap)
        [Call.schedOneTime 0 2 15 units_t.MILLIS, Call.schedOneTime 0 1 5 units_t.MILLIS,
          Call.doTick 10]).map (fun s => s.invoked) = some [1, 2] ∧
    10 < 0 + 15 := by
  decide

/-- C2, evaluated on the code: the queue holds ticket `1` with offset `5`; ticket `2`
is added with target delay `8` and is spliced at the end with offset `8`, so the sum
of the offsets from the head up to and including ticket `2` is `13`, not `8`: the
loop of `addTicket` does not subtract the offset of the last ticket. -/
theorem addTicket_at_end_keeps_target :
    (run 3 (newTimer idleHeap) [Call.schedOneTime 0 1 5 units_t.MILLIS]).bind
      (fun s => (addTicket 3 (s.setDelay 2 8) 2).bind
        (fun s1 => (queueView 3 s1).bind (fun q => (absDelayOf 3 s1 2).map
          (fun d => (q, d))))) = some ([(1, 5), (2, 8)], 13) ∧
    (run 3 (newTimer idleHeap)
        [Call.schedOneTime 0 1 5 units_t.MILLIS,
          Call.schedOneTime 0 2 8 units_t.MILLIS]).bind
      (fun s => (queueView 3 s).bind (fun q => (absDelayOf 3 s 2).map
        (fun d => (q, d)))) = some ([(1, 5), (2, 8)], 13) := by
  decide

/-- C3, evaluated on the code: tickets `1`, `2`, `3` are scheduled in this order at
time `0` with the deadlines `5 < 8 < 10`. The queue is `1 → 3 → 2`, and `doTick(10)`
invokes them in the order `1, 3, 2`. -/
theorem doTick_order_not_by_deadline :
    (run 4 (newTimer idleHeap)
        [Call.schedOneTime 0 1 5 units_t.MILLIS, Call.schedOneTime 0 2 8 units_t.MILLIS,
          Call.schedOneTime 0 3 10 units_t.MILLIS]).bind (queueView 4) =
      some [(1, 5), (3, 5), (2, 3)] ∧
    (run 4 (newTimer idleHeap)
        [Call.schedOneTime 0 1 5 units_t.MILLIS, Call.schedOneTime 0 2 8 units_t.MILLIS,
          Call.schedOneTime 0 3 10 units_t.MILLIS, Call.doTick 10]).map
      (fun s => s.invoked) = some [1, 3, 2] := by
  decide

/-- C4, evaluated on the code: in the queue `1 → 2` with offsets `5` and `10` ticket
`2` has the absolute remaining delay `15`. After `schedOneTime` on ticket `1` with a
delay of 20 ms the queue is `2 → 1` with offsets `10` and `20`: the absolute remaining
delay of ticket `2` has become `10`, because `removeTicket` does not add the offset
of the removed ticket to its successor. -/
theorem reschedule_changes_successor_deadline :
    (run 3 (newTimer idleHeap)
        [Call.schedOneTime 0 2 15 units_t.MILLIS,
          Call.schedOneTime 0 1 5 units_t.MILLIS]).bind
      (fun s => (queueView 3 s).bind (fun q => (absDelayOf 3 s 2).map
        (fun d => (q, d)))) = some ([(1, 5), (2, 10)], 15) ∧
    (run 3 (newTimer idleHeap)
        [Call.schedOneTime 0 2 15 units_t.MILLIS, Call.schedOneTime 0 1 5 units_t.MILLIS,
          Call.schedOneTime 0 1 20 units_t.MILLIS]).bind
      (fun s => (queueView 3 s).bind (fun q => (absDelayOf 3 s 2).map
        (fun d => (q, d)))) = some ([(2, 10), (1, 20)], 10) := by
  decide

/-- C8, evaluated on the code: after `setPeriodUnits(DAYS)` the unit read back by
`getPeriodUnits` is `MILLIS` for every ticket, and the scheduled flag is set: the
value `4` of `DAYS` does not fit the two bits of `MASK_UNITS`. A ticket scheduled
with a delay of 5 ms and a period of 2 days is re-inserted by `doTick` with an offset
of 2 (milliseconds) where 2 days are 172800000 ms. -/
theorem days_period_read_back_as_millis :
    (∀ t : TimerTicket,
      (t.setPeriodUnits units_t.DAYS).getPeriodUnits = units_t.MILLIS ∧
      (t.setPeriodUnits units_t.DAYS).isScheduled = true) ∧
    (run 2 (newTimer idleHeap)
        [Call.schedRepeat 0 1 5 units_t.MILLIS 2 units_t.DAYS]).map
      (fun s => (s.heap 1).getPeriodUnits) = some units_t.MILLIS ∧
    (run 2 (newTimer idleHeap)
        [Call.schedRepeat 0 1 5 units_t.MILLIS 2 units_t.DAYS, Call.doTick 5]).bind
      (fun s => (queueView 2 s).map (fun q => (q, s.invoked))) = some ([(1, 2)], [1]) ∧
    (idleTicket.setDelayOffset 2 units_t.DAYS).m_delayOffset = 172800000 := by
  refine ⟨fun t => ⟨?_, ?_⟩, by decide, by decide, by decide⟩
  · rw [TimerTicket.getPeriodUnits_eq_mod]
    have h : (t.setPeriodUnits units_t.DAYS).m_flags % 4 = 0 % 4 := by
      apply mod_four_eq_of_testBit
      intro i hi
      have h2 : ¬ (2 = i) := by omega
      simp [TimerTicket.setPeriodUnits, TimerTicket.clearFlag, TimerTicket.setFlag,
        MASK_UNITS, OFFSET_UNITS, Nat.testBit_xor, Nat.testBit_and, Nat.testBit_or,
        testBit_three, testBit_four, units_t.toNat, hi, h2]
    rw [h]; rfl
  · rw [TimerTicket.isScheduled_eq_testBit]
    simp [TimerTicket.setPeriodUnits, TimerTicket.clearFlag, TimerTicket.setFlag,
      MASK_UNITS, OFFSET_UNITS, Nat.testBit_xor, Nat.testBit_and, Nat.testBit_or,
      testBit_three, testBit_four, units_t.toNat]

/-- While no tick is awaited `process` does nothing. -/
theorem run_process_idle {fuel : Nat} :
    ∀ (times : List Nat) (s : TimerState), s.m_waitingTick = false →
      run fuel s (times.map Call.process) = some s
  | [], _, _ => rfl
  | t :: times, s, h => by
    simp only [List.map_cons, run, step, process, h]
    exact run_process_idle times s h

/-- C9, evaluated on the code: a `SoftwareTimer` is started with an empty queue and
ticket `1` is then scheduled with a delay of 100 ms. The timer is running and ticket
`1` is the new head, but `setNextTickTimer` has not been called and no tick is
awaited; whatever the times of the following `process` calls, the ticket is never
invoked. -/
theorem schedule_on_running_timer_never_fires (times : List Nat) :
    (run 2 (newTimer idleHeap)
        ([Call.start, Call.schedOneTime 0 1 100 units_t.MILLIS] ++
          times.map Call.process)).map
      (fun s => (s.m_running, s.m_firstTicket, s.armed, s.m_waitingTick, s.invoked)) =
      some (true, some 1, [], false, []) := by
  have hpre : (run 2 (newTimer idleHeap)
      [Call.start, Call.schedOneTime 0 1 100 units_t.MILLIS]).map
      (fun s => (s.m_running, s.m_firstTicket, s.armed, s.m_waitingTick, s.invoked)) =
      some (true, some 1, [], false, []) := by decide
  rw [run_append]
  cases h : run 2 (newTimer idleHeap)
      [Call.start, Call.schedOneTime 0 1 100 units_t.MILLIS] with
  | none =>
    rw [h] at hpre
    cases hpre
  | some s1 =>
    rw [h] at hpre
    have hw : s1.m_waitingTick = false := by
      simp only [Option.map_some', Option.some.injEq, Prod.mk.injEq] at hpre
      exact hpre.2.2.2.1
    simp only [Option.some_bind, run_process_idle times s1 hw]
    exact hpre

/-- C10, evaluated on the code: ticket `1` is scheduled with a delay of 100 ms, the
timer is started and stopped. The timer is not running, the queue holds ticket `1`
and nothing has been invoked. A `process` call at time `100` invokes the ticket and
empties the queue: `process` and `doTick` do not look at `m_running` before firing. -/
theorem process_fires_after_stop :
    (run 2 (newTimer idleHeap)
        [Call.schedOneTime 0 1 100 units_t.MILLIS, Call.start, Call.stop]).bind
      (fun s => (queueView 2 s).map (fun q => (s.m_running, q, s.invoked))) =
      some (false, [(1, 100)], []) ∧
    (run 2 (newTimer idleHeap)
        [Call.schedOneTime 0 1 100 units_t.MILLIS, Call.start, Call.stop,
          Call.process 100]).bind
      (fun s => (queueView 2 s).map (fun q => (s.m_running, q, s.invoked))) =
      some (false, [], [1]) := by
  decide

/-! ## Equal deadlines, the header contract and the conversion table -/

/-- C11, evaluated on the code: tickets `1` and `2` are scheduled in this order at time
`0`, both with a delay of 5 ms. The second one is placed before the first (the head
test of `addTicket` is `<=`, the test behind the head is `<`), and `doTick(5)` invokes
ticket `2` before ticket `1`. -/
theorem equal_deadline_fires_last_scheduled_first :
    (run 3 (newTimer idleHeap)
        [Call.schedOneTime 0 1 5 units_t.MILLIS,
          Call.schedOneTime 0 2 5 units_t.MILLIS]).bind (queueView 3) =
      some [(2, 5), (1, 0)] ∧
    (run 3 (newTimer idleHeap)
        [Call.schedOneTime 0 1 5 units_t.MILLIS, Call.schedOneTime 0 2 5 units_t.MILLIS,
          Call.doTick 5]).map (fun s => s.invoked) = some [2, 1] := by
  decide

/-- C12, evaluated on the code: ticket `1` is scheduled with a delay of 5 ms and no
period. Called again on this scheduled ticket, `schedOneTime` and both forms of
`schedRepeat` return `true` and change the offset, the period and the period unit of
the ticket, where the header promises that they do nothing and return `false`. -/
theorem already_scheduled_is_relocated :
    (run 2 (newTimer idleHeap) [Call.schedOneTime 0 1 5 units_t.MILLIS]).bind
      (fun s => (queueView 2 s).map (fun q => (q, (s.heap 1).isScheduled,
        (s.heap 1).m_period, (s.heap 1).getPeriodUnits))) =
      some ([(1, 5)], true, 0, units_t.MILLIS) ∧
    (run 2 (newTimer idleHeap) [Call.schedOneTime 0 1 5 units_t.MILLIS]).bind
      (fun s => (schedOneTime 2 s 0 1 20 units_t.MILLIS).bind
        (fun r => (queueView 2 r.1).map (fun q => (r.2, q)))) = some (true, [(1, 20)]) ∧
    (run 2 (newTimer idleHeap) [Call.schedOneTime 0 1 5 units_t.MILLIS]).bind
      (fun s => (schedRepeat 2 s 0 1 20 units_t.MILLIS 7 units_t.SECONDS).bind
        (fun r => (queueView 2 r.1).map (fun q => (r.2, q, (r.1.heap 1).m_period,
          (r.1.heap 1).getPeriodUnits)))) =
      some (true, [(1, 20)], 7, units_t.SECONDS) ∧
    (run 2 (newTimer idleHeap) [Call.schedOneTime 0 1 5 units_t.MILLIS]).bind
      (fun s => (schedRepeat3 2 s 0 1 7 units_t.SECONDS).bind
        (fun r => (queueView 2 r.1).map (fun q => (r.2, q, (r.1.heap 1).m_period,
          (r.1.heap 1).getPeriodUnits)))) =
      some (true, [(1, 0)], 7, units_t.SECONDS) := by
  refine ⟨by decide, by decide, by decide, by decide⟩

theorem mul32_mul32 (a b c : Nat) : mul32 (mul32 a b) c = mul32 a (b * c) := by
  unfold mul32
  rw [Nat.mul_mod, Nat.mod_mod, ← Nat.mul_mod, Nat.mul_assoc]

/-- C15. Unit conversion table: for every 16-bit delay `d` and every unit `u`,
`setDelayOffset(d, u)` stores `d` times the factor of the table (1, 1000, 60000,
3600000, 86400000) reduced modulo `2^32`, and it stores the exact product whenever
that product is below `2^32`. -/
theorem setDelayOffset_table (t : TimerTicket) (d : Nat) (u : units_t) (hd : d < 65536) :
    (t.setDelayOffset d u).m_delayOffset = (d * millisPerUnit u) % ULONG_MOD ∧
    (d * millisPerUnit u < ULONG_MOD →
      (t.setDelayOffset d u).m_delayOffset = d * millisPerUnit u) := by
  unfold ULONG_MOD
  have key : ∀ k, (t.setDelayOffset d u).m_delayOffset = (d * k) % 4294967296 →
      d * k < 4294967296 → (t.setDelayOffset d u).m_delayOffset = d * k := by
    intro k h1 h2
    rw [h1, Nat.mod_eq_of_lt h2]
  have main : (t.setDelayOffset d u).m_delayOffset = (d * millisPerUnit u) % 4294967296 := by
    cases u
    · simp only [TimerTicket.setDelayOffset, millisPerUnit]
      omega
    all_goals
      simp only [TimerTicket.setDelayOffset, millisPerUnit, mul32_mul32]
      rfl
  exact ⟨main, key _ main⟩

/-- C16, as amended: for a 16-bit delay `d`, `setDelayOffset(d, DAYS)` stores exactly
`d * 86400000` milliseconds if and only if `d ≤ 49`; in particular there is no
wraparound for `0 ≤ d ≤ 49`. -/
theorem setDelayOffset_days_exact_iff (t : TimerTicket) (d : Nat) (hd : d < 65536) :
    (t.setDelayOffset d units_t.DAYS).m_delayOffset = d * 86400000 ↔ d ≤ 49 := by
  simp only [TimerTicket.setDelayOffset, mul32_mul32]
  simp only [mul32, ULONG_MOD]
  omega

/-- C16 as stated fails: 50 days are 4320000000 ms, which exceeds `2^32`; the stored
offsets for 50 and 51 days are 25032704 and 111432704. -/
theorem setDelayOffset_days_wraps_at_50 :
    (idleTicket.setDelayOffset 50 units_t.DAYS).m_delayOffset = 25032704 ∧
    (idleTicket.setDelayOffset 51 units_t.DAYS).m_delayOffset = 111432704 ∧
    50 * 86400000 = 4320000000 ∧ 51 * 86400000 = 4406400000 ∧
    4294967296 ≤ 50 * 86400000 := by
  decide

/-- Instance of C15: 90 minutes. -/
theorem setDelayOffset_table_witness :
    90 < 65536 ∧
    (idleTicket.setDelayOffset 90 units_t.MINUTES).m_delayOffset =
      (90 * millisPerUnit units_t.MINUTES) % ULONG_MOD ∧
    (90 * millisPerUnit units_t.MINUTES < ULONG_MOD →
      (idleTicket.setDelayOffset 90 units_t.MINUTES).m_delayOffset =
        90 * millisPerUnit units_t.MINUTES) :=
  ⟨by decide, setDelayOffset_table idleTicket 90 units_t.MINUTES (by decide)⟩

/-- Instance of the amended C16: 49 days. -/
theorem setDelayOffset_days_exact_iff_witness :
    49 < 65536 ∧
    ((idleTicket.setDelayOffset 49 units_t.DAYS).m_delayOffset = 49 * 86400000 ↔ 49 ≤ 49) :=
  ⟨by decide, setDelayOffset_days_exact_iff idleTicket 49 (by decide)⟩


/-! ## Removal of a ticket that is not queued; scheduling returns -/

theorem setScheduled_false_idem (t : TimerTicket) :
    (t.setScheduled false).setScheduled false = t.setScheduled false := by
  have h : ∀ x : Nat, (x ^^^ (x &&& 4)) ^^^ ((x ^^^ (x &&& 4)) &&& 4) = x ^^^ (x &&& 4) := by
    intro x
    apply Nat.eq_of_testBit_eq
    intro i
    simp only [Nat.testBit_xor, Nat.testBit_and, testBit_four]
    cases x.testBit i <;> cases decide (2 = i) <;> rfl
  simp only [TimerTicket.setScheduled, TimerTicket.clearFlag, FLAG_TICKET_SCHEDULED,
    OFFSET_FIRST_FLAG]
  have h4 : (1 <<< 2 : Nat) = 4 := rfl
  simp only [h4, h, Bool.false_eq_true, if_false]

theorem heapModify_idem (h : TicketId → TimerTicket) (a : TicketId)
    (f : TimerTicket → TimerTicket) (hf : ∀ t, f (f t) = f t) :
    heapModify (heapModify h a f) a f = heapModify h a f := by
  funext b
  simp only [heapModify]
  split
  · rw [hf]
  · rfl

/-- Removing a ticket that is not in the queue only clears its scheduled flag. -/
theorem removeTicket_not_mem {fuel : Nat} {s : TimerState} {T : TicketId}
    {l : List TicketId}
    (hq : IsQueue s.heap s.m_firstTicket l) (hT : T ∉ l) (hf : l.length < fuel) :
    removeTicket fuel s T = some (s.modify T (fun t => t.setScheduled false)) := by
  have hne : ¬ (some T = s.m_firstTicket) := by
    intro he
    cases l with
    | nil =>
      have h1 : s.m_firstTicket = none := hq
      rw [h1] at he
      cases he
    | cons a l =>
      have h1 := hq.1
      rw [h1] at he
      exact hT (by simp [Option.some.inj he])
  have hfind : findPreviousTicket fuel s T = some none :=
    findPreviousLoop_not_mem hq hT hf
  simp only [removeTicket, if_neg hne, hfind]

/-- C20. Idempotent removal: for every well-formed queue `l` and every ticket `T` that
is not in it (whatever its scheduled flag), `removeTicket` returns, leaves the queue
head, every link and every offset unchanged (every other ticket is untouched
altogether, the queue is still `l`), leaves the scheduled flag of `T` clear, and
removing `T` a second time gives the same state as removing it once. -/
theorem removeTicket_idempotent (fuel : Nat) (s : TimerState) (l : List TicketId)
    (T : TicketId) (hw : WellFormed s l) (hT : T ∉ l) (hf : l.length < fuel) :
    ∃ s1, removeTicket fuel s T = some s1 ∧
      s1.m_firstTicket = s.m_firstTicket ∧
      (∀ a, (s1.heap a).m_next_ticket = (s.heap a).m_next_ticket) ∧
      (∀ a, (s1.heap a).m_delayOffset = (s.heap a).m_delayOffset) ∧
      (∀ a, a ≠ T → s1.heap a = s.heap a) ∧
      (s1.heap T).isScheduled = false ∧
      WellFormed s1 l ∧
      (removeTicket fuel s T).bind (fun s2 => removeTicket fuel s2 T) =
        removeTicket fuel s T := by
  have hrem := removeTicket_not_mem hw.1 hT hf
  have hnext : ∀ a, ((s.modify T (fun t => t.setScheduled false)).heap a).m_next_ticket =
      (s.heap a).m_next_ticket :=
    fun a => modify_heap_next_of _ _ _ _ (fun t => setScheduled_next t false)
  have hq1 : IsQueue (s.modify T (fun t => t.setScheduled false)).heap
      (s.modify T (fun t => t.setScheduled false)).m_firstTicket l :=
    IsQueue.congr (h := s.heap) (fun a _ => hnext a) hw.1
  refine ⟨s.modify T (fun t => t.setScheduled false), hrem, rfl, hnext, ?_, ?_, ?_,
    ⟨hq1, ?_⟩, ?_⟩
  · intro a
    simp only [TimerState.modify, heapModify]
    split
    · rw [setScheduled_delay]
    · rfl
  · intro a ha
    exact modify_heap_other _ _ _ _ ha
  · rw [modify_heap_same]
    exact setScheduled_false_isScheduled _
  · intro a ha
    have haT : a ≠ T := fun he => hT (he ▸ ha)
    rw [modify_heap_other _ _ _ _ haT]
    exact hw.2 a ha
  · rw [hrem, Option.some_bind, removeTicket_not_mem hq1 hT hf]
    simp only [TimerState.modify]
    rw [heapModify_idem s.heap T (fun t => t.setScheduled false)
      (fun t => setScheduled_false_idem t)]

/-- Adding a ticket that is not in the queue, whatever its scheduled flag: the function
returns, the ticket is spliced into the queue at one place and is marked scheduled,
and the flags of the other tickets are untouched. -/
theorem addTicket_not_mem_spec {fuel : Nat} {s : TimerState} {T : TicketId}
    {l : List TicketId}
    (hq : IsQueue s.heap s.m_firstTicket l) (hT : T ∉ l) (hf : l.length < fuel) :
    ∃ s1 l1 l2, addTicket fuel s T = some s1 ∧ l = l1 ++ l2 ∧
      IsQueue s1.heap s1.m_firstTicket (l1 ++ T :: l2) ∧
      (s1.heap T).isScheduled = true ∧
      (∀ a, a ≠ T → (s1.heap a).m_flags = (s.heap a).m_flags) := by
  by_cases hs : (s.heap T).isScheduled = true
  · have hrem := removeTicket_not_mem hq hT hf
    have hq1 : IsQueue (s.modify T (fun t => t.setScheduled false)).heap
        (s.modify T (fun t => t.setScheduled false)).m_firstTicket l :=
      IsQueue.congr (h := s.heap)
        (fun a _ => modify_heap_next_of _ _ _ _ (fun t => setScheduled_next t false)) hq
    obtain ⟨s1, l1, l2, hins, hsplit, hq2, hs2, hfl⟩ := addTicketInsert_spec hq1 hT hf
    refine ⟨s1, l1, l2, ?_, hsplit, hq2, hs2, ?_⟩
    · simp only [addTicket, hs, if_true, hrem]
      exact hins
    · intro a ha
      rw [hfl a ha, modify_heap_other _ _ _ _ ha]
  · obtain ⟨s1, l1, l2, hins, hsplit, hq2, hs2, hfl⟩ := addTicketInsert_spec hq hT hf
    refine ⟨s1, l1, l2, ?_, hsplit, hq2, hs2, hfl⟩
    simp only [addTicket, if_neg hs]
    exact hins

theorem schedRepeat_eq (fuel : Nat) (s : TimerState) (now : Nat) (T : TicketId)
    (d : Nat) (du : units_t) (p : Nat) (pu : units_t) :
    schedRepeat fuel s now T d du p pu =
      (addTicket fuel (schedRepeatEntry s now T d du p pu) T).map (fun s5 => (s5, true)) := by
  have h : (((s.modify T (fun t => t.setDelayOffset d du)).modify T
      (fun t => { t with m_period := p })).modify T
      (fun t => t.setPeriodUnits pu)).delay T =
      ((s.heap T).setDelayOffset d du).m_delayOffset := by
    simp only [TimerState.delay, modify_heap_same]
    rfl
  simp only [schedRepeat, schedRepeatEntry, h]
  rw [show (((s.modify T (fun t => t.setDelayOffset d du)).modify T
      (fun t => { t with m_period := p })).modify T
      (fun t => t.setPeriodUnits pu)).m_lastTick = s.m_lastTick from rfl]
  cases addTicket fuel _ T <;> rfl

theorem schedRepeatEntry_first (s : TimerState) (now : Nat) (T : TicketId)
    (d : Nat) (du : units_t) (p : Nat) (pu : units_t) :
    (schedRepeatEntry s now T d du p pu).m_firstTicket = s.m_firstTicket := rfl

theorem schedRepeatEntry_other (s : TimerState) (now : Nat) (T : TicketId)
    (d : Nat) (du : units_t) (p : Nat) (pu : units_t) (a : TicketId) (ha : a ≠ T) :
    (schedRepeatEntry s now T d du p pu).heap a = s.heap a := by
  simp only [schedRepeatEntry, TimerState.setDelay, modify_heap_other _ _ _ _ ha]

theorem schedRepeatEntry_same (s : TimerState) (now : Nat) (T : TicketId)
    (d : Nat) (du : units_t) (p : Nat) (pu : units_t) :
    (schedRepeatEntry s now T d du p pu).heap T =
      { m_delayOffset := add32 ((s.heap T).setDelayOffset d du).m_delayOffset
          (elapsedTime s.m_lastTick now),
        m_next_ticket := (s.heap T).m_next_ticket,
        m_delegate := (s.heap T).m_delegate,
        m_period := p,
        m_flags := ((s.heap T).setPeriodUnits pu).m_flags } := by
  simp only [schedRepeatEntry, TimerState.setDelay, modify_heap_same]
  cases du <;> rfl

theorem schedRepeatEntry_next (s : TimerState) (now : Nat) (T : TicketId)
    (d : Nat) (du : units_t) (p : Nat) (pu : units_t) (a : TicketId) :
    ((schedRepeatEntry s now T d du p pu).heap a).m_next_ticket =
      (s.heap a).m_next_ticket := by
  by_cases ha : a = T
  · rw [ha, schedRepeatEntry_same]
  · rw [schedRepeatEntry_other _ _ _ _ _ _ _ _ ha]

/-- Scheduling a ticket that is not in a well-formed queue: the call returns `true`
and the ticket is spliced into the queue, which stays well-formed. -/
theorem schedRepeat_not_mem_spec {fuel : Nat} {s : TimerState} {l : List TicketId}
    {T : TicketId} (now delay : Nat) (delayUnits : units_t) (period : Nat)
    (periodUnits : units_t)
    (hw : WellFormed s l) (hT : T ∉ l) (hf : l.length < fuel) :
    ∃ s1 l1 l2, schedRepeat fuel s now T delay delayUnits period periodUnits =
        some (s1, true) ∧ l = l1 ++ l2 ∧ WellFormed s1 (l1 ++ T :: l2) := by
  have hq : IsQueue (schedRepeatEntry s now T delay delayUnits period periodUnits).heap
      (schedRepeatEntry s now T delay delayUnits period periodUnits).m_firstTicket l :=
    IsQueue.congr (h := s.heap) (fun a _ => schedRepeatEntry_next _ _ _ _ _ _ _ a) hw.1
  obtain ⟨s1, l1, l2, hadd, hsplit, hq1, hs1, hfl⟩ := addTicket_not_mem_spec hq hT hf
  refine ⟨s1, l1, l2, ?_, hsplit, hq1, ?_⟩
  · rw [schedRepeat_eq, hadd]
    rfl
  · intro a ha
    by_cases haT : a = T
    · rw [haT]; exact hs1
    · have hal : a ∈ l := by
        rw [hsplit]
        rcases List.mem_append.mp ha with h | h
        · exact List.mem_append.mpr (Or.inl h)
        · rcases List.mem_cons.mp h with h | h
          · exact absurd h haT
          · exact List.mem_append.mpr (Or.inr h)
      rw [isScheduled_congr (hfl a haT), schedRepeatEntry_other _ _ _ _ _ _ _ _ haT]
      exact hw.2 a hal

/-- Scheduling on a well-formed queue always returns `true`. -/
theorem schedRepeat_total {fuel : Nat} {s : TimerState} {l : List TicketId}
    (T : TicketId) (now delay : Nat) (delayUnits : units_t) (period : Nat)
    (periodUnits : units_t) (hw : WellFormed s l) (hf : l.length < fuel) :
    ∃ s1, schedRepeat fuel s now T delay delayUnits period periodUnits = some (s1, true) := by
  by_cases hT : T ∈ l
  · obtain ⟨s1, _, h, _⟩ :=
      schedRepeat_mem_spec now delay delayUnits period periodUnits hw hT hf
    exact ⟨s1, h⟩
  · obtain ⟨s1, _, _, h, _⟩ :=
      schedRepeat_not_mem_spec now delay delayUnits period periodUnits hw hT hf
    exact ⟨s1, h⟩

/-- C13. Scheduling always succeeds: whenever `schedOneTime` or one of the two forms of
`schedRepeat` returns, in any state, the returned value is `true`; and on every
well-formed queue, for every ticket (in the queue or not, flagged or not) and every
delay, period and units, each of the three functions does return. -/
theorem scheduling_always_succeeds (fuel : Nat) (s : TimerState) (l : List TicketId)
    (T : TicketId) (now delay : Nat) (delayUnits : units_t) (period : Nat)
    (periodUnits : units_t) (hw : WellFormed s l) (hf : l.length < fuel) :
    ((∃ s1, schedOneTime fuel s now T delay delayUnits = some (s1, true)) ∧
      (∃ s1, schedRepeat fuel s now T delay delayUnits period periodUnits =
        some (s1, true)) ∧
      (∃ s1, schedRepeat3 fuel s now T period periodUnits = some (s1, true))) ∧
    (∀ (s0 : TimerState) (r : TimerState × Bool),
      (schedOneTime fuel s0 now T delay delayUnits = some r ∨
        schedRepeat fuel s0 now T delay delayUnits period periodUnits = some r ∨
        schedRepeat3 fuel s0 now T period periodUnits = some r) → r.2 = true) := by
  refine ⟨⟨schedRepeat_total T now delay delayUnits 0 units_t.MILLIS hw hf,
    schedRepeat_total T now delay delayUnits period periodUnits hw hf,
    schedRepeat_total T now 0 units_t.MILLIS period periodUnits hw hf⟩, ?_⟩
  intro s0 r hr
  have key : ∀ d du p pu, schedRepeat fuel s0 now T d du p pu = some r → r.2 = true := by
    intro d du p pu h
    rw [schedRepeat_eq] at h
    cases hadd : addTicket fuel (schedRepeatEntry s0 now T d du p pu) T with
    | none => rw [hadd] at h; cases h
    | some s5 =>
      rw [hadd] at h
      cases h
      rfl
  rcases hr with h | h | h
  · exact key _ _ _ _ h
  · exact key _ _ _ _ h
  · exact key _ _ _ _ h


/-- Instance of C20: ticket `3`, spuriously flagged as scheduled, is removed from the
queue `1 → 2`. -/
theorem removeTicket_idempotent_witness :
    WellFormed (pairState.modify 3 (fun t => t.setScheduled true)) [1, 2] ∧
    3 ∉ [1, 2] ∧ [1, 2].length < 3 ∧
    ∃ s1, removeTicket 3 (pairState.modify 3 (fun t => t.setScheduled true)) 3 = some s1 ∧
      s1.m_firstTicket = (pairState.modify 3 (fun t => t.setScheduled true)).m_firstTicket ∧
      (∀ a, (s1.heap a).m_next_ticket =
        ((pairState.modify 3 (fun t => t.setScheduled true)).heap a).m_next_ticket) ∧
      (∀ a, (s1.heap a).m_delayOffset =
        ((pairState.modify 3 (fun t => t.setScheduled true)).heap a).m_delayOffset) ∧
      (∀ a, a ≠ 3 → s1.heap a =
        (pairState.modify 3 (fun t => t.setScheduled true)).heap a) ∧
      (s1.heap 3).isScheduled = false ∧
      WellFormed s1 [1, 2] ∧
      (removeTicket 3 (pairState.modify 3 (fun t => t.setScheduled true)) 3).bind
          (fun s2 => removeTicket 3 s2 3) =
        removeTicket 3 (pairState.modify 3 (fun t => t.setScheduled true)) 3 :=
  ⟨by decide, by decide, by decide,
    removeTicket_idempotent 3 (pairState.modify 3 (fun t => t.setScheduled true)) [1, 2] 3
      (by decide) (by decide) (by decide)⟩

/-- Instance of C13: ticket `3` is scheduled on the queue `1 → 2`. -/
theorem scheduling_always_succeeds_witness :
    WellFormed pairState [1, 2] ∧ [1, 2].length < 3 ∧
    ((∃ s1, schedOneTime 3 pairState 0 3 7 units_t.SECONDS = some (s1, true)) ∧
      (∃ s1, schedRepeat 3 pairState 0 3 7 units_t.SECONDS 2 units_t.DAYS =
        some (s1, true)) ∧
      (∃ s1, schedRepeat3 3 pairState 0 3 2 units_t.DAYS = some (s1, true))) ∧
    (∀ (s0 : TimerState) (r : TimerState × Bool),
      (schedOneTime 3 s0 0 3 7 units_t.SECONDS = some r ∨
        schedRepeat 3 s0 0 3 7 units_t.SECONDS 2 units_t.DAYS = some r ∨
        schedRepeat3 3 s0 0 3 2 units_t.DAYS = some r) → r.2 = true) :=
  ⟨pairState_wellFormed, by decide,
    scheduling_always_succeeds 3 pairState [1, 2] 3 0 7 units_t.SECONDS 2 units_t.DAYS
      pairState_wellFormed (by decide)⟩


/-! ## Advancing the schedule -/

theorem setDelay_heap_period (s : TimerState) (a b : TicketId) (v : Nat) :
    ((s.setDelay a v).heap b).m_period = (s.heap b).m_period := by
  simp only [TimerState.setDelay, TimerState.modify, heapModify]
  split <;> rfl

theorem setDelay_heap_delegate (s : TimerState) (a b : TicketId) (v : Nat) :
    ((s.setDelay a v).heap b).m_delegate = (s.heap b).m_delegate := by
  simp only [TimerState.setDelay, TimerState.modify, heapModify]
  split <;> rfl

theorem setDelay_delay_same (s : TimerState) (a : TicketId) (v : Nat) :
    (s.setDelay a v).delay a = v := by
  simp [TimerState.setDelay, TimerState.delay, TimerState.modify]

theorem setDelay_delay_other (s : TimerState) (a b : TicketId) (v : Nat) (h : b ≠ a) :
    (s.setDelay a v).delay b = s.delay b := by
  simp [TimerState.setDelay, TimerState.delay, TimerState.modify, heapModify, h]

theorem sub32_eq_sub {a b : Nat} (ha : a < ULONG_MOD) (hb : b ≤ a) : sub32 a b = a - b := by
  unfold sub32 ULONG_MOD at *
  omega

/-- The loop of `updateSchedule` on a queue: it returns, it changes nothing but offsets
of tickets of the queue, and every offset it writes is a 32-bit value. -/
theorem updateScheduleLoop_spec :
    ∀ {l : List TicketId} {fuel : Nat} {s : TimerState} {p : Option TicketId} (e : Nat),
      IsQueue s.heap p l → l.length < fuel →
      ∃ s1, updateScheduleLoop fuel s p e = some s1 ∧
        s1.m_firstTicket = s.m_firstTicket ∧ s1.m_lastTick = s.m_lastTick ∧
        s1.m_running = s.m_running ∧ s1.invoked = s.invoked ∧ s1.armed = s.armed ∧
        s1.m_waitingTick = s.m_waitingTick ∧ s1.m_delayOffset = s.m_delayOffset ∧
        (∀ a, a ∉ l → s1.heap a = s.heap a) ∧
        (∀ a, (s1.heap a).m_next_ticket = (s.heap a).m_next_ticket) ∧
        (∀ a, (s1.heap a).m_flags = (s.heap a).m_flags) ∧
        (∀ a, (s1.heap a).m_period = (s.heap a).m_period) ∧
        (∀ a, (s1.heap a).m_delegate = (s.heap a).m_delegate) ∧
        (∀ a, s1.delay a = s.delay a ∨ s1.delay a < ULONG_MOD)
  | [], fuel, s, p, e, hq, hf => by
    have h1 : p = none := hq
    subst h1
    obtain ⟨g, rfl⟩ : ∃ g, fuel = g + 1 := ⟨fuel - 1, by simp at hf; omega⟩
    exact ⟨s, rfl, rfl, rfl, rfl, rfl, rfl, rfl, rfl, fun _ _ => rfl, fun _ => rfl,
      fun _ => rfl, fun _ => rfl, fun _ => rfl, fun _ => Or.inl rfl⟩
  | b :: l, fuel, s, p, e, hq, hf => by
    have h1 : p = some b := hq.1
    subst h1
    obtain ⟨g, rfl⟩ : ∃ g, fuel = g + 1 := ⟨fuel - 1, by simp at hf; omega⟩
    by_cases hc : s.delay b ≥ e
    · refine ⟨s.setDelay b (sub32 (s.delay b) e), ?_, rfl, rfl, rfl, rfl, rfl, rfl, rfl,
        ?_, ?_, ?_, ?_, ?_, ?_⟩
      · simp only [updateScheduleLoop, if_pos hc]
      · intro a ha
        exact setDelay_heap_other _ _ _ _ (fun he => ha (by simp [he]))
      · exact fun a => setDelay_heap_next _ _ _ _
      · exact fun a => setDelay_heap_flags _ _ _ _
      · exact fun a => setDelay_heap_period _ _ _ _
      · exact fun a => setDelay_heap_delegate _ _ _ _
      · intro a
        by_cases ha : a = b
        · rw [ha, setDelay_delay_same]
          exact Or.inr (sub32_lt _ _)
        · exact Or.inl (setDelay_delay_other _ _ _ _ ha)
    · have hq1 : IsQueue (s.setDelay b 0).heap ((s.setDelay b 0).next b) l := by
        unfold TimerState.next
        rw [setDelay_heap_next]
        exact IsQueue.congr (h := s.heap) (fun a _ => setDelay_heap_next _ _ _ _) hq.2
      obtain ⟨s1, hrun, h1, h2, h3, h4, h5, h6, h7, hout, hnext, hfl, hper, hdel, hd⟩ :=
        updateScheduleLoop_spec (sub32 e ((s.setDelay b 0).delay b)) hq1
          (show l.length < g by simp at hf; omega)
      refine ⟨s1, ?_, h1, h2, h3, h4, h5, h6, h7, ?_, ?_, ?_, ?_, ?_, ?_⟩
      · simp only [updateScheduleLoop, if_neg hc]
        exact hrun
      · intro a ha
        have hab : a ≠ b := fun he => ha (by simp [he])
        have hal : a ∉ l := fun hm => ha (List.mem_cons_of_mem b hm)
        rw [hout a hal, setDelay_heap_other _ _ _ _ hab]
      · intro a; rw [hnext, setDelay_heap_next]
      · intro a; rw [hfl, setDelay_heap_flags]
      · intro a; rw [hper, setDelay_heap_period]
      · intro a; rw [hdel, setDelay_heap_delegate]
      · intro a
        rcases hd a with h | h
        · by_cases ha : a = b
          · right
            rw [h, ha, setDelay_delay_same]
            unfold ULONG_MOD; omega
          · left
            rw [h, setDelay_delay_other _ _ _ _ ha]
        · exact Or.inr h

/-- C17, as amended. Advance on a well-formed queue with head `h` and elapsed time `e`
(the time between the last recorded tick and `newTick`): `updateSchedule` returns and
replaces the offset of `h` by `max(0, offset - e)`; when `e` does not exceed the offset
of the head, every other ticket is left unchanged. Links, flags and the head pointer
are never changed and the new time is recorded. -/
theorem updateSchedule_head (fuel : Nat) (s : TimerState) (h : TicketId)
    (rest : List TicketId) (newTick : Nat)
    (hw : WellFormed s (h :: rest)) (hd : s.delay h < ULONG_MOD)
    (hf : (h :: rest).length < fuel) :
    ∃ s1, updateSchedule fuel s newTick = some s1 ∧
      s1.delay h = s.delay h - elapsedTime s.m_lastTick newTick ∧
      (elapsedTime s.m_lastTick newTick ≤ s.delay h → ∀ a, a ≠ h → s1.heap a = s.heap a) ∧
      s1.m_firstTicket = s.m_firstTicket ∧
      (∀ a, (s1.heap a).m_next_ticket = (s.heap a).m_next_ticket) ∧
      (∀ a, (s1.heap a).m_flags = (s.heap a).m_flags) ∧
      s1.m_lastTick = newTick ∧ WellFormed s1 (h :: rest) := by
  obtain ⟨hq, hs⟩ := hw
  have hfirst : s.m_firstTicket = some h := hq.1
  have hnd := IsQueue.nodup hq
  have hhr : h ∉ rest := (List.nodup_cons.mp hnd).1
  obtain ⟨g, rfl⟩ : ∃ g, fuel = g + 1 := ⟨fuel - 1, by simp at hf; omega⟩
  have hwf : ∀ s1 : TimerState, s1.m_firstTicket = s.m_firstTicket →
      (∀ a, (s1.heap a).m_next_ticket = (s.heap a).m_next_ticket) →
      (∀ a, (s1.heap a).m_flags = (s.heap a).m_flags) → WellFormed s1 (h :: rest) := by
    intro s1 h1 h2 h3
    refine ⟨?_, fun a ha => ?_⟩
    · rw [h1]
      exact IsQueue.congr (h := s.heap) (fun a _ => h2 a) hq
    · rw [isScheduled_congr (h3 a)]
      exact hs a ha
  by_cases hc : s.delay h ≥ elapsedTime s.m_lastTick newTick
  · have hn : ∀ a, (({ s.setDelay h (sub32 (s.delay h) (elapsedTime s.m_lastTick newTick)) with
        m_lastTick := newTick } : TimerState).heap a).m_next_ticket =
        (s.heap a).m_next_ticket := fun a => setDelay_heap_next _ _ _ _
    have hfl : ∀ a, (({ s.setDelay h (sub32 (s.delay h) (elapsedTime s.m_lastTick newTick)) with
        m_lastTick := newTick } : TimerState).heap a).m_flags =
        (s.heap a).m_flags := fun a => setDelay_heap_flags _ _ _ _
    refine ⟨{ s.setDelay h (sub32 (s.delay h) (elapsedTime s.m_lastTick newTick)) with
        m_lastTick := newTick }, ?_, ?_, ?_, rfl, hn, hfl, rfl, hwf _ rfl hn hfl⟩
    · simp only [updateSchedule, hfirst, updateScheduleLoop, if_pos hc]
    · change (s.setDelay h _).delay h = _
      rw [setDelay_delay_same, sub32_eq_sub hd hc]
    · intro _ a ha
      exact setDelay_heap_other _ _ _ _ ha
  · have hq1 : IsQueue (s.setDelay h 0).heap ((s.setDelay h 0).next h) rest := by
      unfold TimerState.next
      rw [setDelay_heap_next]
      exact IsQueue.congr (h := s.heap) (fun a _ => setDelay_heap_next _ _ _ _) hq.2
    obtain ⟨s1, hrun, h1, _, _, _, _, _, _, hout, hnext, hfl, _, _, _⟩ :=
      updateScheduleLoop_spec (sub32 (elapsedTime s.m_lastTick newTick)
        ((s.setDelay h 0).delay h)) hq1 (show rest.length < g by simp at hf; omega)
    have hn : ∀ a, (({ s1 with m_lastTick := newTick } : TimerState).heap a).m_next_ticket =
        (s.heap a).m_next_ticket := by
      intro a
      change (s1.heap a).m_next_ticket = _
      rw [hnext, setDelay_heap_next]
    have hfl1 : ∀ a, (({ s1 with m_lastTick := newTick } : TimerState).heap a).m_flags =
        (s.heap a).m_flags := by
      intro a
      change (s1.heap a).m_flags = _
      rw [hfl, setDelay_heap_flags]
    refine ⟨{ s1 with m_lastTick := newTick }, ?_, ?_, ?_, h1, hn, hfl1, rfl,
      hwf _ h1 hn hfl1⟩
    · simp only [updateSchedule, hfirst, updateScheduleLoop, if_neg hc, hrun]
    · change (s1.heap h).m_delayOffset = _
      rw [hout h hhr]
      change (s.setDelay h 0).delay h = _
      rw [setDelay_delay_same]
      omega
    · intro hle
      exact absurd hle hc

/-- Instance of the amended C17: the queue `1 → 2` with offsets `5` and `10` is advanced
to time `3`. -/
theorem updateSchedule_head_witness :
    WellFormed pairState [1, 2] ∧ pairState.delay 1 < ULONG_MOD ∧ [1, 2].length < 3 ∧
    ∃ s1, updateSchedule 3 pairState 3 = some s1 ∧
      s1.delay 1 = pairState.delay 1 - elapsedTime pairState.m_lastTick 3 ∧
      (elapsedTime pairState.m_lastTick 3 ≤ pairState.delay 1 →
        ∀ a, a ≠ 1 → s1.heap a = pairState.heap a) ∧
      s1.m_firstTicket = pairState.m_firstTicket ∧
      (∀ a, (s1.heap a).m_next_ticket = (pairState.heap a).m_next_ticket) ∧
      (∀ a, (s1.heap a).m_flags = (pairState.heap a).m_flags) ∧
      s1.m_lastTick = 3 ∧ WellFormed s1 [1, 2] :=
  ⟨pairState_wellFormed, by decide, by decide,
    updateSchedule_head 3 pairState 1 [2] 3 pairState_wellFormed (by decide) (by decide)⟩

/-- C17 as stated fails: the queue `1 → 2` with offsets `5` and `10` is advanced by an
elapsed time of `7`, which exceeds the offset of the head. The head gets offset `0`
and the offset of ticket `2` changes from `10` to `3`. -/
theorem updateSchedule_changes_second_ticket :
    (run 3 (newTimer idleHeap)
        [Call.schedOneTime 0 2 15 units_t.MILLIS,
          Call.schedOneTime 0 1 5 units_t.MILLIS]).bind (queueView 3) =
      some [(1, 5), (2, 10)] ∧
    (run 3 (newTimer idleHeap)
        [Call.schedOneTime 0 2 15 units_t.MILLIS,
          Call.schedOneTime 0 1 5 units_t.MILLIS]).bind
      (fun s => (updateSchedule 3 s 7).bind (queueView 3)) = some [(1, 0), (2, 3)] := by
  decide


/-! ## Insertion and the absolute remaining delays -/

theorem setNext_delay (s : TimerState) (a b : TicketId) (v : Option TicketId) :
    (s.setNext a v).delay b = s.delay b := by
  simp only [TimerState.setNext, TimerState.delay, TimerState.modify, heapModify]
  split <;> rfl

theorem setNext_heap_period (s : TimerState) (a b : TicketId) (v : Option TicketId) :
    ((s.setNext a v).heap b).m_period = (s.heap b).m_period := by
  simp only [TimerState.setNext, TimerState.modify, heapModify]
  split <;> rfl

theorem sub32_zero {a : Nat} (ha : a < ULONG_MOD) : sub32 a 0 = a := by
  unfold sub32 ULONG_MOD at *
  omega

/-- The insertion loop with the offsets it leaves: `T` is spliced behind `cur`, in
front of the tickets `l2`; the only offsets that change are the one of `T` and the
one of the first ticket of `l2`, which is reduced by the final offset of `T`. Periods
are untouched, and the offset of `T` is left as it is when every ticket in front of it
has offset zero. -/
theorem addTicketLoop_delay_spec {T : TicketId} :
    ∀ {rest : List TicketId} {fuel : Nat} {s : TimerState} {cur : TicketId}
      {nxt : Option TicketId},
      s.next cur = nxt → IsQueue s.heap nxt rest → T ≠ cur → T ∉ rest → cur ∉ rest →
      rest.length < fuel → (∀ a ∈ rest, s.delay a < ULONG_MOD) →
      ∃ s1 l1 l2, addTicketLoop T fuel s cur nxt = some s1 ∧ rest = l1 ++ l2 ∧
        IsQueue s1.heap (some cur) (cur :: l1 ++ T :: l2) ∧
        s1.m_firstTicket = s.m_firstTicket ∧
        (∀ a, a ≠ T → a ≠ cur → a ∉ rest → s1.heap a = s.heap a) ∧
        (∀ a, (s1.heap a).m_flags = (s.heap a).m_flags) ∧
        (∀ a, a ≠ T → a ∉ l2.head? → s1.delay a = s.delay a) ∧
        (∀ n ∈ l2.head?, s1.delay T + s1.delay n = s.delay n) ∧
        (∀ a, (s1.heap a).m_period = (s.heap a).m_period) ∧
        (s1.delay T = s.delay T ∨ s1.delay T < ULONG_MOD) ∧
        (s.delay T < ULONG_MOD → (∀ a ∈ cur :: l1, s.delay a = 0) →
          s1.delay T = s.delay T)
  | [], fuel, s, cur, nxt, _, hq, hTc, _, _, hf, _ => by
    have h1 : nxt = none := hq
    subst h1
    obtain ⟨g, rfl⟩ : ∃ g, fuel = g + 1 := ⟨fuel - 1, by simp at hf; omega⟩
    refine ⟨(s.setNext T none).setNext cur (some T), [], [], rfl, rfl, ?_, rfl, ?_, ?_, ?_,
      ?_, ?_, ?_, ?_⟩
    · refine ⟨rfl, ?_, ?_⟩
      · rw [setNext_heap_same]
      · rw [setNext_heap_other _ _ _ _ hTc, setNext_heap_same]
        rfl
    · intro a haT hac _
      rw [setNext_heap_other _ _ _ _ hac, setNext_heap_other _ _ _ _ haT]
    · intro a
      rw [setNext_heap_flags, setNext_heap_flags]
    · intro a _ _
      rw [setNext_delay, setNext_delay]
    · intro n hn
      simp at hn
    · intro a
      rw [setNext_heap_period, setNext_heap_period]
    · left
      rw [setNext_delay, setNext_delay]
    · intro _ _
      rw [setNext_delay, setNext_delay]
  | n :: rest, fuel, s, cur, nxt, hn, hq, hTc, hTr, hcr, hf, hd => by
    have h1 : nxt = some n := hq.1
    subst h1
    obtain ⟨g, rfl⟩ : ∃ g, fuel = g + 1 := ⟨fuel - 1, by simp at hf; omega⟩
    have hTn : T ≠ n := fun he => hTr (by simp [he])
    have hTr1 : T ∉ rest := fun hm => hTr (List.mem_cons_of_mem n hm)
    have hcn : cur ≠ n := fun he => hcr (by simp [he])
    have hcr1 : cur ∉ rest := fun hm => hcr (List.mem_cons_of_mem n hm)
    have hnr : n ∉ rest := (List.nodup_cons.mp (IsQueue.nodup hq)).1
    by_cases hc : (s.setDelay T (sub32 (s.delay T) (s.delay cur))).delay T <
        (s.setDelay T (sub32 (s.delay T) (s.delay cur))).delay n
    · -- the ticket is spliced between `cur` and `n`
      refine ⟨(((s.setDelay T (sub32 (s.delay T) (s.delay cur))).setDelay n
          (sub32 ((s.setDelay T (sub32 (s.delay T) (s.delay cur))).delay n)
            ((s.setDelay T (sub32 (s.delay T) (s.delay cur))).delay T))).setNext
              T (some n)).setNext cur (some T),
        [], n :: rest, by simp only [addTicketLoop, if_pos hc], rfl, ?_, rfl, ?_, ?_, ?_,
        ?_, ?_, ?_, ?_⟩
      · refine ⟨rfl, ?_, ?_, ?_⟩
        · rw [setNext_heap_same]
        · rw [setNext_heap_other _ _ _ _ hTc, setNext_heap_same]
        · rw [setNext_heap_other _ _ _ _ (Ne.symm hcn),
            setNext_heap_other _ _ _ _ (Ne.symm hTn), setDelay_heap_next,
            setDelay_heap_next]
          refine IsQueue.congr (h := s.heap) (fun a ha => ?_) hq.2
          have haT : a ≠ T := fun he => hTr1 (he ▸ ha)
          have hac : a ≠ cur := fun he => hcr1 (he ▸ ha)
          rw [setNext_heap_other _ _ _ _ hac, setNext_heap_other _ _ _ _ haT,
            setDelay_heap_next, setDelay_heap_next]
      · intro a haT hac har
        have han : a ≠ n := fun he => har (by simp [he])
        rw [setNext_heap_other _ _ _ _ hac, setNext_heap_other _ _ _ _ haT,
          setDelay_heap_other _ _ _ _ han, setDelay_heap_other _ _ _ _ haT]
      · intro a
        rw [setNext_heap_flags, setNext_heap_flags, setDelay_heap_flags,
          setDelay_heap_flags]
      · intro a haT han
        have han1 : a ≠ n := fun he => han (by simp [he])
        rw [setNext_delay, setNext_delay, setDelay_delay_other _ _ _ _ han1,
          setDelay_delay_other _ _ _ _ haT]
      · intro m hm
        have hmn : m = n := by simpa using hm.symm
        subst hmn
        have hdn := hd m (by simp)
        have e3 : (s.setDelay T (sub32 (s.delay T) (s.delay cur))).delay m = s.delay m :=
          setDelay_delay_other _ _ _ _ (Ne.symm hTn)
        generalize s.setDelay T (sub32 (s.delay T) (s.delay cur)) = sA at hc e3 ⊢
        rw [setNext_delay, setNext_delay, setNext_delay, setNext_delay,
          setDelay_delay_same, setDelay_delay_other _ _ _ _ hTn, e3]
        rw [e3] at hc
        rw [sub32_eq_sub hdn (Nat.le_of_lt hc)]
        omega
      · intro a
        rw [setNext_heap_period, setNext_heap_period, setDelay_heap_period,
          setDelay_heap_period]
      · right
        rw [setNext_delay, setNext_delay, setDelay_delay_other _ _ _ _ hTn,
          setDelay_delay_same]
        exact sub32_lt _ _
      · intro hdT hz
        rw [setNext_delay, setNext_delay, setDelay_delay_other _ _ _ _ hTn,
          setDelay_delay_same, hz cur (by simp), sub32_zero hdT]
    · -- the loop moves on to `n`
      have hq1 : IsQueue (s.setDelay T (sub32 (s.delay T) (s.delay cur))).heap
          ((s.setDelay T (sub32 (s.delay T) (s.delay cur))).next n) rest := by
        unfold TimerState.next
        rw [setDelay_heap_next]
        exact IsQueue.congr (h := s.heap) (fun a _ => setDelay_heap_next _ _ _ _) hq.2
      have hd1 : ∀ a ∈ rest,
          (s.setDelay T (sub32 (s.delay T) (s.delay cur))).delay a < ULONG_MOD := by
        intro a ha
        have haT : a ≠ T := fun he => hTr1 (he ▸ ha)
        rw [setDelay_delay_other _ _ _ _ haT]
        exact hd a (List.mem_cons_of_mem n ha)
      obtain ⟨s1, l1, l2, hrun, hsplit, hq2, hfirst, hframe, hflags, hsame, hsum, hper,
          hlt, hzero⟩ :=
        addTicketLoop_delay_spec (T := T) rfl hq1 hTn hTr1 hnr
          (show rest.length < g by simp at hf; omega) hd1
      have hcur : s1.heap cur = (s.setDelay T (sub32 (s.delay T) (s.delay cur))).heap cur :=
        hframe cur (Ne.symm hTc) hcn hcr1
      refine ⟨s1, n :: l1, l2, ?_, by simp [hsplit], ?_, hfirst, ?_, ?_, ?_, ?_, ?_, ?_,
        ?_⟩
      · simp only [addTicketLoop, if_neg hc]
        exact hrun
      · refine ⟨rfl, ?_⟩
        rw [hcur, setDelay_heap_next]
        have : (s.heap cur).m_next_ticket = some n := hn
        rw [this]
        exact hq2
      · intro a haT hac har
        have han : a ≠ n := fun he => har (by simp [he])
        have har1 : a ∉ rest := fun hm => har (List.mem_cons_of_mem n hm)
        rw [hframe a haT han har1, setDelay_heap_other _ _ _ _ haT]
      · intro a
        rw [hflags a, setDelay_heap_flags]
      · intro a haT hah
        rw [hsame a haT hah, setDelay_delay_other _ _ _ _ haT]
      · intro m hm
        have hmT : m ≠ T := by
          rintro rfl
          have : m ∈ l2 := List.mem_of_mem_head? hm
          exact hTr1 (hsplit ▸ List.mem_append.mpr (Or.inr this))
        rw [hsum m hm, setDelay_delay_other _ _ _ _ hmT]
      · intro a
        rw [hper a, setDelay_heap_period]
      · right
        rcases hlt with h | h
        · rw [h, setDelay_delay_same]
          exact sub32_lt _ _
        · exact h
      · intro hdT hz
        have hT0 : (s.setDelay T (sub32 (s.delay T) (s.delay cur))).delay T = s.delay T := by
          rw [setDelay_delay_same, hz cur (by simp), sub32_zero hdT]
        rw [← hT0]
        apply hzero
        · rw [hT0]; exact hdT
        · intro a ha
          have har : a ∈ n :: rest := by
            rcases List.mem_cons.mp ha with h | h
            · rw [h]; simp
            · exact List.mem_cons_of_mem n (hsplit ▸ List.mem_append.mpr (Or.inl h))
          have haT : a ≠ T := fun he => hTr (he ▸ har)
          rw [setDelay_delay_other _ _ _ _ haT]
          exact hz a (List.mem_cons_of_mem cur ha)

theorem modify_delay_of (s : TimerState) (a b : TicketId)
    (f : TimerTicket → TimerTicket) (hf : ∀ t, (f t).m_delayOffset = t.m_delayOffset) :
    (s.modify a f).delay b = s.delay b := by
  simp only [TimerState.delay, TimerState.modify, heapModify]
  split
  · rw [hf]
  · rfl

theorem modify_period_of (s : TimerState) (a b : TicketId)
    (f : TimerTicket → TimerTicket) (hf : ∀ t, (f t).m_period = t.m_period) :
    ((s.modify a f).heap b).m_period = (s.heap b).m_period := by
  simp only [TimerState.modify, heapModify]
  split
  · rw [hf]
  · rfl

/-- Insertion of a ticket that is not in the queue, with the offsets it leaves: `T` is
spliced between `l1` and `l2`; the only offsets that change are the one of `T` and the
one of the first ticket of `l2`, which is reduced by the final offset of `T`. Periods
are untouched, and the offset of `T` is left as it is when every ticket in front of it
has offset zero. -/
theorem addTicketInsert_delay_spec {fuel : Nat} {s : TimerState} {T : TicketId}
    {l : List TicketId}
    (hq : IsQueue s.heap s.m_firstTicket l) (hT : T ∉ l) (hf : l.length < fuel)
    (hd : ∀ a ∈ l, s.delay a < ULONG_MOD) :
    ∃ s1 l1 l2, addTicketInsert fuel s T = some s1 ∧ l = l1 ++ l2 ∧
      IsQueue s1.heap s1.m_firstTicket (l1 ++ T :: l2) ∧
      (s1.heap T).isScheduled = true ∧
      (∀ a, a ≠ T → (s1.heap a).m_flags = (s.heap a).m_flags) ∧
      (∀ a, a ≠ T → a ∉ l2.head? → s1.delay a = s.delay a) ∧
      (∀ n ∈ l2.head?, s1.delay T + s1.delay n = s.delay n) ∧
      (∀ a, (s1.heap a).m_period = (s.heap a).m_period) ∧
      (s1.delay T = s.delay T ∨ s1.delay T < ULONG_MOD) ∧
      (s.delay T < ULONG_MOD → (∀ a ∈ l1, s.delay a = 0) → s1.delay T = s.delay T) := by
  have hsd : ∀ t : TimerTicket, (t.setScheduled true).m_delayOffset = t.m_delayOffset :=
    fun t => setScheduled_delay t true
  have hsp : ∀ t : TimerTicket, (t.setScheduled true).m_period = t.m_period :=
    fun t => setScheduled_period t true
  cases l with
  | nil =>
    obtain ⟨s1, l1, l2, h1, h2, h3, h4, h5⟩ := addTicketInsert_spec hq hT hf
    have hl1 : l1 = [] := (List.append_eq_nil.mp h2.symm).1
    have hl2 : l2 = [] := (List.append_eq_nil.mp h2.symm).2
    subst hl1 hl2
    have hfirst : s.m_firstTicket = none := hq
    have hs1 : s1 = ({ s.modify T (fun t => t.setScheduled true) with
        m_firstTicket := some T } : TimerState).setNext T none := by
      have := h1
      simp only [addTicketInsert] at this
      have hf1 : (s.modify T (fun t => t.setScheduled true)).m_firstTicket = none := hfirst
      simp only [hf1, Option.some.injEq] at this
      exact this.symm
    have hdall : ∀ a, s1.delay a = s.delay a := by
      intro a
      rw [hs1, setNext_delay]
      exact modify_delay_of s T a _ hsd
    refine ⟨s1, [], [], h1, rfl, h3, h4, h5, ?_, ?_, ?_, Or.inl (hdall T), ?_⟩
    · intro a _ _
      exact hdall a
    · intro n hn
      simp at hn
    · intro a
      rw [hs1, setNext_heap_period]
      exact modify_period_of s T a _ hsp
    · intro _ _
      exact hdall T
  | cons f rest =>
    have h1 : s.m_firstTicket = some f := hq.1
    have hTf : T ≠ f := fun he => hT (by simp [he])
    have hTr : T ∉ rest := fun hm => hT (List.mem_cons_of_mem f hm)
    have hfr : f ∉ rest := (List.nodup_cons.mp (IsQueue.nodup hq)).1
    have hsched : ∀ t : TimerTicket, (t.setScheduled true).m_next_ticket = t.m_next_ticket :=
      fun t => setScheduled_next t true
    have hdel : ∀ a, (s.modify T (fun t => t.setScheduled true)).delay a = s.delay a :=
      fun a => modify_delay_of s T a _ hsd
    by_cases hc : (s.modify T (fun t => t.setScheduled true)).delay T ≤
        (s.modify T (fun t => t.setScheduled true)).delay f
    · -- the ticket becomes the head
      refine ⟨{ (((s.modify T (fun t => t.setScheduled true)).setDelay f
          (sub32 ((s.modify T (fun t => t.setScheduled true)).delay f)
            ((s.modify T (fun t => t.setScheduled true)).delay T))).setNext T (some f)) with
          m_firstTicket := some T }, [], f :: rest, ?_, rfl, ?_, ?_, ?_, ?_, ?_, ?_, ?_,
        ?_⟩
      · simp only [addTicketInsert]
        have : (s.modify T (fun t => t.setScheduled true)).m_firstTicket = some f := h1
        simp only [this, if_pos hc]
      · refine ⟨rfl, ?_, ?_⟩
        · exact setNext_heap_same _ _ _
        · change IsQueue _ ((TimerState.heap _ f).m_next_ticket) rest
          rw [setNext_heap_other _ _ _ _ (Ne.symm hTf), setDelay_heap_next,
            modify_heap_next_of _ _ _ _ hsched]
          refine IsQueue.congr (h := s.heap) (fun a _ => ?_) hq.2
          change (TimerState.heap _ a).m_next_ticket = _
          have haT : a ≠ T := fun he => hTr (he ▸ ‹a ∈ rest›)
          rw [setNext_heap_other _ _ _ _ haT, setDelay_heap_next,
            modify_heap_next_of _ _ _ _ hsched]
      · change (TimerState.heap _ T).isScheduled = true
        rw [isScheduled_congr (setNext_heap_flags _ _ _ _),
          isScheduled_congr (setDelay_heap_flags _ _ _ _), modify_heap_same]
        exact setScheduled_true_isScheduled _
      · intro a ha
        change (TimerState.heap _ a).m_flags = _
        rw [setNext_heap_flags, setDelay_heap_flags, modify_heap_other _ _ _ _ ha]
      · intro a haT haf
        have haf1 : a ≠ f := fun he => haf (by simp [he])
        change (TimerState.setNext _ T (some f)).delay a = _
        rw [setNext_delay, setDelay_delay_other _ _ _ _ haf1, hdel]
      · intro n hn
        have hnf : n = f := by simpa using hn.symm
        subst hnf
        change (TimerState.setNext _ T (some n)).delay T +
          (TimerState.setNext _ T (some n)).delay n = _
        rw [hdel, hdel] at hc
        rw [setNext_delay, setNext_delay, setDelay_delay_same,
          setDelay_delay_other _ _ _ _ hTf, hdel, hdel,
          sub32_eq_sub (hd n (by simp)) hc]
        omega
      · intro a
        change (TimerState.heap (TimerState.setNext _ T (some f)) a).m_period = _
        rw [setNext_heap_period, setDelay_heap_period]
        exact modify_period_of s T a _ hsp
      · left
        change (TimerState.setNext _ T (some f)).delay T = _
        rw [setNext_delay, setDelay_delay_other _ _ _ _ hTf, hdel]
      · intro _ _
        change (TimerState.setNext _ T (some f)).delay T = _
        rw [setNext_delay, setDelay_delay_other _ _ _ _ hTf, hdel]
    · -- the loop looks for the place behind the head
      have hq1 : IsQueue (s.modify T (fun t => t.setScheduled true)).heap
          ((s.modify T (fun t => t.setScheduled true)).next f) rest := by
        unfold TimerState.next
        rw [modify_heap_next_of _ _ _ _ hsched]
        exact IsQueue.congr (h := s.heap)
          (fun a _ => modify_heap_next_of _ _ _ _ hsched) hq.2
      have hd1 : ∀ a ∈ rest,
          (s.modify T (fun t => t.setScheduled true)).delay a < ULONG_MOD := by
        intro a ha
        rw [hdel]
        exact hd a (List.mem_cons_of_mem f ha)
      obtain ⟨s1, l1, l2, hrun, hsplit, hq2, hfirst, _, hflags, hsame, hsum, hper, hlt,
          hzero⟩ :=
        addTicketLoop_delay_spec (T := T) rfl hq1 hTf hTr hfr
          (show rest.length < fuel by simp at hf; omega) hd1
      refine ⟨s1, f :: l1, l2, ?_, by simp [hsplit], ?_, ?_, ?_, ?_, ?_, ?_, ?_, ?_⟩
      · simp only [addTicketInsert]
        have : (s.modify T (fun t => t.setScheduled true)).m_firstTicket = some f := h1
        simp only [this, if_neg hc]
        exact hrun
      · rw [hfirst]
        have : (s.modify T (fun t => t.setScheduled true)).m_firstTicket = some f := h1
        rw [this]
        exact hq2
      · rw [isScheduled_congr (hflags T), modify_heap_same]
        exact setScheduled_true_isScheduled _
      · intro a ha
        rw [hflags a, modify_heap_other _ _ _ _ ha]
      · intro a haT hah
        rw [hsame a haT hah, hdel]
      · intro n hn
        rw [hsum n hn, hdel]
      · intro a
        rw [hper a]
        exact modify_period_of s T a _ hsp
      · rw [← hdel T]
        exact hlt
      · intro hdT hz
        rw [← hdel T]
        apply hzero
        · rw [hdel]; exact hdT
        · intro a ha
          rw [hdel]
          exact hz a ha

theorem absDelay_cons_self (h : TicketId → TimerTicket) (a : TicketId)
    (l : List TicketId) : absDelay h (a :: l) a = (h a).m_delayOffset := by
  simp [absDelay, sumDelay]

theorem absDelay_cons_ne (h : TicketId → TimerTicket) (a b : TicketId)
    (l : List TicketId) (hab : b ≠ a) :
    absDelay h (b :: l) a = (h b).m_delayOffset + absDelay h l a := by
  simp [absDelay, sumDelay, List.indexOf_cons_ne _ hab]

/-- The absolute remaining delay only depends on the offsets of the tickets of the
queue. -/
theorem absDelay_congr {h h1 : TicketId → TimerTicket} (a : TicketId) :
    ∀ (l : List TicketId),
      (∀ b ∈ l, (h1 b).m_delayOffset = (h b).m_delayOffset) →
      absDelay h1 l a = absDelay h l a
  | [], _ => by simp [absDelay, sumDelay]
  | b :: l, hl => by
    by_cases hab : b = a
    · subst hab
      rw [absDelay_cons_self, absDelay_cons_self, hl b (by simp)]
    · rw [absDelay_cons_ne _ _ _ _ hab, absDelay_cons_ne _ _ _ _ hab, hl b (by simp),
        absDelay_congr a l (fun c hc => hl c (List.mem_cons_of_mem b hc))]

/-- Splicing `T` between `l1` and `l2` keeps every absolute remaining delay, provided
only the offset of the first ticket of `l2` changes, and by the offset of `T`. -/
theorem absDelay_splice {h h1 : TicketId → TimerTicket} {T : TicketId}
    {l2 : List TicketId}
    (hsum : ∀ n ∈ l2.head?, (h1 T).m_delayOffset + (h1 n).m_delayOffset =
      (h n).m_delayOffset) :
    ∀ (l1 : List TicketId), T ∉ l1 ++ l2 → (l1 ++ l2).Nodup →
      (∀ a ∈ l1 ++ l2, a ∉ l2.head? → (h1 a).m_delayOffset = (h a).m_delayOffset) →
      ∀ a ∈ l1 ++ l2, absDelay h1 (l1 ++ T :: l2) a = absDelay h (l1 ++ l2) a
  | [], hT, hnd, hsame, a, ha => by
    have haT : T ≠ a := fun he => hT (he ▸ ha)
    simp only [List.nil_append] at ha hsame hnd ⊢
    rw [absDelay_cons_ne _ _ _ _ haT]
    cases l2 with
    | nil => simp at ha
    | cons n l2 =>
      have hn := hsum n (by simp)
      have hnd1 := List.nodup_cons.mp hnd
      have hrest : ∀ b ∈ l2, (h1 b).m_delayOffset = (h b).m_delayOffset := by
        intro b hb
        apply hsame b (List.mem_cons_of_mem n hb)
        simp only [List.head?_cons, Option.mem_def, Option.some.injEq]
        rintro rfl
        exact hnd1.1 hb
      by_cases hna : n = a
      · subst hna
        rw [absDelay_cons_self, absDelay_cons_self]
        exact hn
      · rw [absDelay_cons_ne _ _ _ _ hna, absDelay_cons_ne _ _ _ _ hna,
          absDelay_congr a l2 hrest]
        omega
  | b :: l1, hT, hnd, hsame, a, ha => by
    have hnd1 := List.nodup_cons.mp hnd
    have hb : (h1 b).m_delayOffset = (h b).m_delayOffset := by
      apply hsame b (by simp)
      intro hm
      have : b ∈ l2 := List.mem_of_mem_head? hm
      exact hnd1.1 (List.mem_append.mpr (Or.inr this))
    by_cases hba : b = a
    · subst hba
      simp only [List.cons_append]
      rw [absDelay_cons_self, absDelay_cons_self, hb]
    · have ha1 : a ∈ l1 ++ l2 := by
        rcases List.mem_cons.mp ha with h | h
        · exact absurd h.symm hba
        · exact h
      simp only [List.cons_append]
      rw [absDelay_cons_ne _ _ _ _ hba, absDelay_cons_ne _ _ _ _ hba, hb,
        absDelay_splice hsum l1 (fun hm => hT (List.mem_cons_of_mem b hm)) hnd1.2
          (fun c hc => hsame c (List.mem_cons_of_mem b hc)) a ha1]

/-- C18. Insertion preserves the other tickets' deadlines: for every well-formed queue
`l` with 32-bit offsets and every unscheduled ticket `T`, `addTicket` returns, the new
queue is well-formed and consists of `T` and the tickets of `l` in their old order,
and the absolute remaining delay of every ticket of `l` is the same as before. -/
theorem addTicket_preserves_deadlines (fuel : Nat) (s : TimerState) (l : List TicketId)
    (T : TicketId) (hw : WellFormed s l) (hT : (s.heap T).isScheduled = false)
    (hd : ∀ a ∈ l, s.delay a < ULONG_MOD) (hf : l.length < fuel) :
    ∃ s1 l1, addTicket fuel s T = some s1 ∧ WellFormed s1 l1 ∧
      T ∈ l1 ∧ l1.erase T = l ∧
      ∀ a ∈ l, absDelay s1.heap l1 a = absDelay s.heap l a := by
  have hTl : T ∉ l := by
    intro hm
    have := hw.2 T hm
    rw [hT] at this
    cases this
  obtain ⟨s1, l1, l2, hins, hsplit, hq1, hs1, hfl, hsame, hsum, _, _, _⟩ :=
    addTicketInsert_delay_spec hw.1 hTl hf hd
  have hTl1 : T ∉ l1 := fun hm => hTl (hsplit ▸ List.mem_append.mpr (Or.inl hm))
  refine ⟨s1, l1 ++ T :: l2, ?_, ⟨hq1, ?_⟩, by simp, ?_, ?_⟩
  · simp only [addTicket, hT, Bool.false_eq_true, if_false]
    exact hins
  · intro a ha
    by_cases haT : a = T
    · rw [haT]; exact hs1
    · have hal : a ∈ l := by
        rw [hsplit]
        rcases List.mem_append.mp ha with h | h
        · exact List.mem_append.mpr (Or.inl h)
        · rcases List.mem_cons.mp h with h | h
          · exact absurd h haT
          · exact List.mem_append.mpr (Or.inr h)
      rw [isScheduled_congr (hfl a haT)]
      exact hw.2 a hal
  · rw [List.erase_append_right _ hTl1, List.erase_cons_head, hsplit]
  · subst hsplit
    exact @absDelay_splice s.heap s1.heap T l2 hsum l1 hTl (IsQueue.nodup hw.1)
      (fun a ha hh => hsame a (fun he => hTl (he ▸ ha)) hh)

/-- Instance of C18: ticket `3` with target delay `8` is added to the queue `1 → 2`
with offsets `5` and `10`. -/
theorem addTicket_preserves_deadlines_witness :
    WellFormed (pairState.setDelay 3 8) [1, 2] ∧
    ((pairState.setDelay 3 8).heap 3).isScheduled = false ∧
    (∀ a ∈ [1, 2], (pairState.setDelay 3 8).delay a < ULONG_MOD) ∧ [1, 2].length < 3 ∧
    ∃ s1 l1, addTicket 3 (pairState.setDelay 3 8) 3 = some s1 ∧ WellFormed s1 l1 ∧
      3 ∈ l1 ∧ l1.erase 3 = [1, 2] ∧
      ∀ a ∈ [1, 2], absDelay s1.heap l1 a = absDelay (pairState.setDelay 3 8).heap [1, 2] a :=
  ⟨by decide, by decide, by decide, by decide,
    addTicket_preserves_deadlines 3 (pairState.setDelay 3 8) [1, 2] 3 (by decide)
      (by decide) (by decide) (by decide)⟩


/-! ## Scheduling once against the specification -/

theorem sameButUnits_modify {s s1 : TimerState} (h : s.SameButUnits s1) (a : TicketId)
    (f g : TimerTicket → TimerTicket)
    (hfg : ∀ t t1 : TimerTicket, t.SameButUnits t1 → (f t).SameButUnits (g t1)) :
    (s.modify a f).SameButUnits (s1.modify a g) := by
  obtain ⟨h1, h2, h3, h4, h5, h6, h7, h8⟩ := h
  refine ⟨h1, h2, h3, h4, h5, h6, h7, fun b => ?_⟩
  simp only [TimerState.modify, heapModify]
  split
  · exact hfg _ _ (h8 b)
  · exact h8 b

theorem sameButUnits_setDelay {s s1 : TimerState} (h : s.SameButUnits s1) (a : TicketId)
    (v : Nat) : (s.setDelay a v).SameButUnits (s1.setDelay a v) :=
  sameButUnits_modify h a _ _ (fun _ _ ht => ⟨rfl, ht.2.1, ht.2.2.1, ht.2.2.2.1, ht.2.2.2.2⟩)

theorem sameButUnits_setNext {s s1 : TimerState} (h : s.SameButUnits s1) (a : TicketId)
    (v : Option TicketId) : (s.setNext a v).SameButUnits (s1.setNext a v) :=
  sameButUnits_modify h a _ _ (fun _ _ ht => ⟨ht.1, rfl, ht.2.2.1, ht.2.2.2.1, ht.2.2.2.2⟩)

theorem sameButUnits_setScheduled {s s1 : TimerState} (h : s.SameButUnits s1)
    (a : TicketId) (b : Bool) :
    (s.modify a (fun t => t.setScheduled b)).SameButUnits
      (s1.modify a (fun t => t.setScheduled b)) := by
  refine sameButUnits_modify h a _ _ (fun t t1 ht => ⟨?_, ?_, ?_, ?_, ?_⟩)
  · rw [setScheduled_delay, setScheduled_delay]; exact ht.1
  · rw [setScheduled_next, setScheduled_next]; exact ht.2.1
  · rw [setScheduled_delegate, setScheduled_delegate]; exact ht.2.2.1
  · rw [setScheduled_period, setScheduled_period]; exact ht.2.2.2.1
  · cases b
    · rw [setScheduled_false_isScheduled, setScheduled_false_isScheduled]
    · rw [setScheduled_true_isScheduled, setScheduled_true_isScheduled]

theorem sameButUnits_setFirst {s s1 : TimerState} (h : s.SameButUnits s1)
    (p : Option TicketId) :
    TimerState.SameButUnits { s with m_firstTicket := p } { s1 with m_firstTicket := p } :=
  ⟨h.1, rfl, h.2.2.1, h.2.2.2.1, h.2.2.2.2.1, h.2.2.2.2.2.1, h.2.2.2.2.2.2.1,
    h.2.2.2.2.2.2.2⟩

theorem sameButUnits_delay {s s1 : TimerState} (h : s.SameButUnits s1) (a : TicketId) :
    s.delay a = s1.delay a := (h.2.2.2.2.2.2.2 a).1

theorem sameButUnits_next {s s1 : TimerState} (h : s.SameButUnits s1) (a : TicketId) :
    s.next a = s1.next a := (h.2.2.2.2.2.2.2 a).2.1

theorem findPreviousLoop_congr {h h1 : TicketId → TimerTicket} (T : TicketId)
    (hn : ∀ a, (h a).m_next_ticket = (h1 a).m_next_ticket) :
    ∀ (fuel : Nat) (cur prev : Option TicketId),
      findPreviousLoop h T fuel cur prev = findPreviousLoop h1 T fuel cur prev
  | 0, _, _ => rfl
  | _ + 1, none, _ => rfl
  | fuel + 1, some c, prev => by
    simp only [findPreviousLoop]
    split
    · rfl
    · rw [hn c]
      exact findPreviousLoop_congr T hn fuel _ _

theorem removeNextTicket_congr {s s1 : TimerState} (h : s.SameButUnits s1)
    (p : TicketId) : (removeNextTicket s p).SameButUnits (removeNextTicket s1 p) := by
  unfold removeNextTicket
  rw [← sameButUnits_next h p]
  cases hp : s.next p with
  | none => exact h
  | some n =>
    simp only []
    rw [← sameButUnits_next h n]
    exact sameButUnits_setScheduled
      (sameButUnits_setNext (sameButUnits_setNext h p (s.next n)) n none) n false

/-- Removal does not look at the stored period units. -/
theorem removeTicket_congr {s s1 : TimerState} (h : s.SameButUnits s1) (fuel : Nat)
    (T : TicketId) (r : TimerState) (hr : removeTicket fuel s T = some r) :
    ∃ r1, removeTicket fuel s1 T = some r1 ∧ r.SameButUnits r1 := by
  have hfind : findPreviousTicket fuel s1 T = findPreviousTicket fuel s T := by
    unfold findPreviousTicket
    rw [← h.2.1]
    exact (findPreviousLoop_congr T (fun a => sameButUnits_next h a) fuel _ _).symm
  unfold removeTicket at hr ⊢
  rw [hfind, ← h.2.1, ← sameButUnits_next h T]
  by_cases hc : some T = s.m_firstTicket
  · rw [if_pos hc] at hr ⊢
    cases hr
    exact ⟨_, rfl, sameButUnits_setScheduled (sameButUnits_setFirst h _) T false⟩
  · rw [if_neg hc] at hr ⊢
    cases hf : findPreviousTicket fuel s T with
    | none => rw [hf] at hr; cases hr
    | some q =>
      rw [hf] at hr
      cases q with
      | none =>
        cases hr
        exact ⟨_, rfl, sameButUnits_setScheduled h T false⟩
      | some p =>
        cases hr
        exact ⟨_, rfl, sameButUnits_setScheduled (removeNextTicket_congr h p) T false⟩

/-- The insertion loop does not look at the stored period units. -/
theorem addTicketLoop_congr (T : TicketId) :
    ∀ (fuel : Nat) {s s1 : TimerState} (cur : TicketId) (nxt : Option TicketId)
      (r : TimerState), s.SameButUnits s1 → addTicketLoop T fuel s cur nxt = some r →
      ∃ r1, addTicketLoop T fuel s1 cur nxt = some r1 ∧ r.SameButUnits r1
  | 0, _, _, _, _, _, _, hr => by cases hr
  | fuel + 1, s, s1, cur, none, r, h, hr => by
    simp only [addTicketLoop, Option.some.injEq] at hr ⊢
    subst hr
    exact ⟨_, rfl, sameButUnits_setNext (sameButUnits_setNext h T none) cur (some T)⟩
  | fuel + 1, s, s1, cur, some n, r, h, hr => by
    have hA : (s.setDelay T (sub32 (s.delay T) (s.delay cur))).SameButUnits
        (s1.setDelay T (sub32 (s1.delay T) (s1.delay cur))) := by
      rw [← sameButUnits_delay h T, ← sameButUnits_delay h cur]
      exact sameButUnits_setDelay h T _
    simp only [addTicketLoop] at hr ⊢
    rw [← sameButUnits_delay hA T, ← sameButUnits_delay hA n, ← sameButUnits_next hA n]
    by_cases hc : (s.setDelay T (sub32 (s.delay T) (s.delay cur))).delay T <
        (s.setDelay T (sub32 (s.delay T) (s.delay cur))).delay n
    · rw [if_pos hc] at hr ⊢
      cases hr
      exact ⟨_, rfl, sameButUnits_setNext (sameButUnits_setNext
        (sameButUnits_setDelay hA n _) T (some n)) cur (some T)⟩
    · rw [if_neg hc] at hr ⊢
      exact addTicketLoop_congr T fuel n _ r hA hr

/-- Insertion does not look at the stored period units. -/
theorem addTicketInsert_congr {s s1 : TimerState} (h : s.SameButUnits s1) (fuel : Nat)
    (T : TicketId) (r : TimerState) (hr : addTicketInsert fuel s T = some r) :
    ∃ r1, addTicketInsert fuel s1 T = some r1 ∧ r.SameButUnits r1 := by
  have hA := sameButUnits_setScheduled h T true
  unfold addTicketInsert at hr ⊢
  simp only [] at hr ⊢
  rw [← hA.2.1]
  cases hf : (s.modify T (fun t => t.setScheduled true)).m_firstTicket with
  | none =>
    rw [hf] at hr
    simp only [Option.some.injEq] at hr ⊢
    subst hr
    exact ⟨_, rfl, sameButUnits_setNext (sameButUnits_setFirst hA (some T)) T none⟩
  | some f =>
    rw [hf] at hr
    simp only [] at hr ⊢
    rw [← sameButUnits_delay hA T, ← sameButUnits_delay hA f, ← sameButUnits_next hA f]
    by_cases hc : (s.modify T (fun t => t.setScheduled true)).delay T ≤
        (s.modify T (fun t => t.setScheduled true)).delay f
    · rw [if_pos hc] at hr ⊢
      cases hr
      exact ⟨_, rfl, sameButUnits_setFirst (sameButUnits_setNext
        (sameButUnits_setDelay hA f _) T (some f)) (some T)⟩
    · rw [if_neg hc] at hr ⊢
      exact addTicketLoop_congr T fuel f _ r hA hr

/-- Adding a ticket does not look at the stored period units. -/
theorem addTicket_congr {s s1 : TimerState} (h : s.SameButUnits s1) (fuel : Nat)
    (T : TicketId) (r : TimerState) (hr : addTicket fuel s T = some r) :
    ∃ r1, addTicket fuel s1 T = some r1 ∧ r.SameButUnits r1 := by
  unfold addTicket at hr ⊢
  rw [← (h.2.2.2.2.2.2.2 T).2.2.2.2]
  by_cases hc : (s.heap T).isScheduled = true
  · rw [if_pos hc] at hr ⊢
    cases hrem : removeTicket fuel s T with
    | none => rw [hrem] at hr; cases hr
    | some q =>
      rw [hrem] at hr
      obtain ⟨q1, hq1, hR⟩ := removeTicket_congr h fuel T q hrem
      rw [hq1]
      exact addTicketInsert_congr hR fuel T r hr
  · rw [if_neg hc] at hr ⊢
    exact addTicketInsert_congr h fuel T r hr

theorem setPeriodUnits_isScheduled (t : TimerTicket) (u : units_t) :
    (t.setPeriodUnits u).isScheduled = (t.isScheduled || decide (u = units_t.DAYS)) := by
  rw [TimerTicket.isScheduled_eq_testBit, TimerTicket.isScheduled_eq_testBit]
  have h1 : Nat.testBit 1 2 = false := by decide
  have h2 : Nat.testBit 2 2 = false := by decide
  cases u <;>
    simp [TimerTicket.setPeriodUnits, TimerTicket.clearFlag, TimerTicket.setFlag,
      MASK_UNITS, OFFSET_UNITS, Nat.testBit_xor, Nat.testBit_and, Nat.testBit_or,
      testBit_three, testBit_four, units_t.toNat, h1, h2]

theorem ticket_sameButUnits_refl (t : TimerTicket) : t.SameButUnits t :=
  ⟨rfl, rfl, rfl, rfl, rfl⟩

/-- Two states that agree outside ticket `T`, whose copies of `T` agree but for the
stored period unit, agree but for the stored period units. -/
theorem sameButUnits_of_ticket {s s1 : TimerState} (T : TicketId)
    (h1 : s.m_lastTick = s1.m_lastTick) (h2 : s.m_firstTicket = s1.m_firstTicket)
    (h3 : s.m_running = s1.m_running) (h4 : s.m_delayOffset = s1.m_delayOffset)
    (h5 : s.m_waitingTick = s1.m_waitingTick) (h6 : s.invoked = s1.invoked)
    (h7 : s.armed = s1.armed) (hother : ∀ a, a ≠ T → s.heap a = s1.heap a)
    (hT : (s.heap T).SameButUnits (s1.heap T)) : s.SameButUnits s1 := by
  refine ⟨h1, h2, h3, h4, h5, h6, h7, fun a => ?_⟩
  by_cases ha : a = T
  · rw [ha]; exact hT
  · rw [hother a ha]
    exact ticket_sameButUnits_refl _

/-- C14, as amended. In every state `schedOneTime(ticket, delay, unit)` is
`schedRepeat(ticket, delay, unit, 0, MILLIS)`. Against the specification's
`schedRepeat(ticket, delay, unit, 0, unit)`, on every well-formed queue: both return
`true`, and the two resulting states agree in every timer field and, for every ticket,
in offset, link, delegate, period and scheduled flag; they can differ only in the
stored period unit of the ticket, and are equal when the unit is `MILLIS`. -/
theorem schedOneTime_refines_spec_but_units (fuel : Nat) (s : TimerState)
    (l : List TicketId) (T : TicketId) (now d : Nat) (u : units_t)
    (hw : WellFormed s l) (hf : l.length < fuel) :
    schedOneTime fuel s now T d u = schedRepeat fuel s now T d u 0 units_t.MILLIS ∧
    ∃ s1 s2, schedOneTime fuel s now T d u = some (s1, true) ∧
      scheduleOnce_spec fuel s now T d u = some (s2, true) ∧
      s1.SameButUnits s2 ∧ (u = units_t.MILLIS → s1 = s2) := by
  refine ⟨rfl, ?_⟩
  obtain ⟨s1, h1⟩ := schedRepeat_total T now d u 0 units_t.MILLIS hw hf
  obtain ⟨s2, h2⟩ := schedRepeat_total T now d u 0 u hw hf
  refine ⟨s1, s2, h1, h2, ?_, ?_⟩
  · rw [schedRepeat_eq] at h1 h2
    have ha1 : addTicket fuel (schedRepeatEntry s now T d u 0 units_t.MILLIS) T = some s1 := by
      cases hx : addTicket fuel (schedRepeatEntry s now T d u 0 units_t.MILLIS) T with
      | none => rw [hx] at h1; cases h1
      | some x => rw [hx] at h1; cases h1; rfl
    have ha2 : addTicket fuel (schedRepeatEntry s now T d u 0 u) T = some s2 := by
      cases hx : addTicket fuel (schedRepeatEntry s now T d u 0 u) T with
      | none => rw [hx] at h2; cases h2
      | some x => rw [hx] at h2; cases h2; rfl
    have hE1 : ((schedRepeatEntry s now T d u 0 units_t.MILLIS).heap T).isScheduled =
        (s.heap T).isScheduled := by
      rw [schedRepeatEntry_same]
      exact (isScheduled_congr rfl).trans (setPeriodUnits_MILLIS_isScheduled _)
    have hE2 : ((schedRepeatEntry s now T d u 0 u).heap T).isScheduled =
        ((s.heap T).isScheduled || decide (u = units_t.DAYS)) := by
      rw [schedRepeatEntry_same]
      exact (isScheduled_congr rfl).trans (setPeriodUnits_isScheduled _ _)
    by_cases hsame : ((schedRepeatEntry s now T d u 0 units_t.MILLIS).heap T).isScheduled =
        ((schedRepeatEntry s now T d u 0 u).heap T).isScheduled
    · have hR : (schedRepeatEntry s now T d u 0 units_t.MILLIS).SameButUnits
          (schedRepeatEntry s now T d u 0 u) := by
        refine sameButUnits_of_ticket T rfl rfl rfl rfl rfl rfl rfl ?_ ?_
        · intro a ha
          rw [schedRepeatEntry_other _ _ _ _ _ _ _ _ ha,
            schedRepeatEntry_other _ _ _ _ _ _ _ _ ha]
        · refine ⟨?_, ?_, ?_, ?_, hsame⟩ <;>
            rw [schedRepeatEntry_same, schedRepeatEntry_same]
      obtain ⟨r1, hr1, hR1⟩ := addTicket_congr hR fuel T s1 ha1
      rw [ha2] at hr1
      cases hr1
      exact hR1
    · -- the unit is `DAYS` and the ticket was not flagged
      have hs0 : (s.heap T).isScheduled = false := by
        rw [hE1, hE2] at hsame
        cases hb : (s.heap T).isScheduled with
        | false => rfl
        | true => rw [hb] at hsame; simp at hsame
      have hsE2 : ((schedRepeatEntry s now T d u 0 u).heap T).isScheduled = true := by
        rw [hE1, hs0] at hsame
        cases hb : ((schedRepeatEntry s now T d u 0 u).heap T).isScheduled with
        | false => rw [hb] at hsame; exact absurd rfl hsame
        | true => rfl
      have hTl : T ∉ l := by
        intro hm
        have := hw.2 T hm
        rw [hs0] at this
        cases this
      have hq2 : IsQueue (schedRepeatEntry s now T d u 0 u).heap
          (schedRepeatEntry s now T d u 0 u).m_firstTicket l :=
        IsQueue.congr (h := s.heap) (fun a _ => schedRepeatEntry_next _ _ _ _ _ _ _ a) hw.1
      have hrem := removeTicket_not_mem hq2 hTl hf
      have hi1 : addTicketInsert fuel (schedRepeatEntry s now T d u 0 units_t.MILLIS) T =
          some s1 := by
        rw [← ha1]
        simp only [addTicket, hE1, hs0, Bool.false_eq_true, if_false]
      have hi2 : addTicketInsert fuel ((schedRepeatEntry s now T d u 0 u).modify T
          (fun t => t.setScheduled false)) T = some s2 := by
        rw [← ha2]
        simp only [addTicket, hsE2, if_true, hrem]
      have hR : (schedRepeatEntry s now T d u 0 units_t.MILLIS).SameButUnits
          ((schedRepeatEntry s now T d u 0 u).modify T (fun t => t.setScheduled false)) := by
        refine sameButUnits_of_ticket T rfl rfl rfl rfl rfl rfl rfl ?_ ?_
        · intro a ha
          rw [modify_heap_other _ _ _ _ ha, schedRepeatEntry_other _ _ _ _ _ _ _ _ ha,
            schedRepeatEntry_other _ _ _ _ _ _ _ _ ha]
        · rw [modify_heap_same]
          refine ⟨?_, ?_, ?_, ?_, ?_⟩
          · rw [setScheduled_delay, schedRepeatEntry_same, schedRepeatEntry_same]
          · rw [setScheduled_next, schedRepeatEntry_same, schedRepeatEntry_same]
          · rw [setScheduled_delegate, schedRepeatEntry_same, schedRepeatEntry_same]
          · rw [setScheduled_period, schedRepeatEntry_same, schedRepeatEntry_same]
          · rw [setScheduled_false_isScheduled, hE1, hs0]
      obtain ⟨r1, hr1, hR1⟩ := addTicketInsert_congr hR fuel T s1 hi1
      rw [hi2] at hr1
      cases hr1
      exact hR1
  · intro hu
    subst hu
    rw [h1] at h2
    cases h2
    rfl

/-- Instance of the amended C14: ticket `3` is scheduled on the queue `1 → 2` with a
delay of 7 seconds. -/
theorem schedOneTime_refines_spec_but_units_witness :
    WellFormed pairState [1, 2] ∧ [1, 2].length < 3 ∧
    schedOneTime 3 pairState 0 3 7 units_t.SECONDS =
      schedRepeat 3 pairState 0 3 7 units_t.SECONDS 0 units_t.MILLIS ∧
    ∃ s1 s2, schedOneTime 3 pairState 0 3 7 units_t.SECONDS = some (s1, true) ∧
      scheduleOnce_spec 3 pairState 0 3 7 units_t.SECONDS = some (s2, true) ∧
      s1.SameButUnits s2 ∧ (units_t.SECONDS = units_t.MILLIS → s1 = s2) :=
  ⟨pairState_wellFormed, by decide,
    schedOneTime_refines_spec_but_units 3 pairState [1, 2] 3 0 7 units_t.SECONDS
      pairState_wellFormed (by decide)⟩

/-- C14 as stated fails: on a newly constructed timer, `schedOneTime(1, 7, SECONDS)`
leaves the flag word `4` and the stored period unit `MILLIS` on the ticket, whereas
`schedRepeat(1, 7, SECONDS, 0, SECONDS)` leaves the flag word `5` and the stored period
unit `SECONDS`. -/
theorem schedOneTime_stores_millis :
    (schedOneTime 2 (newTimer idleHeap) 0 1 7 units_t.SECONDS).map
      (fun r => (r.2, (r.1.heap 1).m_delayOffset, (r.1.heap 1).m_period,
        (r.1.heap 1).m_flags, (r.1.heap 1).getPeriodUnits)) =
      some (true, 7000, 0, 4, units_t.MILLIS) ∧
    (scheduleOnce_spec 2 (newTimer idleHeap) 0 1 7 units_t.SECONDS).map
      (fun r => (r.2, (r.1.heap 1).m_delayOffset, (r.1.heap 1).m_period,
        (r.1.heap 1).m_flags, (r.1.heap 1).getPeriodUnits)) =
      some (true, 7000, 0, 5, units_t.SECONDS) ∧
    (schedRepeat 2 (newTimer idleHeap) 0 1 7 units_t.SECONDS 0 units_t.SECONDS).map
      (fun r => (r.1.heap 1).m_flags) = some 5 := by
  refine ⟨by decide, by decide, by decide⟩


/-! ## The queue invariant over call sequences -/

theorem clearFlag_period (t : TimerTicket) (f : Nat) :
    (t.clearFlag f).m_period = t.m_period := rfl

theorem removeNextTicket_period (s : TimerState) (p a : TicketId) :
    ((removeNextTicket s p).heap a).m_period = (s.heap a).m_period := by
  unfold removeNextTicket
  cases s.next p with
  | none => rfl
  | some n =>
    simp only []
    rw [modify_period_of _ _ _ _ (fun t => clearFlag_period t _), setNext_heap_period,
      setNext_heap_period]

/-- Removal leaves every period as it is. -/
theorem removeTicket_period {fuel : Nat} {s r : TimerState} {T : TicketId}
    (hr : removeTicket fuel s T = some r) (a : TicketId) :
    (r.heap a).m_period = (s.heap a).m_period := by
  unfold removeTicket at hr
  have hsp : ∀ t : TimerTicket, (t.setScheduled false).m_period = t.m_period :=
    fun t => setScheduled_period t false
  by_cases hc : some T = s.m_firstTicket
  · rw [if_pos hc] at hr
    cases hr
    exact modify_period_of _ _ _ _ hsp
  · rw [if_neg hc] at hr
    cases hf : findPreviousTicket fuel s T with
    | none => rw [hf] at hr; cases hr
    | some q =>
      rw [hf] at hr
      cases q with
      | none =>
        cases hr
        exact modify_period_of _ _ _ _ hsp
      | some p =>
        cases hr
        rw [modify_period_of _ _ _ _ hsp, removeNextTicket_period]

/-- Insertion of a ticket that is not in the queue establishes the invariant, given
it for the other tickets. -/
theorem addTicketInsert_inv {fuel : Nat} {s : TimerState} {T : TicketId}
    {l : List TicketId}
    (hq : IsQueue s.heap s.m_firstTicket l) (hT : T ∉ l)
    (hfl : ∀ a, a ≠ T → ((s.heap a).isScheduled = true ↔ a ∈ l))
    (hd : ∀ a ∈ l, s.delay a < ULONG_MOD) (hdT : s.delay T < ULONG_MOD)
    (hp : ∀ a ∈ l, (s.heap a).m_period < 65536) (hpT : (s.heap T).m_period < 65536)
    (hf : l.length < fuel) :
    ∃ s1 l1 l2, addTicketInsert fuel s T = some s1 ∧ l = l1 ++ l2 ∧
      QueueInv s1 (l1 ++ T :: l2) ∧
      (∀ a ∈ l1, s1.delay a = s.delay a) ∧
      ((∀ a ∈ l1, s.delay a = 0) → s1.delay T = s.delay T) := by
  obtain ⟨s1, l1, l2, hins, hsplit, hq1, hs1, hflags, hsame, hsum, hper, hlt, hzero⟩ :=
    addTicketInsert_delay_spec hq hT hf hd
  have hnd : (l1 ++ l2).Nodup := hsplit ▸ IsQueue.nodup hq
  have hmem : ∀ a, a ≠ T → (a ∈ l1 ++ T :: l2 ↔ a ∈ l) := by
    intro a haT
    rw [hsplit]
    simp [haT]
  refine ⟨s1, l1, l2, hins, hsplit, ⟨hq1, ?_, ?_, ?_⟩, ?_, hzero hdT⟩
  · intro a
    by_cases haT : a = T
    · subst haT
      simp [hs1]
    · rw [isScheduled_congr (hflags a haT), hfl a haT, hmem a haT]
  · intro a ha
    by_cases haT : a = T
    · subst haT
      rcases hlt with h | h
      · rw [h]; exact hdT
      · exact h
    · have hal : a ∈ l := (hmem a haT).mp ha
      by_cases hh : a ∈ l2.head?
      · have := hsum a hh
        have := hd a hal
        omega
      · rw [hsame a haT hh]
        exact hd a hal
  · intro a ha
    rw [hper a]
    by_cases haT : a = T
    · subst haT
      exact hpT
    · exact hp a ((hmem a haT).mp ha)
  · intro a ha
    have haT : a ≠ T := fun he => hT (hsplit ▸ List.mem_append.mpr (Or.inl (he ▸ ha)))
    apply hsame a haT
    intro hh
    have h2 : a ∈ l2 := List.mem_of_mem_head? hh
    exact (List.nodup_append.mp hnd).2.2 ha h2

/-- A period of `1 .. 65535` units converts to a non-zero 32-bit number of
milliseconds, whatever the unit. -/
theorem setDelayOffset_period_pos (t : TimerTicket) (p : Nat) (u : units_t)
    (hp0 : p ≠ 0) (hp : p < 65536) :
    (t.setDelayOffset p u).m_delayOffset ≠ 0 ∧
    (t.setDelayOffset p u).m_delayOffset < ULONG_MOD := by
  cases u
  · exact ⟨hp0, by show p < ULONG_MOD; unfold ULONG_MOD; omega⟩
  · show mul32 p 1000 ≠ 0 ∧ mul32 p 1000 < ULONG_MOD
    unfold mul32 ULONG_MOD
    omega
  · show mul32 (mul32 p 1000) 60 ≠ 0 ∧ mul32 (mul32 p 1000) 60 < ULONG_MOD
    rw [mul32_mul32]
    unfold mul32 ULONG_MOD
    omega
  · show mul32 (mul32 (mul32 p 1000) 60) 60 ≠ 0 ∧
      mul32 (mul32 (mul32 p 1000) 60) 60 < ULONG_MOD
    rw [mul32_mul32, mul32_mul32]
    unfold mul32 ULONG_MOD
    omega
  · show mul32 (mul32 (mul32 (mul32 p 1000) 60) 60) 24 ≠ 0 ∧
      mul32 (mul32 (mul32 (mul32 p 1000) 60) 60) 24 < ULONG_MOD
    rw [mul32_mul32, mul32_mul32, mul32_mul32]
    have h : mul32 p (1000 * (60 * (60 * 24))) = (p * 86400000) % 4294967296 := rfl
    rw [h]
    refine ⟨fun h0 => ?_, by unfold ULONG_MOD; omega⟩
    have h1 : 4194304 * 1024 ∣ (p * 84375) * 1024 := by
      have h2 : (p * 84375) * 1024 = p * 86400000 := by omega
      rw [h2]
      exact Nat.dvd_of_mod_eq_zero h0
    have h3 : 4194304 ∣ p * 84375 := Nat.dvd_of_mul_dvd_mul_right (by norm_num) h1
    have h4 : 4194304 ∣ p :=
      (Nat.Coprime.dvd_mul_right (by norm_num : Nat.Coprime 4194304 84375)).mp h3
    have h5 : 4194304 ≤ p := Nat.le_of_dvd (Nat.pos_of_ne_zero hp0) h4
    exact absurd hp (Nat.not_lt.mpr (Nat.le_trans (by decide) h5))

/-- The invariant only reads the ticket memory and the head pointer. -/
theorem QueueInv.of_eq {s s1 : TimerState} {l : List TicketId}
    (hh : s1.heap = s.heap) (hf : s1.m_firstTicket = s.m_firstTicket)
    (h : QueueInv s l) : QueueInv s1 l := by
  unfold QueueInv TimerState.delay at *
  rw [hh, hf]
  exact h

/-- The method `addTicket` establishes the invariant for every ticket, queued or not,
flagged or not, given the invariant for the other tickets. -/
theorem addTicket_inv {fuel : Nat} {s : TimerState} {T : TicketId}
    {l : List TicketId}
    (hq : IsQueue s.heap s.m_firstTicket l)
    (hfl : ∀ a, a ≠ T → ((s.heap a).isScheduled = true ↔ a ∈ l))
    (hTl : T ∈ l → (s.heap T).isScheduled = true)
    (hd : ∀ a ∈ l, s.delay a < ULONG_MOD) (hdT : s.delay T < ULONG_MOD)
    (hp : ∀ a ∈ l, (s.heap a).m_period < 65536) (hpT : (s.heap T).m_period < 65536)
    (hf : l.length < fuel) :
    ∃ s1 l1, addTicket fuel s T = some s1 ∧ QueueInv s1 l1 ∧
      l1.length ≤ l.length + 1 := by
  have hnd := IsQueue.nodup hq
  by_cases hT : T ∈ l
  · have hs := hTl hT
    obtain ⟨r, hrem, hq1, hs1, hfl1, hd1⟩ := removeTicket_mem hq hT hf
    have hper := removeTicket_period hrem
    have hlen : (l.erase T).length < fuel := by
      rw [List.length_erase_of_mem hT]; omega
    have hsub : ∀ a, a ∈ l.erase T → a ∈ l := fun a ha => List.mem_of_mem_erase ha
    obtain ⟨s1, l1, l2, hins, hsplit, hinv, _, _⟩ :=
      addTicketInsert_inv (s := r) (T := T) hq1 (hnd.not_mem_erase)
        (by
          intro a ha
          rw [isScheduled_congr (hfl1 a ha), hfl a ha, hnd.mem_erase_iff]
          simp [ha])
        (fun a ha => by
          show (r.heap a).m_delayOffset < ULONG_MOD
          rw [hd1 a]; exact hd a (hsub a ha))
        (by show (r.heap T).m_delayOffset < ULONG_MOD; rw [hd1 T]; exact hdT)
        (fun a ha => by rw [hper a]; exact hp a (hsub a ha))
        (by rw [hper T]; exact hpT) hlen
    refine ⟨s1, l1 ++ T :: l2, ?_, hinv, ?_⟩
    · simp only [addTicket, hs, if_true, hrem]
      exact hins
    · have h1 : (l1 ++ T :: l2).length = (l.erase T).length + 1 := by
        rw [hsplit]; simp; omega
      rw [h1, List.length_erase_of_mem hT]
      omega
  · by_cases hs : (s.heap T).isScheduled = true
    · have hrem := removeTicket_not_mem hq hT hf
      have hq1 : IsQueue (s.modify T (fun t => t.setScheduled false)).heap
          (s.modify T (fun t => t.setScheduled false)).m_firstTicket l :=
        IsQueue.congr (h := s.heap)
          (fun a _ => modify_heap_next_of _ _ _ _ (fun t => setScheduled_next t false)) hq
      have hdl : ∀ a, (s.modify T (fun t => t.setScheduled false)).delay a = s.delay a :=
        fun a => modify_delay_of _ _ _ _ (fun t => setScheduled_delay t false)
      have hpr : ∀ a, ((s.modify T (fun t => t.setScheduled false)).heap a).m_period =
          (s.heap a).m_period :=
        fun a => modify_period_of _ _ _ _ (fun t => setScheduled_period t false)
      obtain ⟨s1, l1, l2, hins, hsplit, hinv, _, _⟩ :=
        addTicketInsert_inv (s := s.modify T (fun t => t.setScheduled false)) (T := T)
          hq1 hT
          (by
            intro a ha
            rw [modify_heap_other _ _ _ _ ha]
            exact hfl a ha)
          (fun a ha => by rw [hdl a]; exact hd a ha)
          (by rw [hdl T]; exact hdT)
          (fun a ha => by rw [hpr a]; exact hp a ha)
          (by rw [hpr T]; exact hpT) hf
      refine ⟨s1, l1 ++ T :: l2, ?_, hinv, ?_⟩
      · simp only [addTicket, hs, if_true, hrem]
        exact hins
      · rw [hsplit]; simp; omega
    · obtain ⟨s1, l1, l2, hins, hsplit, hinv, _, _⟩ :=
        addTicketInsert_inv hq hT hfl hd hdT hp hpT hf
      refine ⟨s1, l1 ++ T :: l2, ?_, hinv, ?_⟩
      · simp only [addTicket, if_neg hs]
        exact hins
      · rw [hsplit]; simp; omega

/-- The five-argument `schedRepeat` preserves the invariant for a period of type
`time_t`, whatever the units, and adds at most one ticket to the queue. -/
theorem schedRepeat_inv {fuel : Nat} {s : TimerState} {l : List TicketId}
    (T : TicketId) (now d : Nat) (du : units_t) (p : Nat) (pu : units_t)
    (hinv : QueueInv s l) (hp : p < 65536) (hf : l.length < fuel) :
    ∃ s1 l1, schedRepeat fuel s now T d du p pu = some (s1, true) ∧ QueueInv s1 l1 ∧
      l1.length ≤ l.length + 1 := by
  obtain ⟨hq, hfl, hdl, hpl⟩ := hinv
  have hq1 : IsQueue (schedRepeatEntry s now T d du p pu).heap
      (schedRepeatEntry s now T d du p pu).m_firstTicket l :=
    IsQueue.congr (h := s.heap) (fun a _ => schedRepeatEntry_next _ _ _ _ _ _ _ a) hq
  obtain ⟨s1, l1, hadd, hinv1, hlen⟩ :=
    addTicket_inv (s := schedRepeatEntry s now T d du p pu) (T := T) hq1
      (by
        intro a ha
        rw [schedRepeatEntry_other _ _ _ _ _ _ _ _ ha]
        exact hfl a)
      (by
        intro hT
        rw [schedRepeatEntry_same]
        show ((s.heap T).setPeriodUnits pu).isScheduled = true
        rw [setPeriodUnits_isScheduled, (hfl T).mpr hT]
        rfl)
      (by
        intro a ha
        by_cases haT : a = T
        · rw [haT]
          show ((schedRepeatEntry s now T d du p pu).heap T).m_delayOffset < ULONG_MOD
          rw [schedRepeatEntry_same]
          exact add32_lt _ _
        · show ((schedRepeatEntry s now T d du p pu).heap a).m_delayOffset < ULONG_MOD
          rw [schedRepeatEntry_other _ _ _ _ _ _ _ _ haT]
          exact hdl a ha)
      (by
        show ((schedRepeatEntry s now T d du p pu).heap T).m_delayOffset < ULONG_MOD
        rw [schedRepeatEntry_same]
        exact add32_lt _ _)
      (by
        intro a ha
        by_cases haT : a = T
        · rw [haT, schedRepeatEntry_same]
          exact hp
        · rw [schedRepeatEntry_other _ _ _ _ _ _ _ _ haT]
          exact hpl a ha)
      (by rw [schedRepeatEntry_same]; exact hp) hf
  refine ⟨s1, l1, ?_, hinv1, hlen⟩
  rw [schedRepeat_eq, hadd]
  rfl

/-- The method `updateSchedule` preserves the invariant. -/
theorem updateSchedule_inv {fuel : Nat} {s : TimerState} {l : List TicketId} (t : Nat)
    (hinv : QueueInv s l) (hf : l.length < fuel) :
    ∃ s1, updateSchedule fuel s t = some s1 ∧ QueueInv s1 l := by
  obtain ⟨hq, hfl, hdl, hpl⟩ := hinv
  obtain ⟨s1, hrun, h1, _, _, _, _, _, _, _, hnext, hflags, hper, _, hd⟩ :=
    updateScheduleLoop_spec (elapsedTime s.m_lastTick t) hq hf
  refine ⟨{ s1 with m_lastTick := t }, ?_, ?_, ?_, ?_, ?_⟩
  · simp only [updateSchedule, hrun]
  · show IsQueue s1.heap s1.m_firstTicket l
    rw [h1]
    exact IsQueue.congr (h := s.heap) (fun a _ => hnext a) hq
  · intro a
    show (s1.heap a).isScheduled = true ↔ a ∈ l
    rw [isScheduled_congr (hflags a)]
    exact hfl a
  · intro a ha
    show s1.delay a < ULONG_MOD
    rcases hd a with h | h
    · rw [h]; exact hdl a ha
    · exact h
  · intro a ha
    show (s1.heap a).m_period < 65536
    rw [hper a]
    exact hpl a ha

theorem zeroPrefix_le_length (s : TimerState) (l : List TicketId) :
    zeroPrefix s l ≤ l.length := by
  unfold zeroPrefix
  exact (List.takeWhile_sublist _).length_le

theorem zeroPrefix_cons_zero (s : TimerState) (a : TicketId) (l : List TicketId)
    (h : s.delay a = 0) : zeroPrefix s (a :: l) = zeroPrefix s l + 1 := by
  simp [zeroPrefix, List.takeWhile_cons, h]

theorem zeroPrefix_cons_pos (s : TimerState) (a : TicketId) (l : List TicketId)
    (h : s.delay a ≠ 0) : zeroPrefix s (a :: l) = 0 := by
  simp [zeroPrefix, List.takeWhile_cons, h]

theorem zeroPrefix_congr {s s1 : TimerState} :
    ∀ {l : List TicketId}, (∀ a ∈ l, s1.delay a = s.delay a) →
      zeroPrefix s1 l = zeroPrefix s l
  | [], _ => rfl
  | b :: l, h => by
    have hb := h b (List.mem_cons_self b l)
    have ih := zeroPrefix_congr (fun a ha => h a (List.mem_cons_of_mem b ha))
    by_cases h0 : s.delay b = 0
    · rw [zeroPrefix_cons_zero _ _ _ h0, zeroPrefix_cons_zero _ _ _ (hb.trans h0), ih]
    · rw [zeroPrefix_cons_pos _ _ _ h0, zeroPrefix_cons_pos _ _ _ (hb ▸ h0)]

/-- Splicing a ticket with a non-zero offset into a queue does not lengthen the run of
zero offsets at the front. -/
theorem zeroPrefix_splice {s s1 : TimerState} {T : TicketId} {l2 : List TicketId} :
    ∀ {l1 : List TicketId}, (∀ a ∈ l1, s1.delay a = s.delay a) →
      ((∀ a ∈ l1, s.delay a = 0) → s1.delay T ≠ 0) →
      zeroPrefix s1 (l1 ++ T :: l2) ≤ zeroPrefix s (l1 ++ l2)
  | [], _, hT => by
    rw [List.nil_append, zeroPrefix_cons_pos _ _ _ (hT (fun _ h => absurd h (List.not_mem_nil _)))]
    exact Nat.zero_le _
  | b :: l1, h, hT => by
    have hb := h b (List.mem_cons_self b l1)
    by_cases h0 : s.delay b = 0
    · have ih : zeroPrefix s1 (l1 ++ T :: l2) ≤ zeroPrefix s (l1 ++ l2) :=
        zeroPrefix_splice
        (fun a ha => h a (List.mem_cons_of_mem b ha))
        (fun hz => hT (fun a ha => by
          rcases List.mem_cons.mp ha with he | hm
          · rw [he]; exact h0
          · exact hz a hm))
      rw [List.cons_append, List.cons_append, zeroPrefix_cons_zero _ _ _ h0,
        zeroPrefix_cons_zero _ _ _ (hb.trans h0)]
      omega
    · rw [List.cons_append, zeroPrefix_cons_pos _ _ _ (hb ▸ h0)]
      exact Nat.zero_le _

/-- One iteration of the loop of `doTick` on a due head `T`: the head is unlinked and
unflagged, and re-inserted when its period is not zero. -/
theorem doTickLoop_pop {fuel n : Nat} {s : TimerState} {T : TicketId}
    (h1 : s.m_firstTicket = some T) (h0 : s.delay T = 0) :
    ∃ s4, s4.heap = ((s.setNext T none).modify T (fun t => t.setScheduled false)).heap ∧
      s4.m_firstTicket = s.next T ∧
      doTickLoop fuel (n + 1) s =
        if (s4.heap T).m_period ≠ 0 then
          (addTicket fuel (s4.modify T
            (fun t => t.setDelayOffset t.m_period t.getPeriodUnits)) T).bind
              (doTickLoop fuel n)
        else doTickLoop fuel n s4 := by
  cases hdel : (s.heap T).m_delegate
  · refine ⟨(({ s with m_firstTicket := s.next T } : TimerState).setNext T none).modify T
      (fun t => t.setScheduled false), rfl, rfl, ?_⟩
    simp only [doTickLoop, h1, h0, hdel, ↓reduceIte, Bool.false_eq_true]
    split
    · cases addTicket fuel _ T <;> rfl
    · rfl
  · refine ⟨(({ s with m_firstTicket := s.next T, invoked := s.invoked ++ [T] } :
      TimerState).setNext T none).modify T (fun t => t.setScheduled false), rfl, rfl, ?_⟩
    simp only [doTickLoop, h1, h0, hdel, ↓reduceIte, Bool.false_eq_true]
    split
    · cases addTicket fuel _ T <;> rfl
    · rfl

/-- The loop of `doTick` returns within `zeroPrefix + 1` iterations, preserves the
invariant, does not lengthen the queue, and leaves a queue that is empty or has a
head with a non-zero offset. -/
theorem doTickLoop_inv {fuel : Nat} :
    ∀ (n : Nat) {s : TimerState} {l : List TicketId},
      QueueInv s l → zeroPrefix s l < n → l.length < fuel →
      ∃ s1 l1, doTickLoop fuel n s = some s1 ∧ QueueInv s1 l1 ∧
        l1.length ≤ l.length ∧ zeroPrefix s1 l1 = 0
  | 0, _, _, _, hz, _ => absurd hz (Nat.not_lt_zero _)
  | n + 1, s, [], hinv, _, _ => by
    have h1 : s.m_firstTicket = none := hinv.1
    exact ⟨s, [], by simp only [doTickLoop, h1], hinv, Nat.le_refl _, rfl⟩
  | n + 1, s, T :: rest, hinv, hz, hf => by
    have h1 : s.m_firstTicket = some T := hinv.1.1
    by_cases h0 : s.delay T = 0
    · obtain ⟨hq, hfl, hdl, hpl⟩ := hinv
      have hnd : (T :: rest).Nodup := IsQueue.nodup hq
      have hTrest : T ∉ rest := (List.nodup_cons.mp hnd).1
      obtain ⟨s4, hheap, hfirst, hrun⟩ := @doTickLoop_pop fuel n s T h1 h0
      have hs4o : ∀ a, a ≠ T → s4.heap a = s.heap a := by
        intro a ha
        rw [hheap, modify_heap_other _ _ _ _ ha, setNext_heap_other _ _ _ _ ha]
      have hs4d : ∀ a, s4.delay a = s.delay a := by
        intro a
        show (s4.heap a).m_delayOffset = (s.heap a).m_delayOffset
        rw [hheap]
        exact (modify_delay_of _ _ _ _ (fun t => setScheduled_delay t false)).trans
          (setNext_delay _ _ _ _)
      have hs4p : ∀ a, (s4.heap a).m_period = (s.heap a).m_period := by
        intro a
        rw [hheap, modify_period_of _ _ _ _ (fun t => setScheduled_period t false),
          setNext_heap_period]
      have hs4f : (s4.heap T).isScheduled = false := by
        rw [hheap, modify_heap_same]
        exact setScheduled_false_isScheduled _
      have hq4 : IsQueue s4.heap s4.m_firstTicket rest := by
        rw [hfirst]
        exact IsQueue.congr (h := s.heap)
          (fun a ha => by rw [hs4o a (fun he => hTrest (he ▸ ha))]) hq.2
      have hmem : ∀ a, a ≠ T → (a ∈ T :: rest ↔ a ∈ rest) := by
        intro a ha
        simp [ha]
      have hfl4 : ∀ a, a ≠ T → ((s4.heap a).isScheduled = true ↔ a ∈ rest) := by
        intro a ha
        rw [hs4o a ha, hfl a, hmem a ha]
      have hinv4 : QueueInv s4 rest := by
        refine ⟨hq4, ?_, ?_, ?_⟩
        · intro a
          by_cases ha : a = T
          · rw [ha, hs4f]
            simp [hTrest]
          · exact hfl4 a ha
        · intro a ha
          rw [hs4d a]
          exact hdl a (List.mem_cons_of_mem T ha)
        · intro a ha
          rw [hs4p a]
          exact hpl a (List.mem_cons_of_mem T ha)
      have hz4 : zeroPrefix s4 rest < n := by
        have e1 : zeroPrefix s4 rest = zeroPrefix s rest :=
          zeroPrefix_congr (fun a _ => hs4d a)
        rw [zeroPrefix_cons_zero _ _ _ h0] at hz
        omega
      have hlen : rest.length < fuel := by
        simp only [List.length_cons] at hf
        omega
      by_cases hp : (s4.heap T).m_period ≠ 0
      · rw [hrun, if_pos hp]
        have hpT : (s4.heap T).m_period < 65536 := by
          rw [hs4p T]
          exact hpl T (List.mem_cons_self T rest)
        obtain ⟨hne, hlt⟩ := setDelayOffset_period_pos (s4.heap T) (s4.heap T).m_period
          (s4.heap T).getPeriodUnits hp hpT
        have hs5o : ∀ a, a ≠ T →
            (s4.modify T (fun t => t.setDelayOffset t.m_period t.getPeriodUnits)).heap a =
              s4.heap a :=
          fun a ha => modify_heap_other _ _ _ _ ha
        have hs5T : (s4.modify T
            (fun t => t.setDelayOffset t.m_period t.getPeriodUnits)).heap T =
              (s4.heap T).setDelayOffset (s4.heap T).m_period (s4.heap T).getPeriodUnits :=
          modify_heap_same _ _ _
        have hs5f : ((s4.modify T
            (fun t => t.setDelayOffset t.m_period t.getPeriodUnits)).heap T).isScheduled =
              false := by
          rw [hs5T, isScheduled_congr (setDelayOffset_flags _ _ _)]
          exact hs4f
        have hq5 : IsQueue
            (s4.modify T (fun t => t.setDelayOffset t.m_period t.getPeriodUnits)).heap
            (s4.modify T (fun t => t.setDelayOffset t.m_period t.getPeriodUnits)).m_firstTicket
            rest :=
          IsQueue.congr (h := s4.heap)
            (fun a ha => by rw [hs5o a (fun he => hTrest (he ▸ ha))]) hq4
        obtain ⟨s6, l1, l2, hins, hsplit, hinv6, hsame, hzero⟩ :=
          addTicketInsert_inv
            (s := s4.modify T (fun t => t.setDelayOffset t.m_period t.getPeriodUnits))
            (T := T) hq5 hTrest
            (by
              intro a ha
              rw [hs5o a ha]
              exact hfl4 a ha)
            (by
              intro a ha
              show ((s4.modify T
                (fun t => t.setDelayOffset t.m_period t.getPeriodUnits)).heap a).m_delayOffset
                  < ULONG_MOD
              rw [hs5o a (fun he => hTrest (he ▸ ha))]
              exact hinv4.2.2.1 a ha)
            (by
              show ((s4.modify T
                (fun t => t.setDelayOffset t.m_period t.getPeriodUnits)).heap T).m_delayOffset
                  < ULONG_MOD
              rw [hs5T]
              exact hlt)
            (by
              intro a ha
              rw [hs5o a (fun he => hTrest (he ▸ ha))]
              exact hinv4.2.2.2 a ha)
            (by
              rw [hs5T, setDelayOffset_period]
              exact hpT)
            hlen
        have hadd : addTicket fuel
            (s4.modify T (fun t => t.setDelayOffset t.m_period t.getPeriodUnits)) T =
              some s6 := by
          simp only [addTicket, hs5f]
          exact hins
        have hz5 : zeroPrefix
            (s4.modify T (fun t => t.setDelayOffset t.m_period t.getPeriodUnits)) rest =
              zeroPrefix s4 rest :=
          zeroPrefix_congr (fun a ha => by
            show ((s4.modify T
              (fun t => t.setDelayOffset t.m_period t.getPeriodUnits)).heap a).m_delayOffset =
                (s4.heap a).m_delayOffset
            rw [hs5o a (fun he => hTrest (he ▸ ha))])
        have hz6 : zeroPrefix s6 (l1 ++ T :: l2) ≤
            zeroPrefix
              (s4.modify T (fun t => t.setDelayOffset t.m_period t.getPeriodUnits))
              (l1 ++ l2) :=
          zeroPrefix_splice hsame (fun hall => by
            rw [hzero hall]
            show ((s4.modify T
              (fun t => t.setDelayOffset t.m_period t.getPeriodUnits)).heap T).m_delayOffset
                ≠ 0
            rw [hs5T]
            exact hne)
        rw [← hsplit, hz5] at hz6
        have hlen6 : (l1 ++ T :: l2).length = rest.length + 1 := by
          rw [hsplit]
          simp
          omega
        obtain ⟨s7, l7, hrun7, hinv7, hlen7, hz7⟩ :=
          doTickLoop_inv n hinv6 (by omega) (by rw [hlen6]; simpa using hf)
        refine ⟨s7, l7, ?_, hinv7, ?_, hz7⟩
        · rw [hadd, Option.some_bind]
          exact hrun7
        · rw [hlen6] at hlen7
          simpa using hlen7
      · rw [hrun, if_neg hp]
        obtain ⟨s7, l7, hrun7, hinv7, hlen7, hz7⟩ := doTickLoop_inv n hinv4 hz4 hlen
        refine ⟨s7, l7, hrun7, hinv7, ?_, hz7⟩
        simp only [List.length_cons]
        omega
    · refine ⟨s, T :: rest, ?_, hinv, Nat.le_refl _, zeroPrefix_cons_pos _ _ _ h0⟩
      simp only [doTickLoop, h1, h0, if_false]

/-- The method `doTick` returns and preserves the invariant. -/
theorem doTick_inv {fuel : Nat} {s : TimerState} {l : List TicketId} (t : Nat)
    (hinv : QueueInv s l) (hf : l.length < fuel) :
    ∃ s1 l1, doTick fuel s t = some s1 ∧ QueueInv s1 l1 ∧ l1.length ≤ l.length := by
  obtain ⟨s1, hup, hinv1⟩ := updateSchedule_inv t hinv hf
  obtain ⟨s2, l2, hloop, hinv2, hlen2, _⟩ :=
    doTickLoop_inv fuel hinv1 (Nat.lt_of_le_of_lt (zeroPrefix_le_length s1 l) hf) hf
  cases hfirst : s2.m_firstTicket with
  | none =>
    exact ⟨s2, l2, by simp only [doTick, hup, hloop, hfirst], hinv2, hlen2⟩
  | some first =>
    cases hr : s2.m_running with
    | false =>
      refine ⟨s2, l2, ?_, hinv2, hlen2⟩
      simp only [doTick, hup, hloop, hfirst, hr]
      rfl
    | true =>
      refine ⟨setNextTickTimer s2 (s2.delay first), l2, ?_,
        QueueInv.of_eq rfl rfl hinv2, hlen2⟩
      simp only [doTick, hup, hloop, hfirst, hr]
      rfl

/-- The method `SoftwareTimer::process` returns and preserves the invariant. -/
theorem process_inv {fuel : Nat} {s : TimerState} {l : List TicketId} (now : Nat)
    (hinv : QueueInv s l) (hf : l.length < fuel) :
    ∃ s1 l1, process fuel s now = some s1 ∧ QueueInv s1 l1 ∧ l1.length ≤ l.length := by
  by_cases hw : s.m_waitingTick = true
  · by_cases he : elapsedTime s.m_lastTick now ≥ s.m_delayOffset
    · obtain ⟨s1, l1, hrun, hinv1, hlen⟩ :=
        doTick_inv (s := { s with m_waitingTick := false }) now
          (QueueInv.of_eq rfl rfl hinv) hf
      refine ⟨s1, l1, ?_, hinv1, hlen⟩
      simp only [process, hw, if_true, if_pos he]
      exact hrun
    · exact ⟨s, l, by simp only [process, hw, if_true, if_neg he], hinv, Nat.le_refl _⟩
  · exact ⟨s, l, by simp only [process, if_neg hw], hinv, Nat.le_refl _⟩

/-- The method `start` preserves the invariant. -/
theorem start_inv {s : TimerState} {l : List TicketId} (hinv : QueueInv s l) :
    QueueInv (start s) l := by
  unfold start
  cases hr : s.m_running with
  | true => exact hinv
  | false =>
    cases hfirst : s.m_firstTicket with
    | none =>
      simp only [Bool.not_false, if_true, hfirst]
      exact @QueueInv.of_eq s _ l rfl hfirst.symm hinv
    | some first =>
      simp only [Bool.not_false, if_true, hfirst]
      exact @QueueInv.of_eq s _ l rfl hfirst.symm hinv

/-- The method `stop` preserves the invariant. -/
theorem stop_inv {s : TimerState} {l : List TicketId} (hinv : QueueInv s l) :
    QueueInv (stop s) l := by
  unfold stop
  split
  · exact QueueInv.of_eq rfl rfl hinv
  · exact hinv

/-- Every call of the interface returns, preserves the invariant and adds at most one
ticket to the queue. -/
theorem step_inv {fuel : Nat} {s : TimerState} {l : List TicketId} (c : Call)
    (hinv : QueueInv s l) (hc : c.WellTyped) (hf : l.length < fuel) :
    ∃ s1 l1, step fuel s c = some s1 ∧ QueueInv s1 l1 ∧ l1.length ≤ l.length + 1 := by
  cases c with
  | schedOneTime now T d u =>
    obtain ⟨s1, l1, hrun, hinv1, hlen⟩ :=
      schedRepeat_inv T now d u 0 units_t.MILLIS hinv (by decide) hf
    exact ⟨s1, l1, by simp only [step, schedOneTime, hrun, Option.map_some'], hinv1, hlen⟩
  | schedRepeat now T d du p pu =>
    obtain ⟨s1, l1, hrun, hinv1, hlen⟩ := schedRepeat_inv T now d du p pu hinv hc hf
    exact ⟨s1, l1, by simp only [step, hrun, Option.map_some'], hinv1, hlen⟩
  | schedRepeat3 now T p pu =>
    obtain ⟨s1, l1, hrun, hinv1, hlen⟩ :=
      schedRepeat_inv T now 0 units_t.MILLIS p pu hinv hc hf
    exact ⟨s1, l1, by simp only [step, schedRepeat3, hrun, Option.map_some'], hinv1, hlen⟩
  | doTick t =>
    obtain ⟨s1, l1, hrun, hinv1, hlen⟩ := doTick_inv t hinv hf
    exact ⟨s1, l1, hrun, hinv1, Nat.le_succ_of_le hlen⟩
  | start => exact ⟨start s, l, rfl, start_inv hinv, Nat.le_succ _⟩
  | stop => exact ⟨stop s, l, rfl, stop_inv hinv, Nat.le_succ _⟩
  | process now =>
    obtain ⟨s1, l1, hrun, hinv1, hlen⟩ := process_inv now hinv hf
    exact ⟨s1, l1, hrun, hinv1, Nat.le_succ_of_le hlen⟩

/-- Every sequence of calls returns and preserves the invariant, when the bound on the
loops exceeds the number of tickets that the calls can queue. -/
theorem run_inv {fuel : Nat} :
    ∀ (calls : List Call) {s : TimerState} {l : List TicketId},
      QueueInv s l → (∀ c ∈ calls, c.WellTyped) → l.length + calls.length ≤ fuel →
      ∃ s1 l1, run fuel s calls = some s1 ∧ QueueInv s1 l1
  | [], s, l, hinv, _, _ => ⟨s, l, rfl, hinv⟩
  | c :: cs, s, l, hinv, hty, hf => by
    simp only [List.length_cons] at hf
    obtain ⟨s1, l1, hstep, hinv1, hlen⟩ :=
      step_inv c hinv (hty c (List.mem_cons_self c cs)) (show l.length < fuel by omega)
    obtain ⟨s2, l2, hrun, hinv2⟩ :=
      run_inv cs hinv1 (fun d hd => hty d (List.mem_cons_of_mem c hd))
        (show l1.length + cs.length ≤ fuel by omega)
    exact ⟨s2, l2, by simp only [run, hstep]; exact hrun, hinv2⟩

/-- A newly constructed timer over tickets whose scheduled flag is clear satisfies
the invariant with the empty queue. -/
theorem newTimer_inv (heap0 : TicketId → TimerTicket)
    (h0 : ∀ a, (heap0 a).isScheduled = false) : QueueInv (newTimer heap0) [] := by
  refine ⟨rfl, ?_, ?_, ?_⟩
  · intro a
    show (heap0 a).isScheduled = true ↔ a ∈ []
    rw [h0 a]
    simp
  · intro a ha
    exact absurd ha (List.not_mem_nil a)
  · intro a ha
    exact absurd ha (List.not_mem_nil a)

/-- C19. Invariant I2 at operation boundaries: from a newly constructed timer over
tickets whose scheduled flag is clear, every sequence of calls of `schedOneTime`, the
two forms of `schedRepeat` (any units, `DAYS` included, periods of type `time_t`),
`doTick`, `start`, `stop` and `process` returns, and in the resulting state the links
lead from the head through a finite list of tickets without repetition to the null
pointer, and a ticket is marked scheduled if and only if it is in that list. -/
theorem queue_invariant_at_operation_boundaries (fuel : Nat)
    (heap0 : TicketId → TimerTicket) (calls : List Call)
    (h0 : ∀ a, (heap0 a).isScheduled = false)
    (hty : ∀ c ∈ calls, c.WellTyped) (hf : calls.length ≤ fuel) :
    ∃ s l, run fuel (newTimer heap0) calls = some s ∧
      IsQueue s.heap s.m_firstTicket l ∧ l.Nodup ∧
      (∀ a, (s.heap a).isScheduled = true ↔ a ∈ l) := by
  obtain ⟨s, l, hrun, hinv⟩ :=
    run_inv calls (newTimer_inv heap0 h0) hty (by simpa using hf)
  exact ⟨s, l, hrun, hinv.1, IsQueue.nodup hinv.1, hinv.2.1⟩

/-- Instance of C19: two tickets are scheduled with periods in days and in hours, one
of them is rescheduled once, and the timer is started, ticked twice and stopped. -/
theorem queue_invariant_at_operation_boundaries_witness :
    ∃ s l, run 8 (newTimer idleHeap)
        [Call.schedRepeat 0 1 1 units_t.DAYS 2 units_t.DAYS,
          Call.schedRepeat3 0 2 1 units_t.HOURS,
          Call.schedOneTime 5 1 3 units_t.SECONDS,
          Call.start, Call.doTick 10, Call.process 4000, Call.doTick 3600000,
          Call.stop] = some s ∧
      IsQueue s.heap s.m_firstTicket l ∧ l.Nodup ∧
      (∀ a, (s.heap a).isScheduled = true ↔ a ∈ l) :=
  queue_invariant_at_operation_boundaries 8 idleHeap _
    (fun _ => (by decide : idleTicket.isScheduled = false)) (by decide)
    (by decide)


/-! ## Termination of the firing loop -/

/-- The loop of `addTicket` does not call a delegate. -/
theorem addTicketLoop_invoked (T : TicketId) :
    ∀ (fuel : Nat) (s : TimerState) (cur : TicketId) (nxt : Option TicketId)
      (r : TimerState), addTicketLoop T fuel s cur nxt = some r → r.invoked = s.invoked
  | 0, _, _, _, _, hr => by cases hr
  | fuel + 1, s, cur, none, r, hr => by
    simp only [addTicketLoop, Option.some.injEq] at hr
    subst hr
    rfl
  | fuel + 1, s, cur, some n, r, hr => by
    simp only [addTicketLoop] at hr
    by_cases hc : (s.setDelay T (sub32 (s.delay T) (s.delay cur))).delay T <
        (s.setDelay T (sub32 (s.delay T) (s.delay cur))).delay n
    · rw [if_pos hc] at hr
      cases hr
      rfl
    · rw [if_neg hc] at hr
      have h := addTicketLoop_invoked T fuel _ n _ r hr
      exact h

/-- Insertion does not call a delegate. -/
theorem addTicketInsert_invoked {fuel : Nat} {s r : TimerState} {T : TicketId}
    (hr : addTicketInsert fuel s T = some r) : r.invoked = s.invoked := by
  unfold addTicketInsert at hr
  cases hfirst : s.m_firstTicket with
  | none =>
    simp only [TimerState.modify, hfirst] at hr
    cases hr
    rfl
  | some first =>
    simp only [TimerState.modify, hfirst] at hr
    split at hr
    · cases hr
      rfl
    · have h := addTicketLoop_invoked T fuel _ first _ r hr
      exact h

/-- Insertion of a ticket that is not in the queue, without any assumption on flags:
the function returns, the ticket is spliced in and marked scheduled, no other flag
and no period changes, the offsets stay 32-bit values, the tickets in front of the
new one keep their offsets, and the new one keeps its offset when all tickets in
front of it have offset zero. -/
theorem addTicketInsert_front {fuel : Nat} {s : TimerState} {T : TicketId}
    {l : List TicketId}
    (hq : IsQueue s.heap s.m_firstTicket l) (hT : T ∉ l)
    (hd : ∀ a ∈ l, s.delay a < ULONG_MOD) (hdT : s.delay T < ULONG_MOD)
    (hf : l.length < fuel) :
    ∃ s1 l1 l2, addTicketInsert fuel s T = some s1 ∧ l = l1 ++ l2 ∧
      IsQueue s1.heap s1.m_firstTicket (l1 ++ T :: l2) ∧
      (s1.heap T).isScheduled = true ∧
      (∀ a, a ≠ T → (s1.heap a).m_flags = (s.heap a).m_flags) ∧
      (∀ a, (s1.heap a).m_period = (s.heap a).m_period) ∧
      (∀ a ∈ l1 ++ T :: l2, s1.delay a < ULONG_MOD) ∧
      (∀ a ∈ l1, s1.delay a = s.delay a) ∧
      ((∀ a ∈ l1, s.delay a = 0) → s1.delay T = s.delay T) := by
  obtain ⟨s1, l1, l2, hins, hsplit, hq1, hs1, hflags, hsame, hsum, hper, hlt, hzero⟩ :=
    addTicketInsert_delay_spec hq hT hf hd
  have hnd : (l1 ++ l2).Nodup := hsplit ▸ IsQueue.nodup hq
  have hmem : ∀ a, a ≠ T → (a ∈ l1 ++ T :: l2 ↔ a ∈ l) := by
    intro a haT
    rw [hsplit]
    simp [haT]
  refine ⟨s1, l1, l2, hins, hsplit, hq1, hs1, hflags, hper, ?_, ?_, hzero hdT⟩
  · intro a ha
    by_cases haT : a = T
    · subst haT
      rcases hlt with h | h
      · rw [h]; exact hdT
      · exact h
    · have hal : a ∈ l := (hmem a haT).mp ha
      by_cases hh : a ∈ l2.head?
      · have := hsum a hh
        have := hd a hal
        omega
      · rw [hsame a haT hh]
        exact hd a hal
  · intro a ha
    have haT : a ≠ T := fun he => hT (hsplit ▸ List.mem_append.mpr (Or.inl (he ▸ ha)))
    apply hsame a haT
    intro hh
    have h2 : a ∈ l2 := List.mem_of_mem_head? hh
    exact (List.nodup_append.mp hnd).2.2 ha h2

/-- The run of zero offsets at the front of a queue only depends on the offsets of
its tickets. -/
theorem takeWhile_zero_congr {s s1 : TimerState} :
    ∀ {l : List TicketId}, (∀ a ∈ l, s1.delay a = s.delay a) →
      l.takeWhile (fun a => decide (s1.delay a = 0)) =
        l.takeWhile (fun a => decide (s.delay a = 0))
  | [], _ => rfl
  | b :: l, h => by
    have hb := h b (List.mem_cons_self b l)
    have ih := takeWhile_zero_congr (fun a ha => h a (List.mem_cons_of_mem b ha))
    simp only [List.takeWhile_cons, hb, ih]

/-- After a ticket with a non-zero offset has been spliced into a queue, every ticket
of the run of zero offsets at the front was in that run before. -/
theorem takeWhile_zero_splice {s s1 : TimerState} {T : TicketId} {l2 : List TicketId} :
    ∀ {l1 : List TicketId}, (∀ a ∈ l1, s1.delay a = s.delay a) →
      ((∀ a ∈ l1, s.delay a = 0) → s1.delay T ≠ 0) →
      ∀ a ∈ (l1 ++ T :: l2).takeWhile (fun a => decide (s1.delay a = 0)),
        a ∈ (l1 ++ l2).takeWhile (fun a => decide (s.delay a = 0))
  | [], _, hT, a, ha => by
    have h0 := hT (fun _ h => absurd h (List.not_mem_nil _))
    simp [List.takeWhile_cons, h0] at ha
  | b :: l1, h, hT, a, ha => by
    have hb := h b (List.mem_cons_self b l1)
    by_cases h0 : s.delay b = 0
    · have ih : ∀ a ∈ (l1 ++ T :: l2).takeWhile (fun a => decide (s1.delay a = 0)),
          a ∈ (l1 ++ l2).takeWhile (fun a => decide (s.delay a = 0)) :=
        takeWhile_zero_splice
          (fun a ha => h a (List.mem_cons_of_mem b ha))
          (fun hz => hT (fun a ha => by
            rcases List.mem_cons.mp ha with he | hm
            · rw [he]; exact h0
            · exact hz a hm))
      simp only [List.cons_append, List.takeWhile_cons, hb, h0, decide_True, if_true,
        List.mem_cons] at ha ⊢
      rcases ha with he | hm
      · exact Or.inl he
      · exact Or.inr (ih a hm)
    · simp [List.takeWhile_cons, hb, h0] at ha

/-- One iteration of the loop of `doTick` on a due head `T`, with the log of
invocations: the head is unlinked and unflagged, its delegate is invoked when it is
not empty, and the ticket is re-inserted when its period is not zero. -/
theorem doTickLoop_pop_log {fuel n : Nat} {s : TimerState} {T : TicketId}
    (h1 : s.m_firstTicket = some T) (h0 : s.delay T = 0) :
    ∃ s4, s4.heap = ((s.setNext T none).modify T (fun t => t.setScheduled false)).heap ∧
      s4.m_firstTicket = s.next T ∧
      s4.invoked = (if (s.heap T).m_delegate then s.invoked ++ [T] else s.invoked) ∧
      doTickLoop fuel (n + 1) s =
        if (s4.heap T).m_period ≠ 0 then
          (addTicket fuel (s4.modify T
            (fun t => t.setDelayOffset t.m_period t.getPeriodUnits)) T).bind
              (doTickLoop fuel n)
        else doTickLoop fuel n s4 := by
  cases hdel : (s.heap T).m_delegate
  · refine ⟨(({ s with m_firstTicket := s.next T } : TimerState).setNext T none).modify T
      (fun t => t.setScheduled false), rfl, rfl, rfl, ?_⟩
    simp only [doTickLoop, h1, h0, hdel, ↓reduceIte, Bool.false_eq_true]
    split
    · cases addTicket fuel _ T <;> rfl
    · rfl
  · refine ⟨(({ s with m_firstTicket := s.next T, invoked := s.invoked ++ [T] } :
      TimerState).setNext T none).modify T (fun t => t.setScheduled false), rfl, rfl,
      rfl, ?_⟩
    simp only [doTickLoop, h1, h0, hdel, ↓reduceIte, Bool.false_eq_true]
    split
    · cases addTicket fuel _ T <;> rfl
    · rfl

/-- The loop of `doTick` on a well-formed queue with 32-bit offsets and 16-bit
periods: it returns within `zeroPrefix + 1` iterations, the queue stays well-formed
and does not grow, on return the queue is empty or its head has a non-zero offset,
and the tickets invoked are distinct tickets of the run of zero offsets at the front
of the initial queue. -/
theorem doTickLoop_fires_once {fuel : Nat} :
    ∀ (n : Nat) {s : TimerState} {l : List TicketId},
      WellFormed s l → (∀ a ∈ l, s.delay a < ULONG_MOD) →
      (∀ a ∈ l, (s.heap a).m_period < 65536) →
      zeroPrefix s l < n → l.length < fuel →
      ∃ s1 l1 fired, doTickLoop fuel n s = some s1 ∧ WellFormed s1 l1 ∧
        (∀ a ∈ l1, s1.delay a < ULONG_MOD) ∧
        (∀ a ∈ l1, (s1.heap a).m_period < 65536) ∧
        l1.length ≤ l.length ∧ zeroPrefix s1 l1 = 0 ∧
        s1.invoked = s.invoked ++ fired ∧ fired.Nodup ∧
        (∀ a ∈ fired, a ∈ l.takeWhile (fun a => decide (s.delay a = 0)))
  | 0, _, _, _, _, _, hz, _ => absurd hz (Nat.not_lt_zero _)
  | n + 1, s, [], hw, hdl, hpl, _, _ => by
    have h1 : s.m_firstTicket = none := hw.1
    exact ⟨s, [], [], by simp only [doTickLoop, h1], hw, hdl, hpl, Nat.le_refl _, rfl,
      (List.append_nil _).symm, List.nodup_nil, fun _ h => absurd h (List.not_mem_nil _)⟩
  | n + 1, s, T :: rest, hw, hdl, hpl, hz, hf => by
    have h1 : s.m_firstTicket = some T := hw.1.1
    by_cases h0 : s.delay T = 0
    · obtain ⟨hq, hfl⟩ := hw
      have hnd : (T :: rest).Nodup := IsQueue.nodup hq
      have hTrest : T ∉ rest := (List.nodup_cons.mp hnd).1
      obtain ⟨s4, hheap, hfirst, hlog, hrun⟩ := @doTickLoop_pop_log fuel n s T h1 h0
      have hs4o : ∀ a, a ≠ T → s4.heap a = s.heap a := by
        intro a ha
        rw [hheap, modify_heap_other _ _ _ _ ha, setNext_heap_other _ _ _ _ ha]
      have hs4d : ∀ a, s4.delay a = s.delay a := by
        intro a
        show (s4.heap a).m_delayOffset = (s.heap a).m_delayOffset
        rw [hheap]
        exact (modify_delay_of _ _ _ _ (fun t => setScheduled_delay t false)).trans
          (setNext_delay _ _ _ _)
      have hs4p : ∀ a, (s4.heap a).m_period = (s.heap a).m_period := by
        intro a
        rw [hheap, modify_period_of _ _ _ _ (fun t => setScheduled_period t false),
          setNext_heap_period]
      have hs4f : (s4.heap T).isScheduled = false := by
        rw [hheap, modify_heap_same]
        exact setScheduled_false_isScheduled _
      have hne : ∀ a ∈ rest, a ≠ T := fun a ha he => hTrest (he ▸ ha)
      have hq4 : IsQueue s4.heap s4.m_firstTicket rest := by
        rw [hfirst]
        exact IsQueue.congr (h := s.heap)
          (fun a ha => by rw [hs4o a (hne a ha)]) hq.2
      have hw4 : WellFormed s4 rest :=
        ⟨hq4, fun a ha => by
          rw [hs4o a (hne a ha)]
          exact hfl a (List.mem_cons_of_mem T ha)⟩
      have hdl4 : ∀ a ∈ rest, s4.delay a < ULONG_MOD := fun a ha => by
        rw [hs4d a]
        exact hdl a (List.mem_cons_of_mem T ha)
      have hpl4 : ∀ a ∈ rest, (s4.heap a).m_period < 65536 := fun a ha => by
        rw [hs4p a]
        exact hpl a (List.mem_cons_of_mem T ha)
      have hz4 : zeroPrefix s4 rest < n := by
        have e1 : zeroPrefix s4 rest = zeroPrefix s rest :=
          zeroPrefix_congr (fun a _ => hs4d a)
        rw [zeroPrefix_cons_zero _ _ _ h0] at hz
        omega
      have hlen : rest.length < fuel := by
        simp only [List.length_cons] at hf
        omega
      have htw : (T :: rest).takeWhile (fun a => decide (s.delay a = 0)) =
          T :: rest.takeWhile (fun a => decide (s.delay a = 0)) := by
        simp [List.takeWhile_cons, h0]
      have htw4 : rest.takeWhile (fun a => decide (s4.delay a = 0)) =
          rest.takeWhile (fun a => decide (s.delay a = 0)) :=
        takeWhile_zero_congr (fun a _ => hs4d a)
      -- the tickets invoked by the rest of the loop, put after the head
      have hfinish : ∀ (s7 : TimerState) (fired7 : List TicketId),
          s7.invoked = s4.invoked ++ fired7 → fired7.Nodup →
          (∀ a ∈ fired7, a ∈ rest.takeWhile (fun a => decide (s.delay a = 0))) →
          ∃ fired, s7.invoked = s.invoked ++ fired ∧ fired.Nodup ∧
            ∀ a ∈ fired, a ∈ (T :: rest).takeWhile (fun a => decide (s.delay a = 0)) := by
        intro s7 fired7 hinv7 hnd7 hsub7
        have hT7 : T ∉ fired7 := fun hm => hTrest ((List.takeWhile_sublist _).subset (hsub7 T hm))
        rw [htw]
        cases hdel : (s.heap T).m_delegate
        · refine ⟨fired7, ?_, hnd7, fun a ha => List.mem_cons_of_mem T (hsub7 a ha)⟩
          rw [hinv7, hlog, hdel]
          rfl
        · refine ⟨T :: fired7, ?_, List.nodup_cons.mpr ⟨hT7, hnd7⟩, ?_⟩
          · rw [hinv7, hlog, hdel]
            simp
          · intro a ha
            rcases List.mem_cons.mp ha with he | hm
            · rw [he]; exact List.mem_cons_self T _
            · exact List.mem_cons_of_mem T (hsub7 a hm)
      by_cases hp : (s4.heap T).m_period ≠ 0
      · rw [hrun, if_pos hp]
        have hpT : (s4.heap T).m_period < 65536 := by
          rw [hs4p T]
          exact hpl T (List.mem_cons_self T rest)
        obtain ⟨hnz, hlt⟩ := setDelayOffset_period_pos (s4.heap T) (s4.heap T).m_period
          (s4.heap T).getPeriodUnits hp hpT
        have hs5o : ∀ a, a ≠ T →
            (s4.modify T (fun t => t.setDelayOffset t.m_period t.getPeriodUnits)).heap a =
              s4.heap a :=
          fun a ha => modify_heap_other _ _ _ _ ha
        have hs5T : (s4.modify T
            (fun t => t.setDelayOffset t.m_period t.getPeriodUnits)).heap T =
              (s4.heap T).setDelayOffset (s4.heap T).m_period (s4.heap T).getPeriodUnits :=
          modify_heap_same _ _ _
        have hs5f : ((s4.modify T
            (fun t => t.setDelayOffset t.m_period t.getPeriodUnits)).heap T).isScheduled =
              false := by
          rw [hs5T, isScheduled_congr (setDelayOffset_flags _ _ _)]
          exact hs4f
        have hs5d : ∀ a ∈ rest, (s4.modify T
            (fun t => t.setDelayOffset t.m_period t.getPeriodUnits)).delay a =
              s4.delay a := fun a ha => by
          show ((s4.modify T
            (fun t => t.setDelayOffset t.m_period t.getPeriodUnits)).heap a).m_delayOffset =
              (s4.heap a).m_delayOffset
          rw [hs5o a (hne a ha)]
        have hq5 : IsQueue
            (s4.modify T (fun t => t.setDelayOffset t.m_period t.getPeriodUnits)).heap
            (s4.modify T (fun t => t.setDelayOffset t.m_period t.getPeriodUnits)).m_firstTicket
            rest :=
          IsQueue.congr (h := s4.heap)
            (fun a ha => by rw [hs5o a (hne a ha)]) hq4
        obtain ⟨s6, l1, l2, hins, hsplit, hq6, hs6, hfl6, hper6, hdl6, hsame, hzero⟩ :=
          addTicketInsert_front
            (s := s4.modify T (fun t => t.setDelayOffset t.m_period t.getPeriodUnits))
            (T := T) hq5 hTrest
            (fun a ha => by rw [hs5d a ha]; exact hdl4 a ha)
            (by
              show ((s4.modify T
                (fun t => t.setDelayOffset t.m_period t.getPeriodUnits)).heap T).m_delayOffset
                  < ULONG_MOD
              rw [hs5T]
              exact hlt)
            hlen
        have hadd : addTicket fuel
            (s4.modify T (fun t => t.setDelayOffset t.m_period t.getPeriodUnits)) T =
              some s6 := by
          simp only [addTicket, hs5f]
          exact hins
        have hinv6 : s6.invoked = s4.invoked := by
          have h := addTicketInsert_invoked hins
          exact h
        have hmem6 : ∀ a, a ≠ T → (a ∈ l1 ++ T :: l2 ↔ a ∈ rest) := by
          intro a haT
          rw [hsplit]
          simp [haT]
        have hw6 : WellFormed s6 (l1 ++ T :: l2) := by
          refine ⟨hq6, fun a ha => ?_⟩
          by_cases haT : a = T
          · rw [haT]; exact hs6
          · rw [isScheduled_congr (hfl6 a haT), hs5o a haT]
            exact hw4.2 a ((hmem6 a haT).mp ha)
        have hpl6 : ∀ a ∈ l1 ++ T :: l2, (s6.heap a).m_period < 65536 := by
          intro a ha
          rw [hper6 a]
          by_cases haT : a = T
          · rw [haT, hs5T, setDelayOffset_period]
            exact hpT
          · rw [hs5o a haT]
            exact hpl4 a ((hmem6 a haT).mp ha)
        have hTnz : (∀ a ∈ l1, (s4.modify T
            (fun t => t.setDelayOffset t.m_period t.getPeriodUnits)).delay a = 0) →
            s6.delay T ≠ 0 := fun hall => by
          rw [hzero hall]
          show ((s4.modify T
            (fun t => t.setDelayOffset t.m_period t.getPeriodUnits)).heap T).m_delayOffset
              ≠ 0
          rw [hs5T]
          exact hnz
        have hz5 : zeroPrefix
            (s4.modify T (fun t => t.setDelayOffset t.m_period t.getPeriodUnits)) rest =
              zeroPrefix s4 rest :=
          zeroPrefix_congr hs5d
        have hz6 : zeroPrefix s6 (l1 ++ T :: l2) ≤
            zeroPrefix
              (s4.modify T (fun t => t.setDelayOffset t.m_period t.getPeriodUnits))
              (l1 ++ l2) :=
          zeroPrefix_splice hsame hTnz
        rw [← hsplit, hz5] at hz6
        have htw6 : ∀ a ∈ (l1 ++ T :: l2).takeWhile (fun a => decide (s6.delay a = 0)),
            a ∈ (l1 ++ l2).takeWhile (fun a => decide ((s4.modify T
              (fun t => t.setDelayOffset t.m_period t.getPeriodUnits)).delay a = 0)) :=
          takeWhile_zero_splice hsame hTnz
        rw [← hsplit, takeWhile_zero_congr hs5d, htw4] at htw6
        have hlen6 : (l1 ++ T :: l2).length = rest.length + 1 := by
          rw [hsplit]
          simp
          omega
        obtain ⟨s7, l7, fired7, hrun7, hw7, hdl7, hpl7, hlen7, hz7, hinv7, hnd7, hsub7⟩ :=
          doTickLoop_fires_once n hw6 hdl6 hpl6 (by omega)
            (by rw [hlen6]; simpa using hf)
        obtain ⟨fired, hinvF, hndF, hsubF⟩ :=
          hfinish s7 fired7 (by rw [hinv7, hinv6]) hnd7
            (fun a ha => htw6 a (hsub7 a ha))
        refine ⟨s7, l7, fired, ?_, hw7, hdl7, hpl7, ?_, hz7, hinvF, hndF, hsubF⟩
        · rw [hadd, Option.some_bind]
          exact hrun7
        · rw [hlen6] at hlen7
          simpa using hlen7
      · rw [hrun, if_neg hp]
        obtain ⟨s7, l7, fired7, hrun7, hw7, hdl7, hpl7, hlen7, hz7, hinv7, hnd7, hsub7⟩ :=
          doTickLoop_fires_once n hw4 hdl4 hpl4 hz4 hlen
        obtain ⟨fired, hinvF, hndF, hsubF⟩ :=
          hfinish s7 fired7 hinv7 hnd7 (fun a ha => htw4 ▸ hsub7 a ha)
        refine ⟨s7, l7, fired, hrun7, hw7, hdl7, hpl7, ?_, hz7, hinvF, hndF, hsubF⟩
        simp only [List.length_cons]
        omega
    · refine ⟨s, T :: rest, [], ?_, hw, hdl, hpl, Nat.le_refl _,
        zeroPrefix_cons_pos _ _ _ h0, (List.append_nil _).symm, List.nodup_nil,
        fun _ h => absurd h (List.not_mem_nil _)⟩
      simp only [doTickLoop, h1, h0, if_false]

/-- C21. The firing loop terminates: for every well-formed queue `l` with 32-bit
offsets and 16-bit periods (any mix of one-shot and periodic tickets, any stored
units, empty or non-empty delegates) and every `currentMs`, `doTick` returns when
the loop bound exceeds the length of the queue; the tickets invoked during the call
are pairwise distinct tickets of `l`; the queue is well-formed again; and on return
the queue is empty or its head has a non-zero offset. -/
theorem doTick_terminates_fires_once (fuel : Nat) (s : TimerState) (l : List TicketId)
    (currentMs : Nat) (hw : WellFormed s l) (hd : ∀ a ∈ l, s.delay a < ULONG_MOD)
    (hp : ∀ a ∈ l, (s.heap a).m_period < 65536) (hf : l.length < fuel) :
    ∃ s1 l1 fired, doTick fuel s currentMs = some s1 ∧
      s1.invoked = s.invoked ++ fired ∧ fired.Nodup ∧ (∀ a ∈ fired, a ∈ l) ∧
      WellFormed s1 l1 ∧
      (s1.m_firstTicket = none ∨ ∃ h, s1.m_firstTicket = some h ∧ s1.delay h ≠ 0) := by
  obtain ⟨su, hrun, h1, _, _, hinvu, _, _, _, _, hnext, hflags, hper, _, hdu⟩ :=
    updateScheduleLoop_spec (elapsedTime s.m_lastTick currentMs) hw.1 hf
  have hup : updateSchedule fuel s currentMs = some { su with m_lastTick := currentMs } := by
    simp only [updateSchedule, hrun]
  have hwu : WellFormed { su with m_lastTick := currentMs } l := by
    refine ⟨?_, fun a ha => ?_⟩
    · show IsQueue su.heap su.m_firstTicket l
      rw [h1]
      exact IsQueue.congr (h := s.heap) (fun a _ => hnext a) hw.1
    · show (su.heap a).isScheduled = true
      rw [isScheduled_congr (hflags a)]
      exact hw.2 a ha
  have hdlu : ∀ a ∈ l, ({ su with m_lastTick := currentMs } : TimerState).delay a <
      ULONG_MOD := by
    intro a ha
    show su.delay a < ULONG_MOD
    rcases hdu a with h | h
    · rw [h]; exact hd a ha
    · exact h
  have hplu : ∀ a ∈ l,
      (({ su with m_lastTick := currentMs } : TimerState).heap a).m_period < 65536 := by
    intro a ha
    show (su.heap a).m_period < 65536
    rw [hper a]
    exact hp a ha
  obtain ⟨s2, l2, fired, hloop, hw2, _, _, _, hz2, hinv2, hnd2, hsub2⟩ :=
    doTickLoop_fires_once fuel hwu hdlu hplu
      (Nat.lt_of_le_of_lt (zeroPrefix_le_length _ l) hf) hf
  have hinv : s2.invoked = s.invoked ++ fired := by
    rw [hinv2]
    show su.invoked ++ fired = s.invoked ++ fired
    rw [hinvu]
  have hmem : ∀ a ∈ fired, a ∈ l :=
    fun a ha => (List.takeWhile_sublist _).subset (hsub2 a ha)
  cases hfirst : s2.m_firstTicket with
  | none =>
    exact ⟨s2, l2, fired, by simp only [doTick, hup, hloop, hfirst], hinv, hnd2, hmem,
      hw2, Or.inl hfirst⟩
  | some first =>
    have hnz : s2.delay first ≠ 0 := by
      intro h0
      cases l2 with
      | nil =>
        have hn : s2.m_firstTicket = none := hw2.1
        rw [hn] at hfirst
        cases hfirst
      | cons b l2 =>
        have hb : s2.m_firstTicket = some b := hw2.1.1
        rw [hb] at hfirst
        cases hfirst
        rw [zeroPrefix_cons_zero _ _ _ h0] at hz2
        cases hz2
    cases hr : s2.m_running with
    | false =>
      refine ⟨s2, l2, fired, ?_, hinv, hnd2, hmem, hw2, Or.inr ⟨first, hfirst, hnz⟩⟩
      simp only [doTick, hup, hloop, hfirst, hr]
      rfl
    | true =>
      refine ⟨setNextTickTimer s2 (s2.delay first), l2, fired, ?_, hinv, hnd2, hmem,
        hw2, Or.inr ⟨first, hfirst, hnz⟩⟩
      simp only [doTick, hup, hloop, hfirst, hr]
      rfl

theorem dueState_wellFormed : WellFormed dueState [1, 2, 3] := by
  decide

/-- Instance of C21: tickets `1` (periodic, seconds) and `2` (one-shot) are due and
ticket `3` (periodic) is not; `doTick` at time `4`. -/
theorem doTick_terminates_fires_once_witness :
    ∃ s1 l1 fired, doTick 4 dueState 4 = some s1 ∧
      s1.invoked = dueState.invoked ++ fired ∧ fired.Nodup ∧
      (∀ a ∈ fired, a ∈ [1, 2, 3]) ∧ WellFormed s1 l1 ∧
      (s1.m_firstTicket = none ∨ ∃ h, s1.m_firstTicket = some h ∧ s1.delay h ≠ 0) :=
  doTick_terminates_fires_once 4 dueState [1, 2, 3] 4 dueState_wellFormed (by decide)
    (by decide) (by decide)

/-- The instance by evaluation: `doTick` at time `4` on the queue `1 → 2 → 3` invokes
tickets `1` and `2` once each, ticket `1` is queued again behind ticket `3` and the
head has offset `3`. -/
theorem doTick_dueState :
    (doTick 4 dueState 4).bind (fun s => (queueView 4 s).map (fun q => (s.invoked, q))) =
      some ([1, 2], [(3, 3), (1, 3000)]) := by
  decide


/-! ## Unsigned subtractions -/

/-- Forgetting the log of `addTicketLoopLog` gives `addTicketLoop`. -/
theorem addTicketLoopLog_fst (T : TicketId) :
    ∀ (fuel : Nat) (s : TimerState) (cur : TicketId) (nxt : Option TicketId),
      (addTicketLoopLog T fuel s cur nxt).map Prod.fst = addTicketLoop T fuel s cur nxt
  | 0, _, _, _ => rfl
  | _ + 1, _, _, none => rfl
  | fuel + 1, s, cur, some n => by
    simp only [addTicketLoopLog, addTicketLoop]
    split
    · rfl
    · rw [Option.map_map]
      exact addTicketLoopLog_fst T fuel _ n _

/-- Forgetting the log of `addTicketInsertLog` gives `addTicketInsert`. -/
theorem addTicketInsertLog_fst (fuel : Nat) (s : TimerState) (T : TicketId) :
    (addTicketInsertLog fuel s T).map Prod.fst = addTicketInsert fuel s T := by
  unfold addTicketInsertLog addTicketInsert
  cases hfirst : s.m_firstTicket with
  | none =>
    simp only [TimerState.modify, hfirst]
    rfl
  | some first =>
    simp only [TimerState.modify, hfirst]
    split
    · rfl
    · exact addTicketLoopLog_fst T fuel _ first _

/-- Forgetting the log of `addTicketLog` gives `addTicket`. -/
theorem addTicketLog_fst (fuel : Nat) (s : TimerState) (T : TicketId) :
    (addTicketLog fuel s T).map Prod.fst = addTicket fuel s T := by
  unfold addTicketLog addTicket
  split
  · cases removeTicket fuel s T with
    | none => rfl
    | some s1 => exact addTicketInsertLog_fst fuel s1 T
  · exact addTicketInsertLog_fst fuel s T

/-- Forgetting the log of `updateScheduleLoopLog` gives `updateScheduleLoop`. -/
theorem updateScheduleLoopLog_fst :
    ∀ (fuel : Nat) (s : TimerState) (p : Option TicketId) (e : Nat),
      (updateScheduleLoopLog fuel s p e).map Prod.fst = updateScheduleLoop fuel s p e
  | 0, _, _, _ => rfl
  | _ + 1, _, none, _ => rfl
  | fuel + 1, s, some b, e => by
    simp only [updateScheduleLoopLog, updateScheduleLoop]
    split
    · rfl
    · rw [Option.map_map]
      exact updateScheduleLoopLog_fst fuel _ _ _

/-- Forgetting the log of `updateScheduleLog` gives `updateSchedule`. -/
theorem updateScheduleLog_fst (fuel : Nat) (s : TimerState) (newTick : Nat) :
    (updateScheduleLog fuel s newTick).map Prod.fst = updateSchedule fuel s newTick := by
  simp only [updateScheduleLog, updateSchedule]
  rw [← updateScheduleLoopLog_fst]
  cases updateScheduleLoopLog fuel s s.m_firstTicket (elapsedTime s.m_lastTick newTick) <;>
    rfl

/-- In the loop of `addTicket`, entered with the offset of `current` not above the
offset of the ticket, no subtraction has a subtrahend above its minuend. -/
theorem addTicketLoopLog_safe (T : TicketId) :
    ∀ (fuel : Nat) (s : TimerState) (cur : TicketId) (nxt : Option TicketId)
      (r : TimerState × List (Nat × Nat)),
      s.delay cur ≤ s.delay T → addTicketLoopLog T fuel s cur nxt = some r →
      ∀ p ∈ r.2, p.2 ≤ p.1
  | 0, _, _, _, _, _, hr => by cases hr
  | fuel + 1, s, cur, none, r, _, hr => by
    simp only [addTicketLoopLog, Option.some.injEq] at hr
    subst hr
    intro p hp
    exact absurd hp (List.not_mem_nil p)
  | fuel + 1, s, cur, some n, r, hle, hr => by
    simp only [addTicketLoopLog] at hr
    by_cases hc : (s.setDelay T (sub32 (s.delay T) (s.delay cur))).delay T <
        (s.setDelay T (sub32 (s.delay T) (s.delay cur))).delay n
    · rw [if_pos hc] at hr
      cases hr
      intro p hp
      simp only [List.mem_cons, List.mem_singleton, List.not_mem_nil, or_false] at hp
      rcases hp with rfl | rfl
      · exact hle
      · exact Nat.le_of_lt hc
    · rw [if_neg hc] at hr
      cases hrec : addTicketLoopLog T fuel (s.setDelay T (sub32 (s.delay T) (s.delay cur))) n
          ((s.setDelay T (sub32 (s.delay T) (s.delay cur))).next n) with
      | none =>
        rw [hrec] at hr
        cases hr
      | some r1 =>
        rw [hrec] at hr
        cases hr
        have ih := addTicketLoopLog_safe T fuel _ n _ r1 (Nat.le_of_not_lt hc) hrec
        intro p hp
        rcases List.mem_cons.mp hp with rfl | hm
        · exact hle
        · exact ih p hm

/-- In `addTicket` from `setScheduled(true)` on, in any state, no subtraction has a
subtrahend above its minuend. -/
theorem addTicketInsertLog_safe {fuel : Nat} {s : TimerState} {T : TicketId}
    {r : TimerState × List (Nat × Nat)} (hr : addTicketInsertLog fuel s T = some r) :
    ∀ p ∈ r.2, p.2 ≤ p.1 := by
  unfold addTicketInsertLog at hr
  cases hfirst : s.m_firstTicket with
  | none =>
    simp only [TimerState.modify, hfirst] at hr
    cases hr
    intro p hp
    exact absurd hp (List.not_mem_nil p)
  | some first =>
    simp only [TimerState.modify, hfirst] at hr
    split at hr
    · rename_i hc
      cases hr
      intro p hp
      rw [List.mem_singleton] at hp
      rw [hp]
      exact hc
    · rename_i hc
      exact addTicketLoopLog_safe T fuel _ first _ r (Nat.le_of_lt (Nat.lt_of_not_le hc)) hr

/-- In `addTicket`, in any state, no subtraction has a subtrahend above its minuend. -/
theorem addTicketLog_safe {fuel : Nat} {s : TimerState} {T : TicketId}
    {r : TimerState × List (Nat × Nat)} (hr : addTicketLog fuel s T = some r) :
    ∀ p ∈ r.2, p.2 ≤ p.1 := by
  unfold addTicketLog at hr
  split at hr
  · cases hrem : removeTicket fuel s T with
    | none =>
      rw [hrem] at hr
      cases hr
    | some s1 =>
      rw [hrem] at hr
      exact addTicketInsertLog_safe hr
  · exact addTicketInsertLog_safe hr

/-- In the loop of `updateSchedule`, in any state, no subtraction has a subtrahend
above its minuend. -/
theorem updateScheduleLoopLog_safe :
    ∀ (fuel : Nat) (s : TimerState) (p : Option TicketId) (e : Nat)
      (r : TimerState × List (Nat × Nat)),
      updateScheduleLoopLog fuel s p e = some r → ∀ q ∈ r.2, q.2 ≤ q.1
  | 0, _, _, _, _, hr => by cases hr
  | fuel + 1, s, none, e, r, hr => by
    simp only [updateScheduleLoopLog, Option.some.injEq] at hr
    subst hr
    intro q hq
    exact absurd hq (List.not_mem_nil q)
  | fuel + 1, s, some b, e, r, hr => by
    simp only [updateScheduleLoopLog] at hr
    by_cases hc : s.delay b ≥ e
    · rw [if_pos hc] at hr
      cases hr
      intro q hq
      rw [List.mem_singleton] at hq
      rw [hq]
      exact hc
    · rw [if_neg hc] at hr
      cases hrec : updateScheduleLoopLog fuel (s.setDelay b 0) ((s.setDelay b 0).next b)
          (sub32 e ((s.setDelay b 0).delay b)) with
      | none =>
        rw [hrec] at hr
        cases hr
      | some r1 =>
        rw [hrec] at hr
        cases hr
        have ih := updateScheduleLoopLog_safe fuel _ _ _ r1 hrec
        intro q hq
        rcases List.mem_cons.mp hq with rfl | hm
        · show (s.setDelay b 0).delay b ≤ e
          rw [setDelay_delay_same]
          exact Nat.zero_le e
        · exact ih q hm

/-- In `updateSchedule`, in any state, no subtraction has a subtrahend above its
minuend. -/
theorem updateScheduleLog_safe {fuel : Nat} {s : TimerState} {newTick : Nat}
    {r : TimerState × List (Nat × Nat)} (hr : updateScheduleLog fuel s newTick = some r) :
    ∀ q ∈ r.2, q.2 ≤ q.1 := by
  simp only [updateScheduleLog] at hr
  cases hrec : updateScheduleLoopLog fuel s s.m_firstTicket
      (elapsedTime s.m_lastTick newTick) with
  | none =>
    rw [hrec] at hr
    cases hr
  | some r1 =>
    rw [hrec] at hr
    cases hr
    exact updateScheduleLoopLog_safe fuel _ _ _ r1 hrec

/-- On a well-formed queue `addTicket` returns, for every ticket. -/
theorem addTicket_total {fuel : Nat} {s : TimerState} {l : List TicketId} (T : TicketId)
    (hw : WellFormed s l) (hf : l.length < fuel) : ∃ s1, addTicket fuel s T = some s1 := by
  by_cases hT : T ∈ l
  · obtain ⟨s1, _, h, _⟩ := addTicket_mem_spec hw.1 hT (hw.2 T hT) hf
    exact ⟨s1, h⟩
  · obtain ⟨s1, _, _, h, _⟩ := addTicket_not_mem_spec hw.1 hT hf
    exact ⟨s1, h⟩

/-- C22. No unsigned underflow. On every well-formed queue, for every ticket and every
new clock value, `addTicket` and `updateSchedule` return, and for each subtraction
`a -= b` they perform (on the offset of the inserted ticket, on the offset of its
successor, on the offset of an advanced ticket and on the elapsed time) the
subtrahend does not exceed the minuend, so that the stored 32-bit difference is the
exact difference `a - b`. The logged functions are `addTicket` and `updateSchedule`
with the list of subtractions added, and the bound on the subtractions holds in
every state in which they return, well-formed or not. -/
theorem no_unsigned_underflow (fuel : Nat) (s : TimerState) (l : List TicketId)
    (T : TicketId) (newTick : Nat) (hw : WellFormed s l) (hf : l.length < fuel) :
    (∃ r, addTicketLog fuel s T = some r ∧ addTicket fuel s T = some r.1 ∧
      ∀ p ∈ r.2, p.2 ≤ p.1 ∧ (p.1 < ULONG_MOD → sub32 p.1 p.2 = p.1 - p.2)) ∧
    (∃ r, updateScheduleLog fuel s newTick = some r ∧
      updateSchedule fuel s newTick = some r.1 ∧
      ∀ p ∈ r.2, p.2 ≤ p.1 ∧ (p.1 < ULONG_MOD → sub32 p.1 p.2 = p.1 - p.2)) ∧
    (∀ s0 : TimerState,
      (addTicketLog fuel s0 T).map Prod.fst = addTicket fuel s0 T ∧
      (updateScheduleLog fuel s0 newTick).map Prod.fst = updateSchedule fuel s0 newTick) ∧
    (∀ (s0 : TimerState) (r : TimerState × List (Nat × Nat)),
      (addTicketLog fuel s0 T = some r ∨ updateScheduleLog fuel s0 newTick = some r) →
      ∀ p ∈ r.2, p.2 ≤ p.1) := by
  refine ⟨?_, ?_, fun s0 => ⟨addTicketLog_fst fuel s0 T, updateScheduleLog_fst fuel s0 newTick⟩,
    ?_⟩
  · obtain ⟨s1, h1⟩ := addTicket_total T hw hf
    have hfst := addTicketLog_fst fuel s T
    cases hr : addTicketLog fuel s T with
    | none =>
      rw [hr, h1] at hfst
      cases hfst
    | some r =>
      rw [hr, h1] at hfst
      refine ⟨r, rfl, ?_, fun p hp => ?_⟩
      · rw [h1]
        exact hfst.symm
      · have hle := addTicketLog_safe hr p hp
        exact ⟨hle, fun hlt => sub32_eq_sub hlt hle⟩
  · obtain ⟨s1, h1, _⟩ :=
      updateScheduleLoop_spec (elapsedTime s.m_lastTick newTick) hw.1 hf
    have h2 : updateSchedule fuel s newTick = some { s1 with m_lastTick := newTick } := by
      simp only [updateSchedule, h1]
    have hfst := updateScheduleLog_fst fuel s newTick
    cases hr : updateScheduleLog fuel s newTick with
    | none =>
      rw [hr, h2] at hfst
      cases hfst
    | some r =>
      rw [hr, h2] at hfst
      refine ⟨r, rfl, ?_, fun p hp => ?_⟩
      · rw [h2]
        exact hfst.symm
      · have hle := updateScheduleLog_safe hr p hp
        exact ⟨hle, fun hlt => sub32_eq_sub hlt hle⟩
  · intro s0 r hr
    rcases hr with hr | hr
    · exact addTicketLog_safe hr
    · exact updateScheduleLog_safe hr

/-- Instance of C22: on the queue `1 → 2` with offsets `5` and `10`, ticket `1` is
added again and the schedule is advanced to time `7`. -/
theorem no_unsigned_underflow_witness :
    (∃ r, addTicketLog 3 pairState 1 = some r ∧ addTicket 3 pairState 1 = some r.1 ∧
      ∀ p ∈ r.2, p.2 ≤ p.1 ∧ (p.1 < ULONG_MOD → sub32 p.1 p.2 = p.1 - p.2)) ∧
    (∃ r, updateScheduleLog 3 pairState 7 = some r ∧
      updateSchedule 3 pairState 7 = some r.1 ∧
      ∀ p ∈ r.2, p.2 ≤ p.1 ∧ (p.1 < ULONG_MOD → sub32 p.1 p.2 = p.1 - p.2)) ∧
    (∀ s0 : TimerState,
      (addTicketLog 3 s0 1).map Prod.fst = addTicket 3 s0 1 ∧
      (updateScheduleLog 3 s0 7).map Prod.fst = updateSchedule 3 s0 7) ∧
    (∀ (s0 : TimerState) (r : TimerState × List (Nat × Nat)),
      (addTicketLog 3 s0 1 = some r ∨ updateScheduleLog 3 s0 7 = some r) →
      ∀ p ∈ r.2, p.2 ≤ p.1) :=
  no_unsigned_underflow 3 pairState [1, 2] 1 7 pairState_wellFormed (by decide)

/-- The logs by evaluation. On the queue `1 → 2` with offsets `5` and `10`: adding
ticket `1` again performs `10 - 5`; advancing to time `7` performs `7 - 0` and
`10 - 7`. After tickets with delays `5`, `15` and `30` have been scheduled the queue
holds the offsets `5`, `15` and `25`, and adding a ticket with delay `20` performs
`20 - 5`, `15 - 15` and, on its successor, `25 - 0`. -/
theorem subtraction_logs_by_evaluation :
    (addTicketLog 3 pairState 1).map Prod.snd = some [(10, 5)] ∧
    (updateScheduleLog 3 pairState 7).map Prod.snd = some [(7, 0), (10, 7)] ∧
    ((run 4 (newTimer idleHeap)
        [Call.schedOneTime 0 1 5 units_t.MILLIS, Call.schedOneTime 0 2 15 units_t.MILLIS,
          Call.schedOneTime 0 3 30 units_t.MILLIS]).bind (queueView 4)) =
      some [(1, 5), (2, 15), (3, 25)] ∧
    ((run 4 (newTimer idleHeap)
        [Call.schedOneTime 0 1 5 units_t.MILLIS, Call.schedOneTime 0 2 15 units_t.MILLIS,
          Call.schedOneTime 0 3 30 units_t.MILLIS]).bind
      (fun s => (addTicketLog 4 (s.setDelay 4 20) 4).map Prod.snd)) =
      some [(20, 5), (15, 15), (25, 0)] := by
  refine ⟨by decide, by decide, by decide, by decide⟩


end util
